import Mathlib

/-!
# Array storage, guard and per-core memory of foedus-core: a shallow embedding

The definitions below follow
`foedus-core/src/foedus/storage/array/array_storage_pimpl.cpp` function by
function.  Offsets into the page pool (`memory::PagePoolOffset`) and array
offsets (`ArrayOffset`) are natural numbers; the fixed-width conversions that
are written out in the source (`uint64_t diff`, `uint16_t record` in `lookup`,
the `ArrayOffset index` of `get_record`) are modelled with an explicit
remainder.  The fields of `ArrayStoragePimpl` and of `ArrayRange` are declared
in headers that are not among the sources at hand; their values are modelled
without a width, the theorems bound the array size by `2 ^ 64` and the fanout
by `2 ^ 16` where a conversion is involved.  A page pointer is represented by
the pool offset it was resolved from, and the page memory is a map from
offsets to pages.  `ASSERT_ND` is a no-op, as in a release build.  Loops that
need not end (`while (pages.back() != 1)`, the walk of `lookup`, the recursion
of `release_pages_recursive`) take a bound on their iterations and return
`none` when it is used up.

The destructor of `UninitializeGuard` (`foedus/initializable.cpp`) and the two
member functions of `NumaCoreMemory` (`foedus/memory/numa_core_memory.cpp`)
follow further down.  What a function does to the outside (messages, an
abort, calls of the page pool) is kept as a list of events in the order of
the source.  A call that ends the process, or that does not come back, has
the result `none`.  The shared rendezvous of `foedus/soc`, of which only the
test is at hand, is modelled from its description as a state machine.
-/

namespace Foedus

/-! ## Constants and small helpers -/

/-- Compile-time constants of `array_id.hpp`, a header that is not among the
sources at hand; they are taken as parameters. -/
structure ArrayConsts where
  DATA_SIZE : Nat
  RECORD_OVERHEAD : Nat
  INTERIOR_FANOUT : Nat

/-- Modelled from the spec: `assorted::int_div_ceil` (assorted_func.hpp is
missing); "pages per level bottom-up", the integer division rounded up. -/
def int_div_ceil (dividee dividor : Nat) : Nat :=
  if dividee % dividor = 0 then dividee / dividor else dividee / dividor + 1

/-- Modelled from the spec: `assorted::align8` (assorted_func.hpp is missing);
the spec's `align8(payload)`, the next multiple of eight. -/
def align8 (x : Nat) : Nat := (x + 7) / 8 * 8

/-- Subtraction of two `uint64_t` values. -/
def sub_u64 (a b : Nat) : Nat := (a + 2 ^ 64 - b) % 2 ^ 64

/-- The loop `while (pages.back() != 1)` of `calculate_required_pages`; the
first argument bounds the number of iterations, `none` when it is used up. -/
def calculate_required_pages_loop (K : ArrayConsts) : Nat → List Nat → Option (List Nat)
  | fuel, pages =>
    if pages.getLastD 0 ≠ 1 then
      match fuel with
      | 0 => none
      | fuel + 1 =>
        let next_level_pages := int_div_ceil (pages.getLastD 0) K.INTERIOR_FANOUT
        calculate_required_pages_loop K fuel (pages ++ [next_level_pages])
    else
      some pages

/-- `calculate_required_pages(array_size, payload)`: pages per level, index =
level.  `total_pages` is only logged and is left out. -/
def calculate_required_pages (K : ArrayConsts) (fuel : Nat) (array_size payload : Nat) :
    Option (List Nat) :=
  let records_per_page := K.DATA_SIZE / (payload + K.RECORD_OVERHEAD)
  let leaf_pages := int_div_ceil array_size records_per_page
  calculate_required_pages_loop K fuel [leaf_pages]

/-- A plan of pages per level above a level of `n` pages: every next level is
the rounded-up quotient by the fanout, and the plan stops at the first `1`. -/
inductive PagePlan (F : Nat) : Nat → List Nat → Prop
  | top : PagePlan F 1 []
  | up (n : Nat) (q : List Nat) : n ≠ 1 → PagePlan F ((n + F - 1) / F) q →
      PagePlan F n ((n + F - 1) / F :: q)

/-! ## Pages -/

/-- `ArrayRange` of array_id.hpp: the half-open range `[begin_, end_)`. -/
structure ArrayRange where
  begin_ : Nat
  end_ : Nat
deriving DecidableEq, Repr

/-- Modelled from the spec: `ArrayRange::contains` (array_id.hpp is missing);
"the returned leaf's range contains offset" for a range `[begin, end)`. -/
def ArrayRange.contains (r : ArrayRange) (offset : Nat) : Bool :=
  decide (r.begin_ ≤ offset) && decide (offset < r.end_)

/-- The `components` of a volatile page pointer that the array storage reads
and writes: `mod_count` and `offset`. -/
structure VolatilePagePointer where
  mod_count : Nat
  offset : Nat
deriving DecidableEq, Repr

/-- `DualPagePointer`: snapshot page id and volatile pointer. -/
structure DualPagePointer where
  snapshot_page_id_ : Nat
  volatile_pointer_ : VolatilePagePointer
deriving DecidableEq, Repr

/-- The all-zero dual pointer. -/
def DualPagePointer.null : DualPagePointer := ⟨0, ⟨0, 0⟩⟩

/-- A `Record`: owner id (version) and payload bytes, by byte index. -/
structure Record where
  owner_id_ : Nat
  payload_ : Nat → Nat

/-- An `ArrayPage`: header fields and the body, seen as interior records
(slot index to child pointer) and as leaf records (record index to record). -/
structure ArrayPage where
  storage_id_ : Nat
  payload_size_ : Nat
  node_height_ : Nat
  array_range_ : ArrayRange
  interior : Nat → DualPagePointer
  leaf : Nat → Record

/-- `ArrayPage::is_leaf`: height 0. -/
def ArrayPage.is_leaf (p : ArrayPage) : Bool := p.node_height_ == 0

/-- Modelled from the spec: `ArrayPage::initialize_data_page`
(array_page_impl is missing).  The header takes storage id, node height and
range; the body is reset, so every child pointer is null ("offset 0 is
reserved as null") and every leaf record carries the initial epoch. -/
def initialize_data_page (initial_epoch storage_id payload_size node_height : Nat)
    (array_range : ArrayRange) : ArrayPage :=
  { storage_id_ := storage_id
    payload_size_ := payload_size
    node_height_ := node_height
    array_range_ := array_range
    interior := fun _ => DualPagePointer.null
    leaf := fun _ => ⟨initial_epoch, fun _ => 0⟩ }

/-- The assignment of create to a child pointer: `snapshot_page_id_ = 0`,
`mod_count = 0`, `offset = child`. -/
def ArrayPage.set_child (p : ArrayPage) (slot child : Nat) : ArrayPage :=
  { p with interior := Function.update p.interior slot ⟨0, ⟨0, child⟩⟩ }

/-- The assignment `pointer.volatile_pointer_.components.offset = 0`. -/
def DualPagePointer.clear_offset (d : DualPagePointer) : DualPagePointer :=
  ⟨d.snapshot_page_id_, ⟨d.volatile_pointer_.mod_count, 0⟩⟩

/-- The assignment `child_pointer.volatile_pointer_.components.offset = 0` of
`release_pages_recursive` to the pointer in `slot`. -/
def ArrayPage.clear_child (p : ArrayPage) (slot : Nat) : ArrayPage :=
  { p with interior := Function.update p.interior slot (p.interior slot).clear_offset }

/-! ## The storage object and its surroundings -/

/-- Error codes: the ones the array storage returns and the resource
exhaustion codes of the memory, log and transaction components. -/
inductive ErrorCode where
  | RET_OK
  | ERROR_CODE_STR_ALREADY_EXISTS
  | ERROR_CODE_NOTIMPLEMENTED
  | READ_SET_OVERFLOW
  | WRITE_SET_OVERFLOW
  | LOG_BUFFER_FULL
  | NO_FREE_PAGES
deriving DecidableEq, Repr

/-- Modelled from the spec: `ErrorStack::is_error` (error_stack.hpp is
missing); an error stack is represented by its error code, and every code
but `RET_OK` is an error. -/
def ErrorCode.is_error (e : ErrorCode) : Bool := e != ErrorCode.RET_OK

/-- The fields of `ArrayStoragePimpl`.  `root_page_` is `none` for `nullptr`. -/
structure ArrayStoragePimpl where
  id_ : Nat
  payload_size_ : Nat
  payload_size_aligned_ : Nat
  array_size_ : Nat
  root_page_pointer_ : DualPagePointer
  root_page_ : Option Nat
  exist_ : Bool
  pages_ : List Nat
  levels_ : Nat
  offset_intervals_ : List Nat

/-- What the array storage touches outside itself.  `pages` is the page pool
memory behind the resolver.  `supply n` is the offset returned by the `n`-th
call of `grab_free_page` (numa_core_memory.cpp has no body for it), `grabbed`
the offsets handed out so far in call order, `released` the arguments of
`release_free_page` in call order, `registered` the ids given to the storage
manager. -/
structure World where
  pages : Nat → ArrayPage
  supply : Nat → Nat
  grabbed : List Nat
  released : List Nat
  registered : List Nat
  current_global_epoch : Nat

/-- `memory->grab_free_page()`. -/
def World.grab_free_page (w : World) : Nat × World :=
  (w.supply w.grabbed.length, { w with grabbed := w.grabbed ++ [w.supply w.grabbed.length] })

/-- `memory->release_free_page(offset)`. -/
def World.release_free_page (w : World) (offset : Nat) : World :=
  { w with released := w.released ++ [offset] }

/-- Write a page of the pool. -/
def World.put (w : World) (offset : Nat) (p : ArrayPage) : World :=
  { w with pages := Function.update w.pages offset p }

/-- The loop of the constructor that fills `offset_intervals_` for the levels
`1 .. levels - 1`, given the vector so far. -/
def build_offset_intervals (K : ArrayConsts) : Nat → List Nat → List Nat
  | 0, acc => acc
  | n + 1, acc =>
    build_offset_intervals K n (acc ++ [acc.getD (acc.length - 1) 0 * K.INTERIOR_FANOUT])

/-- The constructor `ArrayStoragePimpl::ArrayStoragePimpl`; `none` when
`calculate_required_pages` does not return within `fuel` iterations.  The
source hands the aligned payload size to `calculate_required_pages` through a
`uint16_t` parameter; here it is handed over as it is, which is the same for
an aligned payload size below `2 ^ 16`. -/
def ArrayStoragePimpl.construct (K : ArrayConsts) (fuel : Nat) (id payload_size array_size : Nat)
    (root_page_pointer : DualPagePointer) (create : Bool) : Option ArrayStoragePimpl :=
  let payload_size_aligned := align8 payload_size
  match calculate_required_pages K fuel array_size payload_size_aligned with
  | none => none
  | some pages =>
    some
      { id_ := id
        payload_size_ := payload_size
        payload_size_aligned_ := payload_size_aligned
        array_size_ := array_size
        root_page_pointer_ := root_page_pointer
        root_page_ := none
        exist_ := !create
        pages_ := pages
        levels_ := pages.length
        offset_intervals_ :=
          build_offset_intervals K (pages.length - 1)
            [K.DATA_SIZE / (payload_size_aligned + K.RECORD_OVERHEAD)] }

/-! ## create -/

/-- The three cursor vectors of create, index = level. -/
structure Cursors where
  current_pages : List Nat
  current_pages_offset : List Nat
  current_records : List Nat

/-- One iteration of the first loop of create: the left-most page of `level`. -/
def create_leftmost_step (self : ArrayStoragePimpl) (initial_epoch : Nat)
    (s : Cursors × World) (level : Nat) : Cursors × World :=
  let (offset, w) := s.2.grab_free_page
  let c := s.1
  let range : ArrayRange := ⟨0, self.offset_intervals_.getD level 0⟩
  let range : ArrayRange :=
    if range.end_ > self.array_size_ then { range with end_ := self.array_size_ } else range
  let page := initialize_data_page initial_epoch self.id_ self.payload_size_ level range
  if level = 0 then
    ({ current_pages := c.current_pages ++ [offset]
       current_pages_offset := c.current_pages_offset ++ [offset]
       current_records := c.current_records ++ [0] },
     w.put offset page)
  else
    ({ current_pages := c.current_pages ++ [offset]
       current_pages_offset := c.current_pages_offset ++ [offset]
       current_records := c.current_records ++ [1] },
     w.put offset (page.set_child 0 (c.current_pages_offset.getD (level - 1) 0)))

/-- The loop "push it up to parent, potentially up to root" for the levels
`level .. levels - 1`; the first argument is `levels - level`, the number of
iterations left.  `range` is the local of the enclosing loop body. -/
def create_push_up (K : ArrayConsts) (self : ArrayStoragePimpl) (initial_epoch : Nat) :
    Nat → Nat → ArrayRange → Cursors × World → Cursors × World
  | 0, _, _, s => s
  | n + 1, level, range, (c, w) =>
    if c.current_records.getD level 0 = K.INTERIOR_FANOUT then
      let (interior_offset, w) := w.grab_free_page
      let cur_end := (w.pages (c.current_pages.getD level 0)).array_range_.end_
      let interior_range : ArrayRange :=
        ⟨cur_end, cur_end + self.offset_intervals_.getD level 0⟩
      let range : ArrayRange :=
        if range.end_ > self.array_size_ then { range with end_ := self.array_size_ } else range
      let interior_page :=
        initialize_data_page initial_epoch self.id_ self.payload_size_ level interior_range
      let w := w.put interior_offset
        (interior_page.set_child 0 (c.current_pages_offset.getD (level - 1) 0))
      let c : Cursors :=
        { current_pages := c.current_pages.set level interior_offset
          current_pages_offset := c.current_pages_offset.set level interior_offset
          current_records := c.current_records.set level 1 }
      create_push_up K self initial_epoch n (level + 1) range (c, w)
    else
      let target := c.current_pages.getD level 0
      let w := w.put target
        ((w.pages target).set_child (c.current_records.getD level 0)
          (c.current_pages_offset.getD (level - 1) 0))
      ({ c with current_records :=
            c.current_records.set level (c.current_records.getD level 0 + 1) }, w)

/-- One iteration of the second loop of create: the next leaf to the right. -/
def create_leaf_step (K : ArrayConsts) (self : ArrayStoragePimpl) (initial_epoch : Nat)
    (s : Cursors × World) : Cursors × World :=
  let (offset, w) := s.2.grab_free_page
  let c := s.1
  let cur_end := (w.pages (c.current_pages.getD 0 0)).array_range_.end_
  let range : ArrayRange := ⟨cur_end, cur_end + self.offset_intervals_.getD 0 0⟩
  let range : ArrayRange :=
    if range.end_ > self.array_size_ then { range with end_ := self.array_size_ } else range
  let page := initialize_data_page initial_epoch self.id_ self.payload_size_ 0 range
  let w := w.put offset page
  let c : Cursors :=
    { c with current_pages := c.current_pages.set 0 offset
             current_pages_offset := c.current_pages_offset.set 0 offset }
  create_push_up K self initial_epoch (self.levels_ - 1) 1 range (c, w)

/-- The two loops of create: cursors and world after the tree is built. -/
def create_build (K : ArrayConsts) (self : ArrayStoragePimpl) (w : World) : Cursors × World :=
  let initial_epoch := w.current_global_epoch
  let s := (List.range self.levels_).foldl (create_leftmost_step self initial_epoch)
    (⟨[], [], []⟩, w)
  (List.range (self.pages_.getD 0 0 - 1)).foldl
    (fun s _ => create_leaf_step K self initial_epoch s) s

/-- `ArrayStoragePimpl::create`. -/
def ArrayStoragePimpl.create (K : ArrayConsts) (self : ArrayStoragePimpl) (w : World) :
    ErrorCode × ArrayStoragePimpl × World :=
  if self.exist_ then
    (ErrorCode.ERROR_CODE_STR_ALREADY_EXISTS, self, w)
  else
    let (c, w) := create_build K self w
    let self : ArrayStoragePimpl :=
      { self with
        root_page_pointer_ := ⟨0, ⟨0, c.current_pages_offset.getD (self.levels_ - 1) 0⟩⟩
        root_page_ := some (c.current_pages.getD (self.levels_ - 1) 0)
        exist_ := true }
    (ErrorCode.RET_OK, self, { w with registered := w.registered ++ [self.id_] })

/-! ## lookup -/

/-- The `while (!current_page->is_leaf())` loop of lookup from `current_page`;
the first argument bounds the number of iterations.  The result is the error
code and, on success, the page written to `out`; `none` when the bound is
used up. -/
def lookup_loop (self : ArrayStoragePimpl) (pages : Nat → ArrayPage) (offset : Nat) :
    Nat → Nat → Option (ErrorCode × Option Nat)
  | fuel, current_page =>
    if !(pages current_page).is_leaf then
      match fuel with
      | 0 => none
      | fuel + 1 =>
        let diff := sub_u64 offset (pages current_page).array_range_.begin_
        let record :=
          (diff / self.offset_intervals_.getD ((pages current_page).node_height_ - 1) 0) % 2 ^ 16
        let pointer := (pages current_page).interior record
        if pointer.volatile_pointer_.offset = 0 then
          some (ErrorCode.ERROR_CODE_NOTIMPLEMENTED, none)
        else
          lookup_loop self pages offset fuel pointer.volatile_pointer_.offset
    else
      some (ErrorCode.RET_OK, some current_page)

/-- `ArrayStoragePimpl::lookup`.  A null `root_page_` is dereferenced in the
source; here the page at offset 0 stands for it, so that the definition
follows the source for a storage whose `root_page_` is not null. -/
def ArrayStoragePimpl.lookup (self : ArrayStoragePimpl) (pages : Nat → ArrayPage) (fuel : Nat)
    (offset : Nat) : Option (ErrorCode × Option Nat) :=
  lookup_loop self pages offset fuel (self.root_page_.getD 0)

/-! ## uninitialize -/

/-- The body of the `for` loop of `release_pages_recursive` for slot `i` of
`page`; `rec` is the recursive call. -/
def release_child (rec : World → Nat → Nat → Option World) (page : Nat) (w : World) (i : Nat) :
    Option World :=
  let child_offset := ((w.pages page).interior i).volatile_pointer_.offset
  if child_offset ≠ 0 then
    match rec w child_offset child_offset with
    | none => none
    | some w => some (w.put page ((w.pages page).clear_child i))
  else
    some w

/-- `release_pages_recursive(resolver, memory, page, offset)`; the first
argument bounds the depth of the recursion, `none` when it is used up. -/
def release_pages_recursive (K : ArrayConsts) : Nat → World → Nat → Nat → Option World
  | 0, _, _, _ => none
  | fuel + 1, w, page, offset =>
    let children :=
      if !(w.pages page).is_leaf then
        (List.range K.INTERIOR_FANOUT).foldlM
          (release_child (release_pages_recursive K fuel) page) w
      else
        some w
    match children with
    | none => none
    | some w => some (w.release_free_page offset)

/-- `ArrayStoragePimpl::uninitialize_once`. -/
def ArrayStoragePimpl.uninitialize_once (K : ArrayConsts) (self : ArrayStoragePimpl)
    (fuel : Nat) (w : World) : Option (ErrorCode × ArrayStoragePimpl × World) :=
  match self.root_page_ with
  | some root_page =>
    match release_pages_recursive K fuel w root_page
        self.root_page_pointer_.volatile_pointer_.offset with
    | none => none
    | some w =>
      some (ErrorCode.RET_OK,
        { self with root_page_ := none
                    root_page_pointer_ := self.root_page_pointer_.clear_offset }, w)
  | none => some (ErrorCode.RET_OK, self, w)

/-! ## get_record -/

/-- One entry of the read set: the record (its page and index in the page)
and the owner id observed. -/
structure ReadAccess where
  page : Nat
  index : Nat
  observed_owner_id_ : Nat
deriving DecidableEq, Repr

/-- One entry of the write set: the record (its page and index in the page)
and the address of its log entry in the thread log buffer. -/
structure WriteAccess where
  page : Nat
  index : Nat
  log_entry_ : Nat
deriving DecidableEq, Repr

/-- The part of `xct::Xct` that get_record and overwrite_record use: the read
set and the write set with their capacities. -/
structure Xct where
  read_set_ : List ReadAccess
  max_read_set_size_ : Nat
  write_set_ : List WriteAccess
  max_write_set_size_ : Nat

/-- Modelled from the spec: `Xct::add_to_read_set` (xct_inl.hpp is missing);
"add to the read set (capturing the record's version)", "fails with
READ_SET_OVERFLOW when the arena is full". -/
def Xct.add_to_read_set (x : Xct) (page index : Nat) (record : Record) : ErrorCode × Xct :=
  if x.max_read_set_size_ ≤ x.read_set_.length then
    (ErrorCode.READ_SET_OVERFLOW, x)
  else
    (ErrorCode.RET_OK, { x with read_set_ := x.read_set_ ++ [⟨page, index, record.owner_id_⟩] })

/-- Modelled from the spec: `Xct::add_to_write_set` (xct_inl.hpp is missing);
"adds (record, log_entry) to the write set", "fails with ...
WRITE_SET_OVERFLOW" when the arena is full. -/
def Xct.add_to_write_set (x : Xct) (page index log_entry : Nat) : ErrorCode × Xct :=
  if x.max_write_set_size_ ≤ x.write_set_.length then
    (ErrorCode.WRITE_SET_OVERFLOW, x)
  else
    (ErrorCode.RET_OK, { x with write_set_ := x.write_set_ ++ [⟨page, index, log_entry⟩] })

/-- Modelled from the spec: the overwrite log entry of the array storage
(array_log_types.hpp is missing), "{storage_id, offset, payload_offset,
payload_count, bytes}". -/
structure OverwriteLogType where
  storage_id_ : Nat
  offset_ : Nat
  payload_offset_ : Nat
  payload_count_ : Nat
  payload_ : List Nat
deriving DecidableEq, Repr

/-- Modelled from the spec: `OverwriteLogType::populate`
(array_log_types.hpp is missing); the entry takes the five arguments, the
bytes being the first `payload_count` bytes of the caller's buffer. -/
def OverwriteLogType.populate (storage_id offset : Nat) (payload : Nat → Nat)
    (payload_offset payload_count : Nat) : OverwriteLogType :=
  { storage_id_ := storage_id
    offset_ := offset
    payload_offset_ := payload_offset
    payload_count_ := payload_count
    payload_ := (List.range payload_count).map payload }

/-- Modelled from the spec: `log::ThreadLogBuffer`
(thread_log_buffer_impl.hpp is missing): a buffer of `buffer_size_` bytes of
which the first `offset_tail_` are reserved; `buffer_` gives the log entry
written at an address. -/
structure ThreadLogBuffer where
  buffer_size_ : Nat
  offset_tail_ : Nat
  buffer_ : Nat → Option OverwriteLogType

/-- Modelled from the spec: `ThreadLogBuffer::reserve_new_log`
(thread_log_buffer_impl.hpp is missing), "reserves ... bytes in the thread
log buffer".  The result is the address of the reserved bytes, which
overwrite_record uses as the log entry without a check: the call has no
error result.  A reservation that does not fit the buffer does not come
back (`none`); nothing in this model frees log space. -/
def ThreadLogBuffer.reserve_new_log (b : ThreadLogBuffer) (log_length : Nat) :
    Option (Nat × ThreadLogBuffer) :=
  if b.offset_tail_ + log_length ≤ b.buffer_size_ then
    some (b.offset_tail_, { b with offset_tail_ := b.offset_tail_ + log_length })
  else
    none

/-- A store of a log entry at an address of the buffer. -/
def ThreadLogBuffer.write (b : ThreadLogBuffer) (address : Nat) (entry : OverwriteLogType) :
    ThreadLogBuffer :=
  { b with buffer_ := Function.update b.buffer_ address (some entry) }

/-- The part of `thread::Thread` that get_record and overwrite_record use:
the current transaction and the thread's log buffer. -/
structure Thread where
  current_xct_ : Xct
  thread_log_buffer_ : ThreadLogBuffer

/-- `std::memcpy(payload, record->payload_ + payload_offset, payload_count)` on
a buffer given by byte index. -/
def memcpy_payload (payload : Nat → Nat) (record : Record) (payload_offset payload_count : Nat) :
    Nat → Nat :=
  fun i => if i < payload_count then record.payload_ (payload_offset + i) else payload i

/-- `ArrayStoragePimpl::get_record`: error code, thread context and caller's
buffer afterwards; `none` when lookup does not return within `fuel`
iterations.  The page memory is only read. -/
def ArrayStoragePimpl.get_record (self : ArrayStoragePimpl) (pages : Nat → ArrayPage)
    (fuel : Nat) (context : Thread) (offset : Nat) (payload : Nat → Nat)
    (payload_offset payload_count : Nat) : Option (ErrorCode × Thread × (Nat → Nat)) :=
  match self.lookup pages fuel offset with
  | none => none
  | some (ErrorCode.RET_OK, some page) =>
    let index := sub_u64 offset (pages page).array_range_.begin_
    let record := (pages page).leaf index
    match context.current_xct_.add_to_read_set page index record with
    | (ErrorCode.RET_OK, xct) =>
      some (ErrorCode.RET_OK, { context with current_xct_ := xct },
        memcpy_payload payload record payload_offset payload_count)
    | (e, xct) => some (e, { context with current_xct_ := xct }, payload)
  | some (e, _) => some (e, context, payload)

/-! ## overwrite_record -/

/-- `ArrayStoragePimpl::overwrite_record`: error code, thread context and page
memory afterwards; `none` when lookup does not return within `fuel`
iterations or the log buffer does not come back from the reservation.
`calculate_log_length` stands for `OverwriteLogType::calculate_log_length`
(array_log_types.hpp is missing); its value is stored in the `uint16_t
log_length`. -/
def ArrayStoragePimpl.overwrite_record (calculate_log_length : Nat → Nat)
    (self : ArrayStoragePimpl) (pages : Nat → ArrayPage) (fuel : Nat) (context : Thread)
    (offset : Nat) (payload : Nat → Nat) (payload_offset payload_count : Nat) :
    Option (ErrorCode × Thread × (Nat → ArrayPage)) :=
  match self.lookup pages fuel offset with
  | none => none
  | some (ErrorCode.RET_OK, some page) =>
    let index := sub_u64 offset (pages page).array_range_.begin_
    let log_length := calculate_log_length payload_count % 2 ^ 16
    match context.thread_log_buffer_.reserve_new_log log_length with
    | none => none
    | some (log_entry, buffer) =>
      let populated :=
        OverwriteLogType.populate self.id_ offset payload payload_offset payload_count
      let context := { context with thread_log_buffer_ := buffer.write log_entry populated }
      match context.current_xct_.add_to_write_set page index log_entry with
      | (ErrorCode.RET_OK, xct) =>
        some (ErrorCode.RET_OK, { context with current_xct_ := xct }, pages)
      | (e, xct) => some (e, { context with current_xct_ := xct }, pages)
  | some (e, _) => some (e, context, pages)

/-! ## UninitializeGuard -/

/-- The policies that the destructor of `UninitializeGuard` names (the
enumeration is declared in initializable.hpp, which is missing). -/
inductive Policy where
  | kAbortIfNotExplicitlyUninitialized
  | kAbortIfUninitializeError
  | kWarnIfUninitializeError
  | kSilent
deriving DecidableEq, Repr

/-- The two member functions of the guarded object that the destructor
calls, on a state `σ` of that object: `is_initialized()` only reads the
state, `uninitialize()` returns an error stack and leaves a new state. -/
structure Initializable (σ : Type) where
  is_initialized : σ → Bool
  uninitialize : σ → ErrorCode × σ

/-- What the destructor does that is visible from outside, in the order of
the source: the `LOG(ERROR)` that uninitialize was not called,
`print_backtrace()`, the `LOG(FATAL)`, `std::abort()`, the call of the
target's uninitialize, the three messages to `std::cerr` (the first two
print the error). -/
inductive GuardEvent where
  | log_error_not_uninitialized
  | print_backtrace
  | log_fatal
  | abort
  | uninitialize_called
  | cerr_fatal (error : ErrorCode)
  | cerr_warn (error : ErrorCode)
  | cerr_fortunately
deriving DecidableEq, Repr

/-- The fields of `UninitializeGuard`; the target is held by its state. -/
structure UninitializeGuard (σ : Type) where
  target_ : σ
  policy_ : Policy

/-- `UninitializeGuard::~UninitializeGuard`: the events in order and the state
of the target afterwards.  Nothing follows an `abort`. -/
def UninitializeGuard.destructor {σ : Type} (T : Initializable σ) (g : UninitializeGuard σ) :
    List GuardEvent × σ :=
  if T.is_initialized g.target_ then
    let found :=
      if g.policy_ ≠ Policy.kSilent then
        [GuardEvent.log_error_not_uninitialized, GuardEvent.print_backtrace]
      else []
    if g.policy_ = Policy.kAbortIfNotExplicitlyUninitialized then
      (found ++ [GuardEvent.log_fatal, GuardEvent.abort], g.target_)
    else
      match Initializable.uninitialize T g.target_ with
      | (error, target) =>
        if error.is_error then
          match g.policy_ with
          | Policy.kAbortIfUninitializeError =>
            (found ++ [GuardEvent.uninitialize_called, GuardEvent.cerr_fatal error,
              GuardEvent.abort], target)
          | Policy.kWarnIfUninitializeError =>
            (found ++ [GuardEvent.uninitialize_called, GuardEvent.cerr_warn error], target)
          | _ => (found ++ [GuardEvent.uninitialize_called], target)
        else
          if g.policy_ ≠ Policy.kSilent then
            (found ++ [GuardEvent.uninitialize_called, GuardEvent.cerr_fortunately], target)
          else
            (found ++ [GuardEvent.uninitialize_called], target)
  else
    ([], g.target_)

/-! ## Page pool and per-core memory -/

/-- Modelled from the spec: `PagePoolOffsetChunk` (page_pool.hpp is missing),
"a small bounded stack of offsets owned by one core", of fixed capacity; the
top of the stack is the end of the list. -/
structure PagePoolOffsetChunk where
  capacity_ : Nat
  chunk_ : List Nat
deriving DecidableEq, Repr

/-- `PagePoolOffsetChunk::capacity`. -/
def PagePoolOffsetChunk.capacity (c : PagePoolOffsetChunk) : Nat := c.capacity_

/-- `PagePoolOffsetChunk::size`. -/
def PagePoolOffsetChunk.size (c : PagePoolOffsetChunk) : Nat := c.chunk_.length

/-- The fields of `PagePoolPimpl` that describe the free queue
(page_pool_pimpl.hpp). -/
structure PagePoolPimpl where
  pages_for_free_pool_ : Nat
  free_pool_ : Nat → Nat
  free_pool_capacity_ : Nat
  free_pool_head_ : Nat
  free_pool_count_ : Nat

/-- Modelled from the spec: `PagePoolPimpl::grab` (only its declaration is at
hand); it "fills chunk up to min(chunk.capacity, chunk.size + n)", reading
"from free_pool[head..head+k] modulo free_pool_capacity", advancing the head
and decrementing the count, and "fails with NO_FREE_PAGES when the pool cannot
supply at least one page"; a partial fill is a success. -/
def PagePoolPimpl.grab (pool : PagePoolPimpl) (desired_grab_count : Nat)
    (chunk : PagePoolOffsetChunk) : ErrorCode × PagePoolPimpl × PagePoolOffsetChunk :=
  if pool.free_pool_count_ = 0 then
    (ErrorCode.NO_FREE_PAGES, pool, chunk)
  else
    let grab_count := min (min chunk.capacity (chunk.size + desired_grab_count) - chunk.size)
      pool.free_pool_count_
    (ErrorCode.RET_OK,
      { pool with
        free_pool_head_ := (pool.free_pool_head_ + grab_count) % pool.free_pool_capacity_
        free_pool_count_ := pool.free_pool_count_ - grab_count },
      { chunk with
        chunk_ := chunk.chunk_ ++ (List.range grab_count).map
          (fun i => pool.free_pool_ ((pool.free_pool_head_ + i) % pool.free_pool_capacity_)) })

/-- Modelled from the spec: `PagePoolPimpl::release` (only its declaration is
at hand); it "appends up to n offsets from the top of chunk to the tail of
the free queue", enqueueing "at (head + count) mod capacity", and "fails if
the queue would overflow".  The function returns `void`: the failure is
`none`, the process does not go on. -/
def PagePoolPimpl.release (pool : PagePoolPimpl) (desired_release_count : Nat)
    (chunk : PagePoolOffsetChunk) : Option (PagePoolPimpl × PagePoolOffsetChunk) :=
  let release_count := min desired_release_count chunk.size
  if pool.free_pool_capacity_ < pool.free_pool_count_ + release_count then
    none
  else
    some
      ({ pool with
          free_pool_ := (List.range release_count).foldl
            (fun free_pool i => Function.update free_pool
              ((pool.free_pool_head_ + pool.free_pool_count_ + i) % pool.free_pool_capacity_)
              (chunk.chunk_.getD (chunk.size - release_count + i) 0))
            pool.free_pool_
          free_pool_count_ := pool.free_pool_count_ + release_count },
        { chunk with chunk_ := chunk.chunk_.take (chunk.size - release_count) })

/-- A call of the page pool as `NumaCoreMemory` issues it: the count and the
chunk passed. -/
inductive PoolRequest where
  | grab (desired_grab_count : Nat) (chunk : Nat)
  | release (desired_release_count : Nat) (chunk : Nat)
deriving DecidableEq, Repr

/-- What `NumaCoreMemory` reaches through `engine_` and `node_memory_`: the
two transaction options, the memory pieces of the NUMA node by core ordinal
(the read-set and write-set pieces by their address, the offset chunks by
their content; a pointer to a chunk is the ordinal of its piece), the page
pool, and the calls of the pool issued so far. -/
structure EngineMemory where
  max_read_set_size_ : Nat
  max_write_set_size_ : Nat
  read_set_memory_pieces_ : Nat → Nat
  write_set_memory_pieces_ : Nat → Nat
  page_offset_chunk_memory_pieces_ : Nat → PagePoolOffsetChunk
  page_pool_ : PagePoolPimpl
  pool_requests_ : List PoolRequest

/-- `engine_->get_memory_manager().get_page_pool().grab(count, chunk)`; the
count is passed as a `uint32_t`. -/
def EngineMemory.grab (m : EngineMemory) (desired_grab_count chunk : Nat) :
    ErrorCode × EngineMemory :=
  match m.page_pool_.grab (desired_grab_count % 2 ^ 32)
    (m.page_offset_chunk_memory_pieces_ chunk) with
  | (e, pool, filled) =>
    (e, { m with
      page_pool_ := pool
      page_offset_chunk_memory_pieces_ :=
        Function.update m.page_offset_chunk_memory_pieces_ chunk filled
      pool_requests_ := m.pool_requests_ ++ [PoolRequest.grab (desired_grab_count % 2 ^ 32) chunk] })

/-- `engine_->get_memory_manager().get_page_pool().release(count, chunk)`; the
count is passed as a `uint32_t`. -/
def EngineMemory.release (m : EngineMemory) (desired_release_count chunk : Nat) :
    Option EngineMemory :=
  match m.page_pool_.release (desired_release_count % 2 ^ 32)
    (m.page_offset_chunk_memory_pieces_ chunk) with
  | none => none
  | some (pool, emptied) =>
    some { m with
      page_pool_ := pool
      page_offset_chunk_memory_pieces_ :=
        Function.update m.page_offset_chunk_memory_pieces_ chunk emptied
      pool_requests_ :=
        m.pool_requests_ ++ [PoolRequest.release (desired_release_count % 2 ^ 32) chunk] }

/-- Modelled from the spec: `SUMMARIZE_ERROR_BATCH` on an `ErrorStackBatch`
(error_stack_batch.hpp is missing), "a batch that summarizes into a single
result": the first error of the batch, success when there is none. -/
def ErrorStackBatch.summarize (batch : List ErrorCode) : ErrorCode :=
  (batch.find? ErrorCode.is_error).getD ErrorCode.RET_OK

/-- The fields of `NumaCoreMemory` that numa_core_memory.cpp reads and
writes; a pointer is `none` for `nullptr`. -/
structure NumaCoreMemory where
  core_id_ : Nat
  core_local_ordinal_ : Nat
  read_set_memory_ : Option Nat
  read_set_size_ : Nat
  write_set_memory_ : Option Nat
  write_set_size_ : Nat
  free_pool_chunk_ : Option Nat

/-- `NumaCoreMemory::initialize_once`. -/
def NumaCoreMemory.initialize_once (self : NumaCoreMemory) (m : EngineMemory) :
    ErrorCode × NumaCoreMemory × EngineMemory :=
  let self := { self with
    read_set_memory_ := some (m.read_set_memory_pieces_ self.core_local_ordinal_)
    read_set_size_ := m.max_read_set_size_
    write_set_memory_ := some (m.write_set_memory_pieces_ self.core_local_ordinal_)
    write_set_size_ := m.max_write_set_size_
    free_pool_chunk_ := some self.core_local_ordinal_ }
  match m.grab ((m.page_offset_chunk_memory_pieces_ self.core_local_ordinal_).capacity / 2)
    self.core_local_ordinal_ with
  | (e, m2) => if e.is_error then (e, self, m2) else (ErrorCode.RET_OK, self, m2)

/-- `NumaCoreMemory::uninitialize_once`; `none` when the pool's release does
not come back. -/
def NumaCoreMemory.uninitialize_once (self : NumaCoreMemory) (m : EngineMemory) :
    Option (ErrorCode × NumaCoreMemory × EngineMemory) :=
  let batch : List ErrorCode := []
  let self := { self with read_set_memory_ := none, write_set_memory_ := none }
  match self.free_pool_chunk_ with
  | some chunk =>
    match m.release (m.page_offset_chunk_memory_pieces_ chunk).size chunk with
    | none => none
    | some m2 =>
      some (ErrorStackBatch.summarize batch, { self with free_pool_chunk_ := none }, m2)
  | none => some (ErrorStackBatch.summarize batch, self, m)

/-! ## The shape of the tree that create builds -/

/-- The offsets of the pages of level `L`, in the order create grabbed them. -/
def level_pages (w : World) (L : Nat) : List Nat :=
  w.grabbed.filter (fun o => decide ((w.pages o).node_height_ = L))

/-- `offset_intervals_[L]`. -/
def ArrayStoragePimpl.interval (self : ArrayStoragePimpl) (L : Nat) : Nat :=
  self.offset_intervals_.getD L 0

/-- The end of the range that create gives to the `k`-th page of level `L`:
clamped to the array size for leaves and for the left-most page of a level,
not clamped for the other interior pages. -/
def ArrayStoragePimpl.range_end (self : ArrayStoragePimpl) (L k : Nat) : Nat :=
  if L = 0 ∨ k = 0 then min ((k + 1) * self.interval L) self.array_size_
  else (k + 1) * self.interval L

/-- Grab a page and write `p` to it. -/
def World.alloc (w : World) (p : ArrayPage) : World :=
  (w.grab_free_page.2).put (w.supply w.grabbed.length) p

/-- Set the child pointer in `slot` of the page at `target`. -/
def World.link (w : World) (target slot child : Nat) : World :=
  w.put target ((w.pages target).set_child slot child)

/-- The pages built so far: `m L` pages exist on level `L`, and the first
`lnk L` pages of level `L - 1` are linked into the pages of level `L`. -/
structure PagesInv (K : ArrayConsts) (st : ArrayStoragePimpl) (w : World)
    (m lnk : Nat → Nat) : Prop where
  nodup : w.grabbed.Nodup
  len : ∀ L, (level_pages w L).length = m L
  begin_eq : ∀ L k, k < m L →
    (w.pages ((level_pages w L).getD k 0)).array_range_.begin_ = k * st.interval L
  end_eq : ∀ L k, k < m L →
    (w.pages ((level_pages w L).getD k 0)).array_range_.end_ = st.range_end L k
  slots : ∀ L k, 1 ≤ L → k < m L → ∀ i,
    (w.pages ((level_pages w L).getD k 0)).interior i =
      if i < K.INTERIOR_FANOUT ∧ k * K.INTERIOR_FANOUT + i < lnk L then
        ⟨0, ⟨0, (level_pages w (L - 1)).getD (k * K.INTERIOR_FANOUT + i) 0⟩⟩
      else DualPagePointer.null
  lnk_le : ∀ L, 1 ≤ L → lnk L ≤ m (L - 1)

/-- The cursors of create point to the last page of every level below `n`. -/
structure CursorInv (K : ArrayConsts) (c : Cursors) (w : World) (m lnk : Nat → Nat)
    (n : Nat) : Prop where
  cp_len : c.current_pages.length = n
  cpo_len : c.current_pages_offset.length = n
  cr_len : c.current_records.length = n
  m_pos : ∀ L, L < n → 1 ≤ m L
  cp : ∀ L, L < n → c.current_pages.getD L 0 = (level_pages w L).getD (m L - 1) 0
  cpo : ∀ L, L < n → c.current_pages_offset.getD L 0 = (level_pages w L).getD (m L - 1) 0
  cr : ∀ L, 1 ≤ L → L < n →
    c.current_records.getD L 0 + (m L - 1) * K.INTERIOR_FANOUT = lnk L

/-- What the constructor establishes for a non-empty array: the intervals
grow by the fanout, and `pages_` is the plan of pages per level. -/
structure Planned (K : ArrayConsts) (st : ArrayStoragePimpl) : Prop where
  fanout : 2 ≤ K.INTERIOR_FANOUT
  size_pos : 1 ≤ st.array_size_
  levels_pos : 1 ≤ st.levels_
  interval_pos : 1 ≤ st.interval 0
  interval_succ : ∀ L, L + 1 < st.levels_ →
    st.interval (L + 1) = st.interval L * K.INTERIOR_FANOUT
  pages_zero : st.pages_.getD 0 0 = (st.array_size_ - 1) / st.interval 0 + 1
  pages_succ : ∀ L, L + 1 < st.levels_ →
    st.pages_.getD (L + 1) 0 = (st.pages_.getD L 0 - 1) / K.INTERIOR_FANOUT + 1
  pages_top : st.pages_.getD (st.levels_ - 1) 0 = 1
  pages_gt : ∀ L, L + 1 < st.levels_ → 1 < st.pages_.getD L 0

/-- Every `grab_free_page` returns a fresh non-zero offset: the supply never
repeats an offset, never yields zero, and `grabbed` is its trace. -/
structure Fresh (w : World) : Prop where
  inj : Function.Injective w.supply
  nonzero : ∀ n, w.supply n ≠ 0
  trace : w.grabbed = (List.range w.grabbed.length).map w.supply

/-- The part of the world that create leaves alone. -/
def World.same_env (w0 w : World) : Prop :=
  w.supply = w0.supply ∧ w.released = w0.released ∧ w.registered = w0.registered ∧
    w.current_global_epoch = w0.current_global_epoch

/-- Page counts per level after `lev` iterations of the first loop of create. -/
def left_count (lev : Nat) : Nat → Nat := fun L => if L < lev then 1 else 0

/-- Linked children per level after `lev` iterations of the first loop. -/
def left_linked (lev : Nat) : Nat → Nat := fun L => if 1 ≤ L ∧ L < lev then 1 else 0

/-- The state of create between two iterations of its second loop, `j`
leaves built. -/
structure StepInv (K : ArrayConsts) (st : ArrayStoragePimpl) (j : Nat) (c : Cursors)
    (w : World) (m lnk : Nat → Nat) : Prop where
  pages : PagesInv K st w m lnk
  cursors : CursorInv K c w m lnk st.levels_
  fresh : Fresh w
  leaves : m 0 = j
  count_succ : ∀ L, 1 ≤ L → L < st.levels_ → m L = (m (L - 1) - 1) / K.INTERIOR_FANOUT + 1
  count_none : ∀ L, st.levels_ ≤ L → m L = 0
  linked : ∀ L, 1 ≤ L → L < st.levels_ → lnk L = m (L - 1)
  bound : ∀ L, L < st.levels_ → m L ≤ st.pages_.getD L 0

/-- The state of create inside the push-up loop, about to handle level `L`:
the new page of level `L - 1` is not linked to a parent yet. -/
structure PushInv (K : ArrayConsts) (st : ArrayStoragePimpl) (L : Nat) (c : Cursors)
    (w : World) (m lnk : Nat → Nat) : Prop where
  pages : PagesInv K st w m lnk
  cursors : CursorInv K c w m lnk st.levels_
  fresh : Fresh w
  low_succ : ∀ L2, 1 ≤ L2 → L2 < L → m L2 = (m (L2 - 1) - 1) / K.INTERIOR_FANOUT + 1
  low_linked : ∀ L2, 1 ≤ L2 → L2 < L → lnk L2 = m (L2 - 1)
  here_count : m L = (m (L - 1) - 2) / K.INTERIOR_FANOUT + 1
  here_linked : lnk L + 1 = m (L - 1)
  here_two : 2 ≤ m (L - 1)
  high_succ : ∀ L2, L < L2 → L2 < st.levels_ →
    m L2 = (m (L2 - 1) - 1) / K.INTERIOR_FANOUT + 1
  high_linked : ∀ L2, L < L2 → L2 < st.levels_ → lnk L2 = m (L2 - 1)
  count_none : ∀ L2, st.levels_ ≤ L2 → m L2 = 0
  bound : ∀ L2, L2 < st.levels_ → m L2 ≤ st.pages_.getD L2 0

/-- The tree in the page memory once create has run its two loops: level
`L` has `pages_[L]` pages, the `k`-th of them begins at `k` intervals, and
its slot `i` points to page `k * INTERIOR_FANOUT + i` of the level below if
that page exists and is null otherwise. -/
structure Built (K : ArrayConsts) (st : ArrayStoragePimpl) (c : Cursors) (w : World) :
    Prop where
  fresh : Fresh w
  nodup : w.grabbed.Nodup
  len : ∀ L, (level_pages w L).length = if L < st.levels_ then st.pages_.getD L 0 else 0
  begin_eq : ∀ L k, L < st.levels_ → k < st.pages_.getD L 0 →
    (w.pages ((level_pages w L).getD k 0)).array_range_.begin_ = k * st.interval L
  end_eq : ∀ L k, L < st.levels_ → k < st.pages_.getD L 0 →
    (w.pages ((level_pages w L).getD k 0)).array_range_.end_ = st.range_end L k
  slots : ∀ L k, 1 ≤ L → L < st.levels_ → k < st.pages_.getD L 0 → ∀ i,
    (w.pages ((level_pages w L).getD k 0)).interior i =
      if i < K.INTERIOR_FANOUT ∧ k * K.INTERIOR_FANOUT + i < st.pages_.getD (L - 1) 0 then
        ⟨0, ⟨0, (level_pages w (L - 1)).getD (k * K.INTERIOR_FANOUT + i) 0⟩⟩
      else DualPagePointer.null
  root_page : c.current_pages.getD (st.levels_ - 1) 0 = (level_pages w (st.levels_ - 1)).getD 0 0
  root_offset :
    c.current_pages_offset.getD (st.levels_ - 1) 0 = (level_pages w (st.levels_ - 1)).getD 0 0

/-! ## The walk of uninitialize, as a specification -/

/-- One slot of the post-order walk below `page`: the pages below the child
in `slot`, then the child itself, appended to `acc`. -/
def descendants_step (walk : Nat → Option (List Nat)) (pages : Nat → ArrayPage) (page : Nat)
    (acc : List Nat) (slot : Nat) : Option (List Nat) :=
  if ((pages page).interior slot).volatile_pointer_.offset ≠ 0 then
    match walk ((pages page).interior slot).volatile_pointer_.offset with
    | none => none
    | some below => some (acc ++ below ++ [((pages page).interior slot).volatile_pointer_.offset])
  else
    some acc

/-- The pages reachable from `page` through non-zero volatile child offsets,
`page` itself left out, in post-order: slot by slot, and every page after
all the pages of its own subtree.  The page memory is only read; the first
argument bounds the depth of the walk, `none` when it is used up. -/
def descendants_postorder (K : ArrayConsts) : Nat → (Nat → ArrayPage) → Nat → Option (List Nat)
  | 0, _, _ => none
  | fuel + 1, pages, page =>
    if !(pages page).is_leaf then
      (List.range K.INTERIOR_FANOUT).foldlM
        (descendants_step (descendants_postorder K fuel pages) pages page) []
    else
      some []

/-- Page `ch` is a child of page `q`: `q` is not a leaf and one of its slots
has the non-zero volatile offset `ch`. -/
def IsChild (K : ArrayConsts) (pages : Nat → ArrayPage) (q ch : Nat) : Prop :=
  (pages q).is_leaf = false ∧ ch ≠ 0 ∧
    ∃ i, i < K.INTERIOR_FANOUT ∧ ((pages q).interior i).volatile_pointer_.offset = ch

/-- The pages reachable from `root` through non-zero volatile child offsets. -/
inductive Reachable (K : ArrayConsts) (pages : Nat → ArrayPage) (root : Nat) : Nat → Prop
  | root : Reachable K pages root root
  | child (q ch : Nat) : Reachable K pages root q → IsChild K pages q ch →
      Reachable K pages root ch

/-- In the list `l`, an occurrence of `a` comes before an occurrence of `b`. -/
def ReleasedBefore (l : List Nat) (a b : Nat) : Prop :=
  ∃ l1 l2 l3, l = l1 ++ a :: l2 ++ b :: l3

/-- A page whose first `t` child pointers have the volatile offset 0. -/
def ArrayPage.cleared_below (p : ArrayPage) (t : Nat) : ArrayPage :=
  { p with interior := fun i => if i < t then (p.interior i).clear_offset else p.interior i }

/-- A page after uninitialize has walked it: an interior page has the
volatile offsets of all its child pointers set to 0, a leaf is as before. -/
def released_page (K : ArrayConsts) (p : ArrayPage) : ArrayPage :=
  if p.is_leaf then p else p.cleared_below K.INTERIOR_FANOUT

/-- The index of the ancestor `d` levels above the page with index `k`. -/
def ancestor_index (K : ArrayConsts) : Nat → Nat → Nat
  | 0, k => k
  | d + 1, k => ancestor_index K d k / K.INTERIOR_FANOUT

/-- Page `q` lies in the subtree of the `k`-th page of level `L`: it is the
`k2`-th page of a level `d` below whose ancestor `d` levels up has index `k`. -/
def InSubtree (K : ArrayConsts) (st : ArrayStoragePimpl) (w : World) (L k q : Nat) : Prop :=
  ∃ d k2, d ≤ L ∧ k2 < st.pages_.getD (L - d) 0 ∧ ancestor_index K d k2 = k ∧
    q = (level_pages w (L - d)).getD k2 0

/-! ## The path of lookup, as a specification -/

/-- The child pointer that lookup selects for `offset` at the interior page
`page`. -/
def ArrayStoragePimpl.selected_pointer (self : ArrayStoragePimpl) (pages : Nat → ArrayPage)
    (offset page : Nat) : DualPagePointer :=
  (pages page).interior
    ((sub_u64 offset (pages page).array_range_.begin_ /
      self.offset_intervals_.getD ((pages page).node_height_ - 1) 0) % 2 ^ 16)

/-- The page at which the walk of lookup for `offset` stands after `n` steps
from the root; `none` when the walk has ended before, at a leaf or at an
interior page whose selected pointer has the volatile offset 0.  As in
lookup, the page at offset 0 stands for a null `root_page_`. -/
def ArrayStoragePimpl.lookup_walk (self : ArrayStoragePimpl) (pages : Nat → ArrayPage)
    (offset : Nat) : Nat → Option Nat
  | 0 => some (self.root_page_.getD 0)
  | n + 1 =>
    match self.lookup_walk pages offset n with
    | none => none
    | some page =>
      if (pages page).is_leaf then none
      else if (self.selected_pointer pages offset page).volatile_pointer_.offset = 0 then none
      else some (self.selected_pointer pages offset page).volatile_pointer_.offset

/-! ## A small instance -/

/-- Small constants: 32 bytes of data per page, 8 bytes of record overhead,
fanout 2; a payload of 8 bytes then gives two records per leaf. -/
def small_consts : ArrayConsts := ⟨32, 8, 2⟩

/-- A world with no page grabbed yet whose `n`-th free page is `n + 1`. -/
def small_world : World :=
  { pages := fun _ => initialize_data_page 0 0 0 0 ⟨0, 0⟩
    supply := fun n => n + 1
    grabbed := []
    released := []
    registered := []
    current_global_epoch := 3 }

/-- The storage object for five records of payload size 8 under
`small_consts`: three levels with 3, 2 and 1 pages. -/
def small_storage : ArrayStoragePimpl :=
  { id_ := 7
    payload_size_ := 8
    payload_size_aligned_ := 8
    array_size_ := 5
    root_page_pointer_ := DualPagePointer.null
    root_page_ := none
    exist_ := false
    pages_ := [3, 2, 1]
    levels_ := 3
    offset_intervals_ := [2, 4, 8] }

/-- The result of create on `small_storage` in `small_world`. -/
def small_created : ErrorCode × ArrayStoragePimpl × World :=
  small_storage.create small_consts small_world

/-- A thread with empty read and write sets of capacity one and an empty log
buffer of 64 bytes. -/
def small_thread : Thread :=
  { current_xct_ := ⟨[], 1, [], 1⟩
    thread_log_buffer_ := ⟨64, 0, fun _ => none⟩ }

/-- A log length for the small instance: 16 bytes of header and the payload,
rounded up to a multiple of 8. -/
def small_calculate_log_length (payload_count : Nat) : Nat := align8 (16 + payload_count)

/-- The thread `small_thread` after one overwrite of the eight payload bytes
of record 4 (record 0 of the leaf at offset 5) with the bytes 17 .. 24. -/
def small_overwritten_thread : Thread :=
  { current_xct_ := ⟨[], 1, [⟨5, 0, 0⟩], 1⟩
    thread_log_buffer_ :=
      ⟨64, 24,
        Function.update (fun _ => none) 0 (some ⟨7, 4, 0, 8, [17, 18, 19, 20, 21, 22, 23, 24]⟩)⟩ }

/-- A thread whose read set and write set have no room, with an empty log
buffer of 64 bytes. -/
def small_full_thread : Thread :=
  { current_xct_ := ⟨[], 0, [], 0⟩
    thread_log_buffer_ := ⟨64, 0, fun _ => none⟩ }

/-- A thread whose log buffer of 64 bytes has 16 bytes left. -/
def small_log_full_thread : Thread :=
  { current_xct_ := ⟨[], 1, [], 1⟩
    thread_log_buffer_ := ⟨64, 48, fun _ => none⟩ }

/-- The page memory of `small_created` in which the second child pointer of
the root (the page at offset 3) has lost its volatile offset. -/
def small_evicted_pages : Nat → ArrayPage :=
  Function.update small_created.2.2.pages 3 ((small_created.2.2.pages 3).clear_child 1)

/-- A guarded object whose state is its initialized flag and whose
uninitialize returns `error`. -/
def small_target (error : ErrorCode) : Initializable Bool :=
  { is_initialized := fun s => s
    uninitialize := fun _ => (error, false) }

/-- An engine whose pool holds the six free pages 2 .. 7 and whose offset
chunks have capacity 4 and are empty. -/
def small_engine_memory : EngineMemory :=
  { max_read_set_size_ := 4
    max_write_set_size_ := 4
    read_set_memory_pieces_ := fun ordinal => 100 + ordinal
    write_set_memory_pieces_ := fun ordinal => 200 + ordinal
    page_offset_chunk_memory_pieces_ := fun _ => ⟨4, []⟩
    page_pool_ := ⟨2, fun i => i + 2, 6, 0, 6⟩
    pool_requests_ := [] }

/-- The per-core memory of core 0 before it is initialized. -/
def small_core_memory : NumaCoreMemory := ⟨0, 0, none, 0, none, 0, none⟩

/-! ## SharedRendezvous -/

/-- Modelled from the spec: `soc::SharedRendezvous` (shared_rendezvous.hpp is
missing, only its test is at hand), a "one-shot event across threads".  The
state is the signaled flag and the threads that are blocked in `wait()`. -/
structure SharedRendezvous where
  signaled_ : Bool
  blocked_ : List Nat
deriving DecidableEq, Repr

/-- Modelled from the spec: the constructor of `SharedRendezvous`; a fresh
rendezvous is not signaled and nobody waits for it. -/
def SharedRendezvous.construct : SharedRendezvous := ⟨false, []⟩

/-- Modelled from the spec: `SharedRendezvous::is_signaled`, "a seq-cst
query" of the flag. -/
def SharedRendezvous.is_signaled (r : SharedRendezvous) : Bool := r.signaled_

/-- Modelled from the spec: `SharedRendezvous::is_signaled_weak`, "a relaxed
query used for opportunistic checks"; the operations of this model take
effect one after the other, so that it reads the same flag. -/
def SharedRendezvous.is_signaled_weak (r : SharedRendezvous) : Bool := r.signaled_

/-- Modelled from the spec: `SharedRendezvous::signal`, which "transitions to
signaled and wakes all waiters". -/
def SharedRendezvous.signal (_r : SharedRendezvous) : SharedRendezvous := ⟨true, []⟩

/-- Modelled from the spec: `SharedRendezvous::wait` called by `thread`, which
"blocks until signaled": whether the call returns at once, and the state
afterwards, in which a caller that does not return at once is blocked. -/
def SharedRendezvous.wait (r : SharedRendezvous) (thread : Nat) : Bool × SharedRendezvous :=
  if r.signaled_ then (true, r) else (false, { r with blocked_ := r.blocked_ ++ [thread] })

/-- The operations on a rendezvous. -/
inductive RendezvousOp where
  | signal
  | wait (thread : Nat)
  | is_signaled
  | is_signaled_weak
deriving DecidableEq, Repr

/-- The state of the rendezvous after one operation. -/
def SharedRendezvous.step (r : SharedRendezvous) : RendezvousOp → SharedRendezvous
  | RendezvousOp.signal => r.signal
  | RendezvousOp.wait thread => (r.wait thread).2
  | RendezvousOp.is_signaled => r
  | RendezvousOp.is_signaled_weak => r

/-- The state of the rendezvous after a sequence of operations, issued by
whatever threads in that order. -/
def SharedRendezvous.run (r : SharedRendezvous) (ops : List RendezvousOp) : SharedRendezvous :=
  ops.foldl SharedRendezvous.step r

/-! ## Arithmetic of the rounded-up division -/

theorem int_div_ceil_eq (a b : Nat) (hb : 1 ≤ b) : int_div_ceil a b = (a + b - 1) / b := by
  unfold int_div_ceil
  obtain ⟨q, r, hr, rfl⟩ : ∃ q r, r < b ∧ a = q * b + r :=
    ⟨a / b, a % b, Nat.mod_lt _ (by omega), by rw [mul_comm]; exact (Nat.div_add_mod a b).symm⟩
  have h1 : (q * b + r) % b = r := by
    rw [Nat.mul_comm, Nat.mul_add_mod]; exact Nat.mod_eq_of_lt hr
  have h2 : (q * b + r) / b = q := by
    rw [Nat.mul_comm, Nat.mul_add_div (by omega)]; simp [Nat.div_eq_of_lt hr]
  rw [h1, h2]
  by_cases h0 : r = 0
  · subst h0
    simp only [if_true, Nat.add_zero]
    symm
    apply Nat.div_eq_of_lt_le
    · omega
    · rw [Nat.add_mul]; omega
  · rw [if_neg h0]
    symm
    apply Nat.div_eq_of_lt_le
    · rw [Nat.add_mul]; omega
    · rw [Nat.add_mul, Nat.add_mul]; omega

theorem ceil_div_pos (a b : Nat) (ha : 1 ≤ a) (hb : 1 ≤ b) : 1 ≤ (a + b - 1) / b := by
  apply (Nat.le_div_iff_mul_le (by omega)).2; omega

theorem ceil_div_lt (a b : Nat) (ha : 2 ≤ a) (hb : 2 ≤ b) : (a + b - 1) / b < a := by
  apply (Nat.div_lt_iff_lt_mul (by omega)).2
  have h1 : a * 2 ≤ a * b := Nat.mul_le_mul_left a hb
  have h2 : 2 * b ≤ a * b := Nat.mul_le_mul_right b ha
  omega

theorem ceil_div_le_self (a b : Nat) (hb : 1 ≤ b) : (a + b - 1) / b ≤ a := by
  apply Nat.le_of_lt_succ
  apply (Nat.div_lt_iff_lt_mul (by omega)).2
  have h1 : a * 1 ≤ a * b := Nat.mul_le_mul_left a hb
  have h2 : (a + 1) * b = a * b + b := by ring
  rw [Nat.succ_eq_add_one, h2]
  omega

/-! ## calculate_required_pages -/

theorem calculate_required_pages_loop_mono (K : ArrayConsts) (fuel : Nat) :
    ∀ (pages q : List Nat), calculate_required_pages_loop K fuel pages = some q →
      calculate_required_pages_loop K (fuel + 1) pages = some q := by
  induction fuel with
  | zero =>
    intro pages q h
    unfold calculate_required_pages_loop at h
    by_cases h1 : pages.getLastD 0 ≠ 1
    · rw [if_pos h1] at h
      cases h
    · rw [if_neg h1] at h
      unfold calculate_required_pages_loop
      rw [if_neg h1]; exact h
  | succ n ih =>
    intro pages q h
    unfold calculate_required_pages_loop at h
    unfold calculate_required_pages_loop
    by_cases h1 : pages.getLastD 0 ≠ 1
    · rw [if_pos h1] at h
      rw [if_pos h1]
      exact ih _ _ h
    · rw [if_neg h1] at h
      rw [if_neg h1]; exact h

theorem calculate_required_pages_loop_mono_le (K : ArrayConsts) (pages q : List Nat)
    (fuel fuel2 : Nat) (hle : fuel ≤ fuel2)
    (h : calculate_required_pages_loop K fuel pages = some q) :
    calculate_required_pages_loop K fuel2 pages = some q := by
  induction hle with
  | refl => exact h
  | step _ ih => exact calculate_required_pages_loop_mono K _ _ _ ih

theorem calculate_required_pages_loop_some (K : ArrayConsts) (hF : 2 ≤ K.INTERIOR_FANOUT)
    (fuel : Nat) : ∀ (pages : List Nat) (n : Nat), 1 ≤ n → n ≤ fuel + 1 →
      ∃ q, calculate_required_pages_loop K fuel (pages ++ [n]) = some (pages ++ n :: q) ∧
        PagePlan K.INTERIOR_FANOUT n q := by
  induction fuel with
  | zero =>
    intro pages n h1 h2
    have hn : n = 1 := by omega
    subst hn
    refine ⟨[], ?_, PagePlan.top⟩
    unfold calculate_required_pages_loop
    simp
  | succ m ih =>
    intro pages n h1 h2
    by_cases hn : n = 1
    · subst hn
      refine ⟨[], ?_, PagePlan.top⟩
      unfold calculate_required_pages_loop
      simp
    · have hlast : (pages ++ [n]).getLastD 0 = n := by simp
      have hc := int_div_ceil_eq n K.INTERIOR_FANOUT (by omega)
      have hpos := ceil_div_pos n K.INTERIOR_FANOUT h1 (by omega)
      have hlt := ceil_div_lt n K.INTERIOR_FANOUT (by omega) hF
      obtain ⟨q, hq, hplan⟩ := ih (pages ++ [n]) ((n + K.INTERIOR_FANOUT - 1) / K.INTERIOR_FANOUT)
        hpos (by omega)
      refine ⟨(n + K.INTERIOR_FANOUT - 1) / K.INTERIOR_FANOUT :: q, ?_, PagePlan.up n q hn hplan⟩
      unfold calculate_required_pages_loop
      rw [hlast, if_pos hn]
      simp only [hc]
      rw [hq]
      simp

theorem PagePlan.getLast (F : Nat) (n : Nat) (q : List Nat) (h : PagePlan F n q) :
    (n :: q).getLast? = some 1 := by
  induction h with
  | top => rfl
  | up n q _ _ ih =>
    rw [List.getLast?_cons_cons]; exact ih

theorem PagePlan.step (F : Nat) (n : Nat) (q : List Nat) (h : PagePlan F n q) :
    ∀ i, i + 1 < (n :: q).length →
      (n :: q).getD (i + 1) 0 = ((n :: q).getD i 0 + F - 1) / F ∧ (n :: q).getD i 0 ≠ 1 := by
  induction h with
  | top => intro i hi; simp at hi
  | up n q hn _ ih =>
    intro i hi
    cases i with
    | zero => simp [hn]
    | succ j =>
      have := ih j (by simpa using hi)
      simpa using this

theorem PagePlan.pos (F : Nat) (hF : 1 ≤ F) (n : Nat) (q : List Nat) (h : PagePlan F n q)
    (hn : 1 ≤ n) : ∀ i, i < (n :: q).length → 1 ≤ (n :: q).getD i 0 := by
  induction h with
  | top => intro i hi; simp at hi; subst hi; simp
  | up n q _ _ ih =>
    intro i hi
    cases i with
    | zero => simpa using hn
    | succ j =>
      have := ih (ceil_div_pos n F hn hF) j (by simpa using hi)
      simpa using this

theorem calculate_required_pages_loop_prefix (K : ArrayConsts) (fuel : Nat) :
    ∀ (pages q : List Nat), calculate_required_pages_loop K fuel pages = some q →
      ∃ r, q = pages ++ r := by
  induction fuel with
  | zero =>
    intro pages q h
    unfold calculate_required_pages_loop at h
    by_cases h1 : pages.getLastD 0 ≠ 1
    · rw [if_pos h1] at h
      cases h
    · rw [if_neg h1] at h
      exact ⟨[], by simpa using (Option.some.inj h).symm⟩
  | succ n ih =>
    intro pages q h
    unfold calculate_required_pages_loop at h
    by_cases h1 : pages.getLastD 0 ≠ 1
    · rw [if_pos h1] at h
      obtain ⟨r, hr⟩ := ih _ _ h
      exact ⟨int_div_ceil (pages.getLastD 0) K.INTERIOR_FANOUT :: r, by rw [hr]; simp⟩
    · rw [if_neg h1] at h
      exact ⟨[], by simpa using (Option.some.inj h).symm⟩

theorem build_offset_intervals_spec (K : ArrayConsts) (n : Nat) :
    ∀ (acc : List Nat), acc ≠ [] →
      (build_offset_intervals K n acc).length = acc.length + n ∧
      (∀ i, i < acc.length → (build_offset_intervals K n acc).getD i 0 = acc.getD i 0) ∧
      (∀ i, acc.length ≤ i → i < acc.length + n →
        (build_offset_intervals K n acc).getD i 0 =
          (build_offset_intervals K n acc).getD (i - 1) 0 * K.INTERIOR_FANOUT) := by
  induction n with
  | zero =>
    intro acc _
    refine ⟨rfl, fun i _ => rfl, fun i h1 h2 => ?_⟩
    omega
  | succ m ih =>
    intro acc hacc
    have hlen : 0 < acc.length := List.length_pos.2 hacc
    obtain ⟨h1, h2, h3⟩ := ih (acc ++ [acc.getD (acc.length - 1) 0 * K.INTERIOR_FANOUT]) (by simp)
    simp only [List.length_append, List.length_singleton] at h1 h2 h3
    refine ⟨by rw [build_offset_intervals, h1]; omega, ?_, ?_⟩
    · intro i hi
      rw [build_offset_intervals, h2 i (by omega)]
      simp [List.getD_eq_getElem?_getD, List.getElem?_append_left hi]
    · intro i hi1 hi2
      rw [build_offset_intervals]
      by_cases hi : i = acc.length
      · subst hi
        rw [h2 _ (by omega), h2 _ (by omega)]
        simp [List.getD_eq_getElem?_getD, List.getElem?_append_left (show acc.length - 1 < acc.length by omega)]
      · exact h3 i (by omega) (by omega)

/-- The result of `calculate_required_pages` for a non-empty array. -/
theorem calculate_required_pages_spec (K : ArrayConsts) (array_size payload : Nat)
    (hF : 2 ≤ K.INTERIOR_FANOUT) (hN : 1 ≤ array_size)
    (hr : 1 ≤ K.DATA_SIZE / (payload + K.RECORD_OVERHEAD)) :
    ∃ p : List Nat,
      (∀ fuel, array_size ≤ fuel →
        calculate_required_pages K fuel array_size payload = some p) ∧
      (∀ fuel q, calculate_required_pages K fuel array_size payload = some q → q = p) ∧
      p ≠ [] ∧
      p.getD 0 0 = (array_size + K.DATA_SIZE / (payload + K.RECORD_OVERHEAD) - 1) /
        (K.DATA_SIZE / (payload + K.RECORD_OVERHEAD)) ∧
      (∀ i, i + 1 < p.length →
        p.getD (i + 1) 0 = (p.getD i 0 + K.INTERIOR_FANOUT - 1) / K.INTERIOR_FANOUT) ∧
      p.getLast? = some 1 ∧
      (∀ i, i + 1 < p.length → 1 < p.getD i 0) := by
  set rpp := K.DATA_SIZE / (payload + K.RECORD_OVERHEAD) with hrpp
  have hc := int_div_ceil_eq array_size rpp hr
  have hpos : 1 ≤ (array_size + rpp - 1) / rpp := ceil_div_pos array_size rpp hN hr
  have hle : (array_size + rpp - 1) / rpp ≤ array_size := ceil_div_le_self array_size rpp hr
  obtain ⟨q, hq, hplan⟩ := calculate_required_pages_loop_some K hF array_size []
    ((array_size + rpp - 1) / rpp) hpos (by omega)
  simp only [List.nil_append] at hq
  have hrun : calculate_required_pages K array_size array_size payload =
      some ((array_size + rpp - 1) / rpp :: q) := by
    unfold calculate_required_pages
    simp only [← hrpp, hc]
    exact hq
  refine ⟨(array_size + rpp - 1) / rpp :: q, ?_, ?_, by simp, by simp, ?_, ?_, ?_⟩
  · intro fuel hfuel
    exact calculate_required_pages_loop_mono_le K _ _ _ _ hfuel hrun
  · intro fuel q2 h2
    have h3 := calculate_required_pages_loop_mono_le K _ _ _ _ (Nat.le_max_left fuel array_size) h2
    have h4 := calculate_required_pages_loop_mono_le K _ _ _ _ (Nat.le_max_right fuel array_size) hrun
    unfold calculate_required_pages at h3 h4
    rw [h3] at h4
    exact Option.some.inj h4
  · intro i hi
    exact (hplan.step _ _ _ i hi).1
  · exact hplan.getLast
  · intro i hi
    have h1 := (hplan.step _ _ _ i hi).2
    have h2 := hplan.pos _ (by omega) _ _ hpos i (by omega)
    omega


/-- The fields set by the constructor. -/
theorem construct_spec (K : ArrayConsts) (fuel id payload_size array_size : Nat)
    (root_page_pointer : DualPagePointer) (create : Bool) (st : ArrayStoragePimpl)
    (h : ArrayStoragePimpl.construct K fuel id payload_size array_size root_page_pointer create
      = some st) :
    st.levels_ = st.pages_.length ∧
    st.offset_intervals_.length = st.levels_ ∧
    st.offset_intervals_.getD 0 0 = K.DATA_SIZE / (align8 payload_size + K.RECORD_OVERHEAD) ∧
    (∀ L, 1 ≤ L → L < st.levels_ →
      st.offset_intervals_.getD L 0 = st.offset_intervals_.getD (L - 1) 0 * K.INTERIOR_FANOUT) ∧
    (∀ L, L < st.levels_ →
      st.offset_intervals_.getD L 0 =
        K.DATA_SIZE / (align8 payload_size + K.RECORD_OVERHEAD) * K.INTERIOR_FANOUT ^ L) ∧
    calculate_required_pages K fuel array_size (align8 payload_size) = some st.pages_ ∧
    st.pages_.getD 0 0 = int_div_ceil array_size (st.offset_intervals_.getD 0 0) ∧
    (payload_size ≤ align8 payload_size ∧ align8 payload_size < payload_size + 8 ∧
      align8 payload_size % 8 = 0) := by
  unfold ArrayStoragePimpl.construct at h
  cases hp : calculate_required_pages K fuel array_size (align8 payload_size) with
  | none => simp [hp] at h
  | some pages =>
    simp only [hp] at h
    have hst := (Option.some.inj h).symm
    obtain ⟨r, hr⟩ := calculate_required_pages_loop_prefix K fuel _ _ hp
    have hlen : 1 ≤ pages.length := by rw [hr]; simp
    obtain ⟨h1, h2, h3⟩ := build_offset_intervals_spec K (pages.length - 1)
      [K.DATA_SIZE / (align8 payload_size + K.RECORD_OVERHEAD)] (by simp)
    simp only [List.length_singleton] at h1 h2 h3
    have hiv0 := h2 0 (by omega)
    simp only [List.getD_cons_zero] at hiv0
    have hstep : ∀ L, 1 ≤ L → L < pages.length →
        (build_offset_intervals K (pages.length - 1)
          [K.DATA_SIZE / (align8 payload_size + K.RECORD_OVERHEAD)]).getD L 0 =
        (build_offset_intervals K (pages.length - 1)
          [K.DATA_SIZE / (align8 payload_size + K.RECORD_OVERHEAD)]).getD (L - 1) 0 *
            K.INTERIOR_FANOUT := fun L hL1 hL2 => h3 L hL1 (by omega)
    subst hst
    refine ⟨rfl, by simp only; omega, hiv0, hstep, ?_, rfl, ?_, ?_⟩
    · intro L hL
      simp only at hL ⊢
      induction L with
      | zero => simpa using hiv0
      | succ n ih =>
        rw [hstep (n + 1) (by omega) hL, Nat.add_sub_cancel, ih (by omega), pow_succ, mul_assoc]
    · simp only [hiv0]
      rw [hr]
      rfl
    · unfold align8
      omega

/-! ## Frame lemmas for the page memory -/

theorem getD_append_singleton (l : List Nat) (a k : Nat) :
    (l ++ [a]).getD k 0 = if k < l.length then l.getD k 0 else if k = l.length then a else 0 := by
  simp only [List.getD_eq_getElem?_getD]
  by_cases h : k < l.length
  · rw [List.getElem?_append_left h, if_pos h]
  · rw [if_neg h]
    by_cases h2 : k = l.length
    · subst h2; simp
    · rw [if_neg h2, List.getElem?_eq_none (by simp; omega)]; rfl

theorem getD_mem (l : List Nat) (k : Nat) (h : k < l.length) : l.getD k 0 ∈ l := by
  rw [List.getD_eq_getElem?_getD, List.getElem?_eq_getElem h]
  exact List.getElem_mem h

theorem getD_inj_of_nodup (l : List Nat) (hn : l.Nodup) (i j : Nat) (hi : i < l.length)
    (hj : j < l.length) (h : l.getD i 0 = l.getD j 0) : i = j := by
  rw [List.getD_eq_getElem?_getD, List.getD_eq_getElem?_getD, List.getElem?_eq_getElem hi,
    List.getElem?_eq_getElem hj] at h
  exact (List.Nodup.getElem_inj_iff hn).1 (by simpa using h)

theorem alloc_grabbed (w : World) (p : ArrayPage) :
    (w.alloc p).grabbed = w.grabbed ++ [w.supply w.grabbed.length] := rfl

theorem alloc_pages (w : World) (p : ArrayPage) :
    (w.alloc p).pages = Function.update w.pages (w.supply w.grabbed.length) p := rfl

theorem link_grabbed (w : World) (t s c : Nat) : (w.link t s c).grabbed = w.grabbed := rfl

theorem link_pages (w : World) (t s c : Nat) :
    (w.link t s c).pages = Function.update w.pages t ((w.pages t).set_child s c) := rfl

theorem level_pages_alloc (w : World) (p : ArrayPage) (L : Nat)
    (hfresh : w.supply w.grabbed.length ∉ w.grabbed) :
    level_pages (w.alloc p) L =
      level_pages w L ++ (if p.node_height_ = L then [w.supply w.grabbed.length] else []) := by
  unfold level_pages
  rw [alloc_grabbed, alloc_pages, List.filter_append]
  congr 1
  · apply List.filter_congr
    intro x hx
    have : x ≠ w.supply w.grabbed.length := fun h => hfresh (h ▸ hx)
    simp [Function.update_noteq this]
  · by_cases h : p.node_height_ = L <;> simp [h]

theorem level_pages_link (w : World) (t s c : Nat) (L : Nat) :
    level_pages (w.link t s c) L = level_pages w L := by
  unfold level_pages
  rw [link_grabbed, link_pages]
  apply List.filter_congr
  intro x _
  by_cases h : x = t
  · subst h; simp [ArrayPage.set_child]
  · simp [Function.update_noteq h]

theorem level_pages_height (w : World) (L k : Nat) (h : k < (level_pages w L).length) :
    (w.pages ((level_pages w L).getD k 0)).node_height_ = L := by
  have := getD_mem _ k h
  unfold level_pages at this
  simpa using (List.mem_filter.1 this).2

theorem level_pages_mem (w : World) (L k : Nat) (h : k < (level_pages w L).length) :
    (level_pages w L).getD k 0 ∈ w.grabbed := by
  have := getD_mem _ k h
  unfold level_pages at this
  exact (List.mem_filter.1 this).1

theorem level_pages_nodup (w : World) (L : Nat) (h : w.grabbed.Nodup) :
    (level_pages w L).Nodup := h.filter _

/-- Two pages of the tree are the same page only at the same level and index. -/
theorem level_pages_inj (w : World) (hn : w.grabbed.Nodup) (L k L2 k2 : Nat)
    (hk : k < (level_pages w L).length) (hk2 : k2 < (level_pages w L2).length)
    (h : (level_pages w L).getD k 0 = (level_pages w L2).getD k2 0) : L = L2 ∧ k = k2 := by
  have h1 := level_pages_height w L k hk
  have h2 := level_pages_height w L2 k2 hk2
  rw [h] at h1
  have hL : L = L2 := h1.symm.trans h2
  subst hL
  exact ⟨rfl, getD_inj_of_nodup _ (level_pages_nodup w L hn) k k2 hk hk2 h⟩

/-! ## The three page operations of create preserve the page invariant -/

theorem PagesInv.fresh_ne {K : ArrayConsts} {st : ArrayStoragePimpl} {w : World}
    {m lnk : Nat → Nat} (hinv : PagesInv K st w m lnk)
    (hfresh : w.supply w.grabbed.length ∉ w.grabbed) (L k : Nat) (hk : k < m L) :
    (level_pages w L).getD k 0 ≠ w.supply w.grabbed.length := by
  intro h
  apply hfresh
  rw [← h]
  exact level_pages_mem w L k (by rw [hinv.len]; exact hk)

/-- The page found at index `k` of level `L2` after a new page `p` of level
`L` was grabbed and written. -/
theorem PagesInv.alloc_page_at {K : ArrayConsts} {st : ArrayStoragePimpl} {w : World}
    {m lnk : Nat → Nat} (hinv : PagesInv K st w m lnk)
    (hfresh : w.supply w.grabbed.length ∉ w.grabbed) (p : ArrayPage) (L : Nat)
    (hL : p.node_height_ = L) (L2 k : Nat) (hk : k < Function.update m L (m L + 1) L2) :
    (L2 = L ∧ k = m L ∧ (level_pages (w.alloc p) L2).getD k 0 = w.supply w.grabbed.length ∧
      (w.alloc p).pages ((level_pages (w.alloc p) L2).getD k 0) = p) ∨
    (k < m L2 ∧ (level_pages (w.alloc p) L2).getD k 0 = (level_pages w L2).getD k 0 ∧
      (w.alloc p).pages ((level_pages (w.alloc p) L2).getD k 0) =
        w.pages ((level_pages w L2).getD k 0)) := by
  rw [level_pages_alloc w p L2 hfresh, alloc_pages]
  by_cases h : L2 = L ∧ k = m L
  · obtain ⟨h1, h2⟩ := h
    subst h1
    subst h2
    have : ((level_pages w L2) ++ [w.supply w.grabbed.length]).getD (m L2) 0 =
        w.supply w.grabbed.length := by
      rw [getD_append_singleton, hinv.len]; simp
    refine Or.inl ⟨rfl, rfl, ?_, ?_⟩
    · rw [if_pos hL]; exact this
    · rw [if_pos hL, this, Function.update_same]
  · right
    have hk2 : k < m L2 := by
      by_cases h1 : L2 = L
      · subst h1
        simp only [Function.update_same] at hk
        have : k ≠ m L2 := fun h2 => h ⟨rfl, h2⟩
        omega
      · simpa [Function.update_noteq h1] using hk
    have hget : ((level_pages w L2) ++ (if p.node_height_ = L2 then [w.supply w.grabbed.length]
        else [])).getD k 0 = (level_pages w L2).getD k 0 := by
      by_cases h1 : p.node_height_ = L2
      · rw [if_pos h1, getD_append_singleton, hinv.len, if_pos hk2]
      · rw [if_neg h1, List.append_nil]
    refine ⟨hk2, hget, ?_⟩
    rw [hget, Function.update_noteq (hinv.fresh_ne hfresh L2 k hk2)]

theorem PagesInv.step_alloc {K : ArrayConsts} {st : ArrayStoragePimpl} {w : World}
    {m lnk : Nat → Nat} (hinv : PagesInv K st w m lnk)
    (hfresh : w.supply w.grabbed.length ∉ w.grabbed) (p : ArrayPage) (L : Nat)
    (hL : p.node_height_ = L) (x : Nat)
    (hb : p.array_range_.begin_ = m L * st.interval L)
    (he : p.array_range_.end_ = st.range_end L (m L))
    (hx : 1 ≤ L → x ≤ m (L - 1))
    (hold : ∀ k i, k < m L → i < K.INTERIOR_FANOUT →
      (k * K.INTERIOR_FANOUT + i < x ↔ k * K.INTERIOR_FANOUT + i < lnk L))
    (hs : 1 ≤ L → ∀ i, p.interior i =
      if i < K.INTERIOR_FANOUT ∧ m L * K.INTERIOR_FANOUT + i < x then
        ⟨0, ⟨0, (level_pages w (L - 1)).getD (m L * K.INTERIOR_FANOUT + i) 0⟩⟩
      else DualPagePointer.null) :
    PagesInv K st (w.alloc p) (Function.update m L (m L + 1)) (Function.update lnk L x) := by
  have hlow : ∀ L2, 1 ≤ L2 → ∀ j, j < m (L2 - 1) →
      (level_pages (w.alloc p) (L2 - 1)).getD j 0 = (level_pages w (L2 - 1)).getD j 0 := by
    intro L2 _ j hj
    rw [level_pages_alloc w p _ hfresh]
    by_cases h1 : p.node_height_ = L2 - 1
    · rw [if_pos h1, getD_append_singleton, hinv.len, if_pos hj]
    · rw [if_neg h1, List.append_nil]
  constructor
  · rw [alloc_grabbed]
    exact List.Nodup.append hinv.nodup (List.nodup_singleton _) (by simpa using hfresh)
  · intro L2
    rw [level_pages_alloc w p L2 hfresh, List.length_append, hinv.len, hL]
    by_cases h : L = L2
    · subst h; simp
    · rw [if_neg h, Function.update_noteq (Ne.symm h)]; simp
  · intro L2 k hk
    rcases hinv.alloc_page_at hfresh p L hL L2 k hk with ⟨h1, h2, _, h4⟩ | ⟨h1, _, h3⟩
    · rw [h4, h1, h2]; exact hb
    · rw [h3]; exact hinv.begin_eq L2 k h1
  · intro L2 k hk
    rcases hinv.alloc_page_at hfresh p L hL L2 k hk with ⟨h1, h2, _, h4⟩ | ⟨h1, _, h3⟩
    · rw [h4, h1, h2]; exact he
    · rw [h3]; exact hinv.end_eq L2 k h1
  · intro L2 k hL2 hk i
    rcases hinv.alloc_page_at hfresh p L hL L2 k hk with ⟨h1, h2, _, h4⟩ | ⟨h1, _, h3⟩
    · subst h1
      subst h2
      rw [h4, hs hL2 i, Function.update_same]
      by_cases hc : i < K.INTERIOR_FANOUT ∧ m L2 * K.INTERIOR_FANOUT + i < x
      · rw [if_pos hc, if_pos hc, hlow L2 hL2 _ (lt_of_lt_of_le hc.2 (hx hL2))]
      · rw [if_neg hc, if_neg hc]
    · rw [h3, hinv.slots L2 k hL2 h1 i]
      have hcond : (i < K.INTERIOR_FANOUT ∧ k * K.INTERIOR_FANOUT + i < Function.update lnk L x L2) ↔
          (i < K.INTERIOR_FANOUT ∧ k * K.INTERIOR_FANOUT + i < lnk L2) := by
        by_cases h : L2 = L
        · subst h
          rw [Function.update_same]
          constructor
          · rintro ⟨a, b⟩; exact ⟨a, (hold k i h1 a).1 b⟩
          · rintro ⟨a, b⟩; exact ⟨a, (hold k i h1 a).2 b⟩
        · rw [Function.update_noteq h]
      by_cases hc : i < K.INTERIOR_FANOUT ∧ k * K.INTERIOR_FANOUT + i < lnk L2
      · rw [if_pos hc, if_pos (hcond.2 hc),
          hlow L2 hL2 _ (lt_of_lt_of_le hc.2 (hinv.lnk_le L2 hL2))]
      · rw [if_neg hc, if_neg (fun h => hc (hcond.1 h))]
  · intro L2 hL2
    have hm : m (L2 - 1) ≤ Function.update m L (m L + 1) (L2 - 1) := by
      by_cases h : L2 - 1 = L
      · rw [h, Function.update_same]; omega
      · rw [Function.update_noteq h]
    by_cases h : L2 = L
    · subst h
      rw [Function.update_same]
      exact le_trans (hx hL2) hm
    · rw [Function.update_noteq h]
      exact le_trans (hinv.lnk_le L2 hL2) hm

theorem PagesInv.step_link {K : ArrayConsts} {st : ArrayStoragePimpl} {w : World}
    {m lnk : Nat → Nat} (hinv : PagesInv K st w m lnk) (L : Nat) (hL : 1 ≤ L)
    (hm : 1 ≤ m L) (s : Nat) (hs : s + (m L - 1) * K.INTERIOR_FANOUT = lnk L)
    (hsF : s < K.INTERIOR_FANOUT) (hchild : lnk L < m (L - 1)) :
    PagesInv K st
      (w.link ((level_pages w L).getD (m L - 1) 0) s ((level_pages w (L - 1)).getD (lnk L) 0))
      m (Function.update lnk L (lnk L + 1)) := by
  have hpage : ∀ L2 k, k < m L2 → ¬ (L2 = L ∧ k = m L - 1) →
      (w.link ((level_pages w L).getD (m L - 1) 0) s
        ((level_pages w (L - 1)).getD (lnk L) 0)).pages ((level_pages w L2).getD k 0) =
      w.pages ((level_pages w L2).getD k 0) := by
    intro L2 k hk hne
    rw [link_pages, Function.update_noteq]
    intro h
    exact hne (level_pages_inj w hinv.nodup L2 k L (m L - 1) (by rw [hinv.len]; exact hk)
      (by rw [hinv.len]; omega) h)
  constructor
  · exact hinv.nodup
  · intro L2; rw [level_pages_link]; exact hinv.len L2
  · intro L2 k hk
    rw [level_pages_link]
    by_cases h : L2 = L ∧ k = m L - 1
    · obtain ⟨h1, h2⟩ := h
      subst h1; subst h2
      rw [link_pages, Function.update_same]
      exact hinv.begin_eq L2 _ hk
    · rw [hpage L2 k hk h]; exact hinv.begin_eq L2 k hk
  · intro L2 k hk
    rw [level_pages_link]
    by_cases h : L2 = L ∧ k = m L - 1
    · obtain ⟨h1, h2⟩ := h
      subst h1; subst h2
      rw [link_pages, Function.update_same]
      exact hinv.end_eq L2 _ hk
    · rw [hpage L2 k hk h]; exact hinv.end_eq L2 k hk
  · intro L2 k hL2 hk i
    rw [level_pages_link, level_pages_link]
    by_cases h : L2 = L ∧ k = m L - 1
    · obtain ⟨h1, h2⟩ := h
      subst h1; subst h2
      rw [link_pages, Function.update_same, Function.update_same]
      simp only [ArrayPage.set_child]
      by_cases hi : i = s
      · subst hi
        rw [Function.update_same, if_pos ⟨hsF, by omega⟩]
        have : (m L2 - 1) * K.INTERIOR_FANOUT + i = lnk L2 := by omega
        rw [this]
      · rw [Function.update_noteq hi, hinv.slots L2 _ hL2 hk i]
        have hcond : ((m L2 - 1) * K.INTERIOR_FANOUT + i < lnk L2 + 1) ↔
            ((m L2 - 1) * K.INTERIOR_FANOUT + i < lnk L2) := by omega
        simp only [hcond]
    · rw [hpage L2 k hk h, hinv.slots L2 k hL2 hk i]
      by_cases h1 : L2 = L
      · subst h1
        rw [Function.update_same]
        have hk2 : k < m L2 - 1 := by
          have : k ≠ m L2 - 1 := fun h2 => h ⟨rfl, h2⟩
          omega
        have hmul : (k + 1) * K.INTERIOR_FANOUT ≤ (m L2 - 1) * K.INTERIOR_FANOUT :=
          Nat.mul_le_mul_right _ hk2
        rw [Nat.add_mul] at hmul
        have hcond : (i < K.INTERIOR_FANOUT ∧ k * K.INTERIOR_FANOUT + i < lnk L2 + 1) ↔
            (i < K.INTERIOR_FANOUT ∧ k * K.INTERIOR_FANOUT + i < lnk L2) := by
          constructor
          · rintro ⟨a, _⟩; exact ⟨a, by omega⟩
          · rintro ⟨a, _⟩; exact ⟨a, by omega⟩
        simp only [hcond]
      · rw [Function.update_noteq h1]
  · intro L2 hL2
    by_cases h : L2 = L
    · subst h; rw [Function.update_same]; omega
    · rw [Function.update_noteq h]; exact hinv.lnk_le L2 hL2

/-! ## Arithmetic of page counts -/

theorem ceil_eq_pred_div (a b : Nat) (ha : 1 ≤ a) (hb : 1 ≤ b) :
    (a + b - 1) / b = (a - 1) / b + 1 := by
  have : a + b - 1 = (a - 1) + b := by omega
  rw [this, Nat.add_div_right _ (by omega)]

/-- The slot counter of a full page: the next page of the level below opens a
new parent. -/
theorem count_full (F a c : Nat) (hF : 1 ≤ F)
    (hc : c + ((a - 1) / F) * F = a) (hfull : c = F) : a / F = (a - 1) / F + 1 := by
  rw [hfull] at hc
  have h1 : a = ((a - 1) / F + 1) * F := by rw [Nat.add_mul]; omega
  conv_lhs => rw [h1]
  exact Nat.mul_div_cancel _ (by omega)

/-- The slot counter of a page that is not full: the next page of the level
below goes to the same parent. -/
theorem count_not_full (F a c : Nat) (hF : 1 ≤ F)
    (hc : c + ((a - 1) / F) * F = a) (hlt : c < F) : a / F = (a - 1) / F := by
  have h1 : a = c + F * ((a - 1) / F) := by rw [Nat.mul_comm]; omega
  conv_lhs => rw [h1]
  rw [Nat.add_mul_div_left _ _ (by omega), Nat.div_eq_of_lt hlt, Nat.zero_add]

theorem slot_le (F a c : Nat) (hF : 1 ≤ F) (ha : 1 ≤ a)
    (hc : c + ((a - 1) / F) * F = a) : c ≤ F := by
  have h1 := Nat.div_add_mod (a - 1) F
  have h2 := Nat.mod_lt (a - 1) (show F > 0 by omega)
  rw [Nat.mul_comm] at h1
  omega

theorem getD_set (l : List Nat) (i j v : Nat) (hi : i < l.length) :
    (l.set i v).getD j 0 = if j = i then v else l.getD j 0 := by
  simp only [List.getD_eq_getElem?_getD, List.getElem?_set]
  by_cases h : i = j
  · subst h; simp [hi]
  · rw [if_neg h, if_neg (Ne.symm h)]

theorem getD_append_left (l : List Nat) (a k : Nat) (h : k < l.length) :
    (l ++ [a]).getD k 0 = l.getD k 0 := by
  rw [getD_append_singleton, if_pos h]

theorem getD_append_length (l : List Nat) (a : Nat) : (l ++ [a]).getD l.length 0 = a := by
  rw [getD_append_singleton]; simp

/-! ## Fresh offsets -/

theorem Fresh.not_mem {w : World} (h : Fresh w) : w.supply w.grabbed.length ∉ w.grabbed := by
  intro hmem
  rw [h.trace] at hmem
  obtain ⟨i, hi, heq⟩ := List.mem_map.1 hmem
  have hi2 : i < w.grabbed.length := by
    have := List.mem_range.1 hi
    simpa using this
  have := h.inj heq
  rw [List.length_map, List.length_range] at this
  omega

theorem Fresh.fresh_alloc {w : World} (h : Fresh w) (p : ArrayPage) : Fresh (w.alloc p) := by
  refine ⟨h.inj, h.nonzero, ?_⟩
  show w.grabbed ++ [w.supply w.grabbed.length] =
    (List.range (w.grabbed ++ [w.supply w.grabbed.length]).length).map w.supply
  rw [List.length_append, List.length_singleton, List.range_succ, List.map_append, ← h.trace]
  rfl

theorem Fresh.fresh_link {w : World} (h : Fresh w) (t s c : Nat) : Fresh (w.link t s c) :=
  ⟨h.inj, h.nonzero, h.trace⟩

theorem same_env_refl (w : World) : World.same_env w w := ⟨rfl, rfl, rfl, rfl⟩

theorem same_env_alloc {w0 w : World} (h : World.same_env w0 w) (p : ArrayPage) :
    World.same_env w0 (w.alloc p) := h

theorem same_env_link {w0 w : World} (h : World.same_env w0 w) (t s c : Nat) :
    World.same_env w0 (w.link t s c) := h

/-! ## The first loop of create: the left-most chain -/

theorem left_count_lt (lev L : Nat) (h : L < lev) : left_count lev L = 1 := by
  simp [left_count, h]

theorem left_count_ge (lev L : Nat) (h : lev ≤ L) : left_count lev L = 0 := by
  simp only [left_count]; rw [if_neg (by omega)]

theorem left_linked_lt (lev L : Nat) (h1 : 1 ≤ L) (h : L < lev) : left_linked lev L = 1 := by
  simp only [left_linked]; rw [if_pos (And.intro h1 h)]

theorem left_count_succ (lev : Nat) :
    Function.update (left_count lev) lev (left_count lev lev + 1) = left_count (lev + 1) := by
  funext L
  by_cases h : L = lev
  · subst h; rw [Function.update_same, left_count_ge _ _ (le_refl _), left_count_lt _ _ (by omega)]
  · rw [Function.update_noteq h]
    by_cases h2 : L < lev
    · rw [left_count_lt _ _ h2, left_count_lt _ _ (by omega)]
    · rw [left_count_ge _ _ (by omega), left_count_ge _ _ (by omega)]

theorem left_linked_succ (lev : Nat) :
    Function.update (left_linked lev) lev (if 1 ≤ lev then 1 else 0) = left_linked (lev + 1) := by
  funext L
  by_cases h : L = lev
  · subst h
    rw [Function.update_same]
    by_cases h1 : 1 ≤ L
    · rw [if_pos h1, left_linked_lt _ _ h1 (by omega)]
    · rw [if_neg h1]; simp only [left_linked]; rw [if_neg (fun h2 => h1 h2.1)]
  · rw [Function.update_noteq h]
    simp only [left_linked]
    by_cases h2 : 1 ≤ L ∧ L < lev
    · rw [if_pos h2, if_pos (And.intro h2.1 (by omega))]
    · rw [if_neg h2, if_neg (fun h3 => h2 ⟨h3.1, by omega⟩)]

/-- One iteration of the first loop, written with `World.alloc`. -/
theorem create_leftmost_step_eq (st : ArrayStoragePimpl) (epoch : Nat) (c : Cursors) (w : World)
    (lev : Nat) :
    create_leftmost_step st epoch (c, w) lev =
      (⟨c.current_pages ++ [w.supply w.grabbed.length],
        c.current_pages_offset ++ [w.supply w.grabbed.length],
        c.current_records ++ [if lev = 0 then 0 else 1]⟩,
       w.alloc (if lev = 0 then
          initialize_data_page epoch st.id_ st.payload_size_ lev
            ⟨0, min (st.interval lev) st.array_size_⟩
        else
          (initialize_data_page epoch st.id_ st.payload_size_ lev
            ⟨0, min (st.interval lev) st.array_size_⟩).set_child 0
              (c.current_pages_offset.getD (lev - 1) 0))) := by
  have hr : (if (⟨0, st.offset_intervals_.getD lev 0⟩ : ArrayRange).end_ > st.array_size_ then
        { (⟨0, st.offset_intervals_.getD lev 0⟩ : ArrayRange) with end_ := st.array_size_ }
      else ⟨0, st.offset_intervals_.getD lev 0⟩) =
      (⟨0, min (st.interval lev) st.array_size_⟩ : ArrayRange) := by
    simp only [ArrayStoragePimpl.interval]
    split
    · rename_i h
      rw [Nat.min_eq_right (Nat.le_of_lt h)]
    · rename_i h
      rw [Nat.min_eq_left (Nat.le_of_not_lt h)]
  unfold create_leftmost_step
  simp only [hr]
  by_cases h0 : lev = 0
  · simp only [if_pos h0]; rfl
  · simp only [if_neg h0]; rfl

/-- The state after the first `lev` iterations of the first loop. -/
theorem create_leftmost_inv (K : ArrayConsts) (st : ArrayStoragePimpl) (epoch : Nat)
    (w0 : World) (hfresh : Fresh w0) (hempty : w0.grabbed = []) (hF : 1 ≤ K.INTERIOR_FANOUT)
    (lev : Nat) :
    PagesInv K st ((List.range lev).foldl (create_leftmost_step st epoch) (⟨[], [], []⟩, w0)).2
        (left_count lev) (left_linked lev) ∧
      CursorInv K ((List.range lev).foldl (create_leftmost_step st epoch) (⟨[], [], []⟩, w0)).1
        ((List.range lev).foldl (create_leftmost_step st epoch) (⟨[], [], []⟩, w0)).2
        (left_count lev) (left_linked lev) lev ∧
      Fresh ((List.range lev).foldl (create_leftmost_step st epoch) (⟨[], [], []⟩, w0)).2 ∧
      World.same_env w0
        ((List.range lev).foldl (create_leftmost_step st epoch) (⟨[], [], []⟩, w0)).2 := by
  induction lev with
  | zero =>
    simp only [List.range_zero, List.foldl_nil]
    refine ⟨⟨by rw [hempty]; exact List.nodup_nil, ?_, ?_, ?_, ?_, ?_⟩,
      ⟨rfl, rfl, rfl, ?_, ?_, ?_, ?_⟩, hfresh, same_env_refl w0⟩
    · intro L; simp [level_pages, hempty, left_count]
    · intro L k hk; simp [left_count] at hk
    · intro L k hk; simp [left_count] at hk
    · intro L k _ hk; simp [left_count] at hk
    · intro L _; simp [left_linked]
    · intro L hL; omega
    · intro L hL; omega
    · intro L hL; omega
    · intro L _ hL; omega
  | succ lev ih =>
    simp only [List.range_succ, List.foldl_append, List.foldl_cons, List.foldl_nil]
    obtain ⟨hp, hc, hfr, henv⟩ := ih
    generalize (List.range lev).foldl (create_leftmost_step st epoch) (⟨[], [], []⟩, w0) = s
      at hp hc hfr henv
    obtain ⟨c, w⟩ := s
    simp only at hp hc hfr henv
    rw [create_leftmost_step_eq]
    generalize hnewp : (if lev = 0 then
          initialize_data_page epoch st.id_ st.payload_size_ lev
            ⟨0, min (st.interval lev) st.array_size_⟩
        else
          (initialize_data_page epoch st.id_ st.payload_size_ lev
            ⟨0, min (st.interval lev) st.array_size_⟩).set_child 0
              (c.current_pages_offset.getD (lev - 1) 0)) = newp
    have hm0 : left_count lev lev = 0 := left_count_ge _ _ (le_refl _)
    have hheight : newp.node_height_ = lev := by
      rw [← hnewp]; split <;> rfl
    have hnb : newp.array_range_.begin_ = 0 := by
      rw [← hnewp]; split <;> rfl
    have hne : newp.array_range_.end_ = st.range_end lev 0 := by
      have : st.range_end lev 0 = min (st.interval lev) st.array_size_ := by
        simp [ArrayStoragePimpl.range_end]
      rw [this, ← hnewp]; split <;> rfl
    have hpnew := hp.step_alloc hfr.not_mem newp lev hheight (if 1 ≤ lev then 1 else 0)
      (by rw [hm0, hnb, Nat.zero_mul])
      (by rw [hm0]; exact hne)
      (by intro h1; rw [if_pos h1, left_count_lt _ _ (by omega)])
      (by intro k i hk; rw [hm0] at hk; omega)
      (by
        intro h1 i
        have h0 : lev ≠ 0 := by omega
        rw [← hnewp, if_neg h0, if_pos h1, hm0, Nat.zero_mul]
        simp only [ArrayPage.set_child, initialize_data_page, Nat.zero_add]
        have hcpo := hc.cpo (lev - 1) (by omega)
        rw [left_count_lt _ _ (by omega)] at hcpo
        by_cases hi : i = 0
        · subst hi
          rw [Function.update_same, if_pos (And.intro (by omega) (by omega)), hcpo]
        · rw [Function.update_noteq hi, if_neg (by omega)])
    rw [left_count_succ, left_linked_succ] at hpnew
    refine ⟨hpnew, ?_, hfr.fresh_alloc newp, same_env_alloc henv newp⟩
    have hat : ∀ L2, L2 < lev + 1 →
        (L2 = lev ∧ (level_pages (w.alloc newp) L2).getD 0 0 = w.supply w.grabbed.length) ∨
        (L2 < lev ∧ (level_pages (w.alloc newp) L2).getD 0 0 = (level_pages w L2).getD 0 0) := by
      intro L2 hL2
      have hk2 : 0 < Function.update (left_count lev) lev (left_count lev lev + 1) L2 := by
        rw [left_count_succ, left_count_lt _ _ hL2]; omega
      rcases hp.alloc_page_at hfr.not_mem newp lev hheight L2 0 hk2 with
        ⟨h1, _, h3, _⟩ | ⟨h1, h2, _⟩
      · left; exact ⟨h1, h3⟩
      · right
        refine ⟨?_, h2⟩
        by_contra hcon
        rw [left_count_ge _ _ (by omega)] at h1
        omega
    constructor
    · simp [hc.cp_len]
    · simp [hc.cpo_len]
    · simp [hc.cr_len]
    · intro L hL; rw [left_count_lt _ _ hL]
    · intro L hL
      show (c.current_pages ++ [w.supply w.grabbed.length]).getD L 0 = _
      rw [left_count_lt _ _ hL]
      rcases hat L hL with ⟨h1, h3⟩ | ⟨hL2, h2⟩
      · subst h1
        rw [h3]
        have := getD_append_length c.current_pages (w.supply w.grabbed.length)
        rw [hc.cp_len] at this
        exact this
      · rw [h2, getD_append_left _ _ _ (by rw [hc.cp_len]; exact hL2)]
        have := hc.cp L hL2
        rw [left_count_lt _ _ hL2] at this
        exact this
    · intro L hL
      show (c.current_pages_offset ++ [w.supply w.grabbed.length]).getD L 0 = _
      rw [left_count_lt _ _ hL]
      rcases hat L hL with ⟨h1, h3⟩ | ⟨hL2, h2⟩
      · subst h1
        rw [h3]
        have := getD_append_length c.current_pages_offset (w.supply w.grabbed.length)
        rw [hc.cpo_len] at this
        exact this
      · rw [h2, getD_append_left _ _ _ (by rw [hc.cpo_len]; exact hL2)]
        have := hc.cpo L hL2
        rw [left_count_lt _ _ hL2] at this
        exact this
    · intro L hL1 hL
      show (c.current_records ++ [if lev = 0 then 0 else 1]).getD L 0 +
        (left_count (lev + 1) L - 1) * K.INTERIOR_FANOUT = left_linked (lev + 1) L
      rw [left_count_lt _ _ hL, left_linked_lt _ _ hL1 hL]
      by_cases h : L = lev
      · subst h
        have := getD_append_length c.current_records (if L = 0 then 0 else 1)
        rw [hc.cr_len] at this
        rw [this, if_neg (by omega)]
        simp
      · have hL2 : L < lev := by omega
        rw [getD_append_left _ _ _ (by rw [hc.cr_len]; exact hL2)]
        have := hc.cr L hL1 hL2
        rw [left_count_lt _ _ hL2, left_linked_lt _ _ hL1 hL2] at this
        exact this

/-! ## Facts about the plan -/

theorem Planned.interval_ge {K : ArrayConsts} {st : ArrayStoragePimpl} (h : Planned K st) :
    ∀ L, L < st.levels_ → 1 ≤ st.interval L := by
  intro L
  induction L with
  | zero => intro _; exact h.interval_pos
  | succ n ih =>
    intro hL
    rw [h.interval_succ n hL]
    exact Nat.mul_pos (ih (by omega)) (by have := h.fanout; omega)

theorem Planned.pages_eq {K : ArrayConsts} {st : ArrayStoragePimpl} (h : Planned K st) :
    ∀ L, L < st.levels_ → st.pages_.getD L 0 = (st.array_size_ - 1) / st.interval L + 1 := by
  intro L
  induction L with
  | zero => intro _; exact h.pages_zero
  | succ n ih =>
    intro hL
    rw [h.pages_succ n hL, ih (by omega), Nat.add_sub_cancel, h.interval_succ n hL,
      Nat.div_div_eq_div_mul]

theorem Planned.pages_pos {K : ArrayConsts} {st : ArrayStoragePimpl} (h : Planned K st)
    (L : Nat) (hL : L < st.levels_) : 1 ≤ st.pages_.getD L 0 := by
  rw [h.pages_eq L hL]; exact Nat.le_add_left 1 _

/-- Below the top level the interval is smaller than the array. -/
theorem Planned.interval_lt {K : ArrayConsts} {st : ArrayStoragePimpl} (h : Planned K st)
    (L : Nat) (hL : L + 1 < st.levels_) : st.interval L < st.array_size_ := by
  have h1 := h.pages_gt L hL
  rw [h.pages_eq L (by omega)] at h1
  have h2 : 1 ≤ (st.array_size_ - 1) / st.interval L := by omega
  have h3 := (Nat.le_div_iff_mul_le (h.interval_ge L (by omega))).1 h2
  have := h.size_pos
  omega

/-! ## Cursor updates -/

theorem CursorInv.cursor_alloc {K : ArrayConsts} {st : ArrayStoragePimpl} {w : World} {c : Cursors}
    {m lnk : Nat → Nat} {n : Nat} (hinv : PagesInv K st w m lnk) (hc : CursorInv K c w m lnk n)
    (hfresh : w.supply w.grabbed.length ∉ w.grabbed) (p : ArrayPage) (L : Nat)
    (hL : p.node_height_ = L) (hLn : L < n) (x : Nat) (r : List Nat)
    (hrlen : r.length = n)
    (hr : ∀ L2, 1 ≤ L2 → L2 < n → L2 ≠ L → r.getD L2 0 = c.current_records.getD L2 0)
    (hrL : 1 ≤ L → r.getD L 0 + m L * K.INTERIOR_FANOUT = x) :
    CursorInv K
      ⟨c.current_pages.set L (w.supply w.grabbed.length),
        c.current_pages_offset.set L (w.supply w.grabbed.length), r⟩
      (w.alloc p) (Function.update m L (m L + 1)) (Function.update lnk L x) n := by
  have hat : ∀ L2, L2 < n →
      (level_pages (w.alloc p) L2).getD (Function.update m L (m L + 1) L2 - 1) 0 =
        if L2 = L then w.supply w.grabbed.length else (level_pages w L2).getD (m L2 - 1) 0 := by
    intro L2 hL2
    have hpos := hc.m_pos L2 hL2
    by_cases h : L2 = L
    · subst h
      rw [if_pos rfl, Function.update_same, Nat.add_sub_cancel]
      rcases hinv.alloc_page_at hfresh p L2 hL L2 (m L2) (by rw [Function.update_same]; omega)
        with ⟨_, _, h3, _⟩ | ⟨h1, _, _⟩
      · exact h3
      · omega
    · rw [if_neg h, Function.update_noteq h]
      rcases hinv.alloc_page_at hfresh p L hL L2 (m L2 - 1)
        (by rw [Function.update_noteq h]; omega) with ⟨h1, _, _, _⟩ | ⟨_, h2, _⟩
      · exact absurd h1 h
      · exact h2
  constructor
  · simp [hc.cp_len]
  · simp [hc.cpo_len]
  · exact hrlen
  · intro L2 hL2
    have := hc.m_pos L2 hL2
    by_cases h : L2 = L
    · subst h; rw [Function.update_same]; omega
    · rw [Function.update_noteq h]; exact this
  · intro L2 hL2
    show (c.current_pages.set L (w.supply w.grabbed.length)).getD L2 0 = _
    rw [hat L2 hL2, getD_set _ _ _ _ (by rw [hc.cp_len]; exact hLn)]
    by_cases h : L2 = L
    · rw [if_pos h, if_pos h]
    · rw [if_neg h, if_neg h]; exact hc.cp L2 hL2
  · intro L2 hL2
    show (c.current_pages_offset.set L (w.supply w.grabbed.length)).getD L2 0 = _
    rw [hat L2 hL2, getD_set _ _ _ _ (by rw [hc.cpo_len]; exact hLn)]
    by_cases h : L2 = L
    · rw [if_pos h, if_pos h]
    · rw [if_neg h, if_neg h]; exact hc.cpo L2 hL2
  · intro L2 hL1 hL2
    show r.getD L2 0 + _ = _
    by_cases h : L2 = L
    · subst h
      rw [Function.update_same, Function.update_same, Nat.add_sub_cancel]
      exact hrL hL1
    · rw [Function.update_noteq h, Function.update_noteq h, hr L2 hL1 hL2 h]
      exact hc.cr L2 hL1 hL2

theorem CursorInv.cursor_link {K : ArrayConsts} {w : World} {c : Cursors}
    {m lnk : Nat → Nat} {n : Nat} (hc : CursorInv K c w m lnk n) (L : Nat) (hL : 1 ≤ L)
    (hLn : L < n) (t s ch : Nat) :
    CursorInv K
      { c with current_records := c.current_records.set L (c.current_records.getD L 0 + 1) }
      (w.link t s ch) m (Function.update lnk L (lnk L + 1)) n := by
  constructor
  · exact hc.cp_len
  · exact hc.cpo_len
  · simp [hc.cr_len]
  · exact hc.m_pos
  · intro L2 hL2; rw [level_pages_link]; exact hc.cp L2 hL2
  · intro L2 hL2; rw [level_pages_link]; exact hc.cpo L2 hL2
  · intro L2 hL1 hL2
    show (c.current_records.set L (c.current_records.getD L 0 + 1)).getD L2 0 + _ = _
    rw [getD_set _ _ _ _ (by rw [hc.cr_len]; exact hLn)]
    by_cases h : L2 = L
    · subst h
      rw [if_pos rfl, Function.update_same]
      have := hc.cr L2 hL1 hL2
      omega
    · rw [if_neg h, Function.update_noteq h]; exact hc.cr L2 hL1 hL2

/-- One iteration of the push-up loop, written with `World.alloc` and
`World.link`. -/
theorem create_push_up_succ (K : ArrayConsts) (st : ArrayStoragePimpl) (epoch : Nat)
    (n level : Nat) (range : ArrayRange) (c : Cursors) (w : World) :
    create_push_up K st epoch (n + 1) level range (c, w) =
      if c.current_records.getD level 0 = K.INTERIOR_FANOUT then
        create_push_up K st epoch n (level + 1)
          (if range.end_ > st.array_size_ then { range with end_ := st.array_size_ } else range)
          (⟨c.current_pages.set level (w.supply w.grabbed.length),
            c.current_pages_offset.set level (w.supply w.grabbed.length),
            c.current_records.set level 1⟩,
           w.alloc ((initialize_data_page epoch st.id_ st.payload_size_ level
              ⟨(w.pages (c.current_pages.getD level 0)).array_range_.end_,
               (w.pages (c.current_pages.getD level 0)).array_range_.end_ +
                 st.interval level⟩).set_child 0
              (c.current_pages_offset.getD (level - 1) 0)))
      else
        ({ c with current_records :=
            c.current_records.set level (c.current_records.getD level 0 + 1) },
         w.link (c.current_pages.getD level 0) (c.current_records.getD level 0)
           (c.current_pages_offset.getD (level - 1) 0)) := by
  rw [create_push_up]
  rfl

/-! ## The push-up loop -/

theorem create_push_up_inv (K : ArrayConsts) (st : ArrayStoragePimpl) (epoch : Nat)
    (hplan : Planned K st) :
    ∀ (rem L : Nat) (range : ArrayRange) (c : Cursors) (w : World) (m lnk : Nat → Nat),
      rem + L = st.levels_ → 1 ≤ rem → 1 ≤ L → PushInv K st L c w m lnk →
      ∃ m2 lnk2,
        StepInv K st (m 0) (create_push_up K st epoch rem L range (c, w)).1
          (create_push_up K st epoch rem L range (c, w)).2 m2 lnk2 ∧
        World.same_env w (create_push_up K st epoch rem L range (c, w)).2 := by
  intro rem
  induction rem with
  | zero => intro L range c w m lnk _ h; omega
  | succ rem ih =>
    intro L range c w m lnk hsum _ hL hinv
    have hF := hplan.fanout
    have hLn : L < st.levels_ := by omega
    have hmL := hinv.cursors.m_pos L hLn
    have hcr := hinv.cursors.cr L hL hLn
    have htwo := hinv.here_two
    have hlk := hinv.here_linked
    have hcnt := hinv.here_count
    -- `a` pages of the level below are linked
    have ha : 1 ≤ lnk L := by omega
    have hm1 : m L - 1 = (lnk L - 1) / K.INTERIOR_FANOUT := by
      rw [hcnt]
      have : m (L - 1) - 2 = lnk L - 1 := by omega
      rw [this, Nat.add_sub_cancel]
    have hslot : c.current_records.getD L 0 + ((lnk L - 1) / K.INTERIOR_FANOUT) *
        K.INTERIOR_FANOUT = lnk L := by rw [← hm1]; exact hcr
    have hcp := hinv.cursors.cp L hLn
    have hcpo := hinv.cursors.cpo (L - 1) (by omega)
    have hcpo2 : c.current_pages_offset.getD (L - 1) 0 = (level_pages w (L - 1)).getD (lnk L) 0 := by
      rw [hcpo]; congr 1; omega
    rw [create_push_up_succ]
    by_cases hfull : c.current_records.getD L 0 = K.INTERIOR_FANOUT
    · rw [if_pos hfull]
      have hdiv := count_full K.INTERIOR_FANOUT (lnk L) _ (by omega) hslot hfull
      have hmul : lnk L = m L * K.INTERIOR_FANOUT := by
        have h1 : m L = (m L - 1) + 1 := by omega
        rw [h1, Nat.add_mul, Nat.one_mul]
        rw [hfull] at hcr
        omega
      have hmdiv : lnk L / K.INTERIOR_FANOUT = m L := by omega
      -- the new page does not exceed the plan
      have hbound : m L + 1 ≤ st.pages_.getD L 0 := by
        have hb1 := hinv.bound (L - 1) (by omega)
        have hps := hplan.pages_succ (L - 1) (by omega)
        rw [Nat.sub_add_cancel hL] at hps
        rw [hps, ← hmdiv]
        have : lnk L ≤ st.pages_.getD (L - 1) 0 - 1 := by omega
        have := Nat.div_le_div_right (c := K.INTERIOR_FANOUT) this
        omega
      have hL1 : L + 1 < st.levels_ := by
        by_contra hcon
        have : L = st.levels_ - 1 := by omega
        have htop := hplan.pages_top
        rw [← this] at htop
        omega
      -- the range of the current page of this level ends at a multiple of the interval
      have hend : (w.pages (c.current_pages.getD L 0)).array_range_.end_ =
          m L * st.interval L := by
        rw [hcp, hinv.pages.end_eq L (m L - 1) (by omega)]
        unfold ArrayStoragePimpl.range_end
        by_cases hk : m L - 1 = 0
        · rw [if_pos (Or.inr hk)]
          have h1 : m L = 1 := by omega
          rw [hk, h1, Nat.zero_add, Nat.one_mul]
          exact Nat.min_eq_left (Nat.le_of_lt (hplan.interval_lt L hL1))
        · rw [if_neg (by omega), Nat.sub_add_cancel hmL]
      generalize hp : (initialize_data_page epoch st.id_ st.payload_size_ L
              ⟨(w.pages (c.current_pages.getD L 0)).array_range_.end_,
               (w.pages (c.current_pages.getD L 0)).array_range_.end_ +
                 st.interval L⟩).set_child 0
              (c.current_pages_offset.getD (L - 1) 0) = p
      have hph : p.node_height_ = L := by rw [← hp]; rfl
      have hpb : p.array_range_.begin_ = m L * st.interval L := by rw [← hp]; exact hend
      have hpe : p.array_range_.end_ = st.range_end L (m L) := by
        rw [← hp]
        show (w.pages (c.current_pages.getD L 0)).array_range_.end_ + st.interval L = _
        unfold ArrayStoragePimpl.range_end
        rw [if_neg (by omega), hend, Nat.add_mul, Nat.one_mul]
      have hpages := hinv.pages.step_alloc hinv.fresh.not_mem p L hph (lnk L + 1) hpb hpe
        (by intro _; omega)
        (by
          intro k i hk hi
          have : (k + 1) * K.INTERIOR_FANOUT ≤ m L * K.INTERIOR_FANOUT :=
            Nat.mul_le_mul_right _ hk
          rw [Nat.add_mul] at this
          constructor <;> intro _ <;> omega)
        (by
          intro _ i
          rw [← hp]
          simp only [ArrayPage.set_child, initialize_data_page]
          by_cases hi : i = 0
          · subst hi
            rw [Function.update_same, if_pos (And.intro (by omega) (by omega)), hcpo2]
            have h3 : m L * K.INTERIOR_FANOUT + 0 = lnk L := by omega
            rw [h3]
          · rw [Function.update_noteq hi, if_neg (by omega)])
      have hcurs := CursorInv.cursor_alloc hinv.pages hinv.cursors hinv.fresh.not_mem p L hph hLn
        (lnk L + 1) (c.current_records.set L 1) (by simp [hinv.cursors.cr_len])
        (by
          intro L2 _ _ hne
          rw [getD_set _ _ _ _ (by rw [hinv.cursors.cr_len]; exact hLn), if_neg hne])
        (by
          intro _
          rw [getD_set _ _ _ _ (by rw [hinv.cursors.cr_len]; exact hLn), if_pos rfl]
          omega)
      have hpush : PushInv K st (L + 1)
          ⟨c.current_pages.set L (w.supply w.grabbed.length),
            c.current_pages_offset.set L (w.supply w.grabbed.length),
            c.current_records.set L 1⟩ (w.alloc p)
          (Function.update m L (m L + 1)) (Function.update lnk L (lnk L + 1)) := by
        have hne0 : ∀ L2, L2 ≠ L → Function.update m L (m L + 1) L2 = m L2 :=
          fun L2 h => Function.update_noteq h _ _
        have hnl0 : ∀ L2, L2 ≠ L → Function.update lnk L (lnk L + 1) L2 = lnk L2 :=
          fun L2 h => Function.update_noteq h _ _
        constructor
        · exact hpages
        · exact hcurs
        · exact hinv.fresh.fresh_alloc p
        · intro L2 h1 h2
          by_cases h : L2 = L
          · subst h
            rw [Function.update_same, hne0 (L2 - 1) (by omega)]
            have : m (L2 - 1) - 1 = lnk L2 := by omega
            rw [this, hmdiv]
          · rw [hne0 L2 h, hne0 (L2 - 1) (by omega)]
            exact hinv.low_succ L2 h1 (by omega)
        · intro L2 h1 h2
          by_cases h : L2 = L
          · subst h
            rw [Function.update_same, hne0 (L2 - 1) (by omega)]
            omega
          · rw [hnl0 L2 h, hne0 (L2 - 1) (by omega)]
            exact hinv.low_linked L2 h1 (by omega)
        · rw [hne0 (L + 1) (by omega), Nat.add_sub_cancel, Function.update_same,
            hinv.high_succ (L + 1) (by omega) hL1, Nat.add_sub_cancel]
          congr 2
        · rw [hnl0 (L + 1) (by omega), Nat.add_sub_cancel, Function.update_same,
            hinv.high_linked (L + 1) (by omega) hL1, Nat.add_sub_cancel]
        · rw [Nat.add_sub_cancel, Function.update_same]; omega
        · intro L2 h1 h2
          rw [hne0 L2 (by omega), hne0 (L2 - 1) (by omega)]
          exact hinv.high_succ L2 (by omega) h2
        · intro L2 h1 h2
          rw [hnl0 L2 (by omega), hne0 (L2 - 1) (by omega)]
          exact hinv.high_linked L2 (by omega) h2
        · intro L2 h1
          rw [hne0 L2 (by omega)]
          exact hinv.count_none L2 h1
        · intro L2 h1
          by_cases h : L2 = L
          · subst h; rw [Function.update_same]; exact hbound
          · rw [hne0 L2 h]; exact hinv.bound L2 h1
      obtain ⟨m2, lnk2, hstep, henv⟩ := ih (L + 1)
        (if range.end_ > st.array_size_ then { range with end_ := st.array_size_ } else range)
        _ _ _ _ (by omega) (by omega) (by omega) hpush
      rw [Function.update_noteq (by omega : (0 : Nat) ≠ L)] at hstep
      exact ⟨m2, lnk2, hstep, henv⟩
    · rw [if_neg hfull]
      have hle := slot_le K.INTERIOR_FANOUT (lnk L) _ (by omega) ha hslot
      have hlt : c.current_records.getD L 0 < K.INTERIOR_FANOUT := by omega
      have hdiv := count_not_full K.INTERIOR_FANOUT (lnk L) _ (by omega) hslot hlt
      have hpages := hinv.pages.step_link L hL hmL (c.current_records.getD L 0) hcr hlt (by omega)
      rw [← hcp, ← hcpo2] at hpages
      have hcurs := hinv.cursors.cursor_link L hL hLn (c.current_pages.getD L 0)
        (c.current_records.getD L 0) (c.current_pages_offset.getD (L - 1) 0)
      refine ⟨m, Function.update lnk L (lnk L + 1), ?_, same_env_refl w⟩
      constructor
      · exact hpages
      · exact hcurs
      · exact hinv.fresh.fresh_link _ _ _
      · rfl
      · intro L2 h1 h2
        rcases Nat.lt_trichotomy L2 L with h | h | h
        · exact hinv.low_succ L2 h1 h
        · subst h
          have : m (L2 - 1) - 1 = lnk L2 := by omega
          rw [this, hdiv]
          omega
        · exact hinv.high_succ L2 h h2
      · exact hinv.count_none
      · intro L2 h1 h2
        by_cases h : L2 = L
        · subst h; rw [Function.update_same]; exact hlk
        · rw [Function.update_noteq h]
          rcases Nat.lt_or_gt_of_ne h with h3 | h3
          · exact hinv.low_linked L2 h1 h3
          · exact hinv.high_linked L2 h3 h2
      · exact hinv.bound

/-! ## The second loop of create -/

theorem same_env_trans {w0 w1 w2 : World} (h1 : World.same_env w0 w1)
    (h2 : World.same_env w1 w2) : World.same_env w0 w2 :=
  ⟨h2.1.trans h1.1, h2.2.1.trans h1.2.1, h2.2.2.1.trans h1.2.2.1, h2.2.2.2.trans h1.2.2.2⟩

/-- One iteration of the second loop, written with `World.alloc`. -/
theorem create_leaf_step_eq (K : ArrayConsts) (st : ArrayStoragePimpl) (epoch : Nat)
    (c : Cursors) (w : World) :
    create_leaf_step K st epoch (c, w) =
      create_push_up K st epoch (st.levels_ - 1) 1
        ⟨(w.pages (c.current_pages.getD 0 0)).array_range_.end_,
          min ((w.pages (c.current_pages.getD 0 0)).array_range_.end_ + st.interval 0)
            st.array_size_⟩
        (⟨c.current_pages.set 0 (w.supply w.grabbed.length),
          c.current_pages_offset.set 0 (w.supply w.grabbed.length), c.current_records⟩,
         w.alloc (initialize_data_page epoch st.id_ st.payload_size_ 0
          ⟨(w.pages (c.current_pages.getD 0 0)).array_range_.end_,
            min ((w.pages (c.current_pages.getD 0 0)).array_range_.end_ + st.interval 0)
              st.array_size_⟩)) := by
  have hr : ∀ e : Nat,
      (if (⟨e, e + st.offset_intervals_.getD 0 0⟩ : ArrayRange).end_ > st.array_size_ then
        { (⟨e, e + st.offset_intervals_.getD 0 0⟩ : ArrayRange) with end_ := st.array_size_ }
      else ⟨e, e + st.offset_intervals_.getD 0 0⟩) =
      (⟨e, min (e + st.interval 0) st.array_size_⟩ : ArrayRange) := by
    intro e
    simp only [ArrayStoragePimpl.interval]
    split
    · rename_i h
      rw [Nat.min_eq_right (Nat.le_of_lt h)]
    · rename_i h
      rw [Nat.min_eq_left (Nat.le_of_not_lt h)]
  unfold create_leaf_step
  simp only [World.grab_free_page]
  rw [hr]
  rfl

theorem create_leaf_step_inv (K : ArrayConsts) (st : ArrayStoragePimpl) (epoch : Nat)
    (hplan : Planned K st) (j : Nat) (c : Cursors) (w : World) (m lnk : Nat → Nat)
    (hinv : StepInv K st j c w m lnk) (hj : j < st.pages_.getD 0 0) :
    ∃ m2 lnk2,
      StepInv K st (j + 1) (create_leaf_step K st epoch (c, w)).1
        (create_leaf_step K st epoch (c, w)).2 m2 lnk2 ∧
      World.same_env w (create_leaf_step K st epoch (c, w)).2 := by
  have hF := hplan.fanout
  have hj1 : 1 ≤ j := by
    have := hinv.cursors.m_pos 0 hplan.levels_pos
    rw [hinv.leaves] at this
    exact this
  have hn : 2 ≤ st.levels_ := by
    by_contra hcon
    have h1 : st.levels_ - 1 = 0 := by have := hplan.levels_pos; omega
    have := hplan.pages_top
    rw [h1] at this
    omega
  -- the current leaf ends at a multiple of the interval
  have hjr : j * st.interval 0 < st.array_size_ := by
    rw [hplan.pages_zero] at hj
    have h1 : j ≤ (st.array_size_ - 1) / st.interval 0 := by omega
    have h2 := (Nat.le_div_iff_mul_le hplan.interval_pos).1 h1
    have := hplan.size_pos
    omega
  have hend : (w.pages (c.current_pages.getD 0 0)).array_range_.end_ = j * st.interval 0 := by
    rw [hinv.cursors.cp 0 hplan.levels_pos, hinv.pages.end_eq 0 (m 0 - 1)
      (by rw [hinv.leaves]; omega)]
    unfold ArrayStoragePimpl.range_end
    rw [if_pos (Or.inl rfl), hinv.leaves, Nat.sub_add_cancel hj1]
    exact Nat.min_eq_left (Nat.le_of_lt hjr)
  rw [create_leaf_step_eq, hend]
  generalize hp : initialize_data_page epoch st.id_ st.payload_size_ 0
    ⟨j * st.interval 0, min (j * st.interval 0 + st.interval 0) st.array_size_⟩ = p
  have hph : p.node_height_ = 0 := by rw [← hp]; rfl
  have hpb : p.array_range_.begin_ = m 0 * st.interval 0 := by rw [← hp, hinv.leaves]; rfl
  have hpe : p.array_range_.end_ = st.range_end 0 (m 0) := by
    rw [← hp, hinv.leaves]
    unfold ArrayStoragePimpl.range_end
    rw [if_pos (Or.inl rfl), Nat.add_mul, Nat.one_mul]
    rfl
  have hpages := hinv.pages.step_alloc hinv.fresh.not_mem p 0 hph (lnk 0) hpb hpe
    (by intro h; omega) (by intro k i _ _; rfl) (by intro h; omega)
  rw [Function.update_eq_self] at hpages
  have hcurs := CursorInv.cursor_alloc hinv.pages hinv.cursors hinv.fresh.not_mem p 0 hph
    hplan.levels_pos (lnk 0) c.current_records hinv.cursors.cr_len
    (by intro L2 _ _ _; rfl) (by intro h; omega)
  rw [Function.update_eq_self] at hcurs
  have hne0 : ∀ L2, L2 ≠ 0 → Function.update m 0 (m 0 + 1) L2 = m L2 :=
    fun L2 h => Function.update_noteq h _ _
  have hpush : PushInv K st 1
      ⟨c.current_pages.set 0 (w.supply w.grabbed.length),
        c.current_pages_offset.set 0 (w.supply w.grabbed.length), c.current_records⟩
      (w.alloc p) (Function.update m 0 (m 0 + 1)) lnk := by
    constructor
    · exact hpages
    · exact hcurs
    · exact hinv.fresh.fresh_alloc p
    · intro L2 h1 h2; omega
    · intro L2 h1 h2; omega
    · rw [hne0 1 (by omega), Nat.sub_self, Function.update_same,
        hinv.count_succ 1 (le_refl _) (by omega), Nat.sub_self]
      congr 2
    · rw [Nat.sub_self, Function.update_same, hinv.linked 1 (le_refl _) (by omega), Nat.sub_self]
    · rw [Nat.sub_self, Function.update_same, hinv.leaves]; omega
    · intro L2 h1 h2
      rw [hne0 L2 (by omega), hne0 (L2 - 1) (by omega)]
      exact hinv.count_succ L2 (by omega) h2
    · intro L2 h1 h2
      rw [hne0 (L2 - 1) (by omega)]
      exact hinv.linked L2 (by omega) h2
    · intro L2 h1
      rw [hne0 L2 (by omega)]
      exact hinv.count_none L2 h1
    · intro L2 h1
      by_cases h : L2 = 0
      · subst h; rw [Function.update_same, hinv.leaves]; omega
      · rw [hne0 L2 h]; exact hinv.bound L2 h1
  obtain ⟨m2, lnk2, hstep, henv⟩ := create_push_up_inv K st epoch hplan (st.levels_ - 1) 1
    ⟨j * st.interval 0, min (j * st.interval 0 + st.interval 0) st.array_size_⟩
    _ _ _ _ (by omega) (by omega) (le_refl _) hpush
  rw [Function.update_same, hinv.leaves] at hstep
  exact ⟨m2, lnk2, hstep, same_env_trans (same_env_alloc (same_env_refl w) p) henv⟩

/-- The state after the first loop and `t` iterations of the second. -/
theorem create_loops_inv (K : ArrayConsts) (st : ArrayStoragePimpl) (hplan : Planned K st)
    (w0 : World) (hfresh : Fresh w0) (hempty : w0.grabbed = []) (epoch : Nat) (t : Nat)
    (ht : t + 1 ≤ st.pages_.getD 0 0) :
    ∃ m lnk,
      StepInv K st (t + 1)
        ((List.range t).foldl (fun s _ => create_leaf_step K st epoch s)
          ((List.range st.levels_).foldl (create_leftmost_step st epoch) (⟨[], [], []⟩, w0))).1
        ((List.range t).foldl (fun s _ => create_leaf_step K st epoch s)
          ((List.range st.levels_).foldl (create_leftmost_step st epoch) (⟨[], [], []⟩, w0))).2
        m lnk ∧
      World.same_env w0
        ((List.range t).foldl (fun s _ => create_leaf_step K st epoch s)
          ((List.range st.levels_).foldl (create_leftmost_step st epoch) (⟨[], [], []⟩, w0))).2 := by
  induction t with
  | zero =>
    obtain ⟨hp, hc, hfr, henv⟩ := create_leftmost_inv K st epoch w0 hfresh hempty
      (by have := hplan.fanout; omega) st.levels_
    simp only [List.range_zero, List.foldl_nil]
    refine ⟨left_count st.levels_, left_linked st.levels_, ⟨hp, hc, hfr, ?_, ?_, ?_, ?_, ?_⟩, henv⟩
    · exact left_count_lt _ _ hplan.levels_pos
    · intro L h1 h2
      rw [left_count_lt _ _ h2, left_count_lt _ _ (by omega)]
      simp
    · intro L h; exact left_count_ge _ _ h
    · intro L h1 h2
      rw [left_linked_lt _ _ h1 h2, left_count_lt _ _ (by omega)]
    · intro L h
      rw [left_count_lt _ _ h]
      exact hplan.pages_pos L h
  | succ t ih =>
    obtain ⟨m, lnk, hstep, henv⟩ := ih (by omega)
    simp only [List.range_succ, List.foldl_append, List.foldl_cons, List.foldl_nil]
    generalize (List.range t).foldl (fun s _ => create_leaf_step K st epoch s)
          ((List.range st.levels_).foldl (create_leftmost_step st epoch) (⟨[], [], []⟩, w0)) = s
      at hstep henv
    obtain ⟨c, w⟩ := s
    obtain ⟨m2, lnk2, h2, henv2⟩ := create_leaf_step_inv K st epoch hplan (t + 1) c w m lnk hstep
      (by omega)
    exact ⟨m2, lnk2, h2, same_env_trans henv henv2⟩

theorem StepInv.count_eq {K : ArrayConsts} {st : ArrayStoragePimpl} {c : Cursors} {w : World}
    {m lnk : Nat → Nat} (hplan : Planned K st)
    (h : StepInv K st (st.pages_.getD 0 0) c w m lnk) :
    ∀ L, L < st.levels_ → m L = st.pages_.getD L 0 := by
  intro L
  induction L with
  | zero => intro _; exact h.leaves
  | succ n ih =>
    intro hL
    rw [h.count_succ (n + 1) (by omega) hL, hplan.pages_succ n hL, Nat.add_sub_cancel,
      ih (by omega)]

/-- The two loops of create build the planned tree. -/
theorem create_build_built (K : ArrayConsts) (st : ArrayStoragePimpl) (hplan : Planned K st)
    (w0 : World) (hfresh : Fresh w0) (hempty : w0.grabbed = []) :
    Built K st (create_build K st w0).1 (create_build K st w0).2 ∧
      World.same_env w0 (create_build K st w0).2 := by
  have hp0 := hplan.pages_pos 0 hplan.levels_pos
  obtain ⟨m, lnk, hstep, henv⟩ := create_loops_inv K st hplan w0 hfresh hempty
    w0.current_global_epoch (st.pages_.getD 0 0 - 1) (by omega)
  rw [Nat.sub_add_cancel hp0] at hstep
  have hcb : create_build K st w0 =
      (List.range (st.pages_.getD 0 0 - 1)).foldl
        (fun s _ => create_leaf_step K st w0.current_global_epoch s)
        ((List.range st.levels_).foldl (create_leftmost_step st w0.current_global_epoch)
          (⟨[], [], []⟩, w0)) := rfl
  rw [hcb]
  generalize (List.range (st.pages_.getD 0 0 - 1)).foldl
        (fun s _ => create_leaf_step K st w0.current_global_epoch s)
        ((List.range st.levels_).foldl (create_leftmost_step st w0.current_global_epoch)
          (⟨[], [], []⟩, w0)) = s at hstep henv
  have hm := hstep.count_eq hplan
  refine ⟨⟨hstep.fresh, hstep.pages.nodup, ?_, ?_, ?_, ?_, ?_, ?_⟩, henv⟩
  · intro L
    rw [hstep.pages.len]
    by_cases h : L < st.levels_
    · rw [if_pos h, hm L h]
    · rw [if_neg h, hstep.count_none L (by omega)]
  · intro L k hL hk
    exact hstep.pages.begin_eq L k (by rw [hm L hL]; exact hk)
  · intro L k hL hk
    exact hstep.pages.end_eq L k (by rw [hm L hL]; exact hk)
  · intro L k h1 hL hk i
    have := hstep.pages.slots L k h1 (by rw [hm L hL]; exact hk) i
    rw [hstep.linked L h1 hL, hm (L - 1) (by omega)] at this
    exact this
  · have := hstep.cursors.cp (st.levels_ - 1) (by have := hplan.levels_pos; omega)
    rw [hm _ (by have := hplan.levels_pos; omega), hplan.pages_top] at this
    exact this
  · have := hstep.cursors.cpo (st.levels_ - 1) (by have := hplan.levels_pos; omega)
    rw [hm _ (by have := hplan.levels_pos; omega), hplan.pages_top] at this
    exact this

/-! ## From the constructor to the built tree -/

theorem getLast_getD (p : List Nat) (h : p.getLast? = some 1) : p.getD (p.length - 1) 0 = 1 := by
  rw [List.getLast?_eq_getElem?] at h
  rw [List.getD_eq_getElem?_getD, h]
  rfl

theorem construct_fields (K : ArrayConsts) (fuel id payload_size array_size : Nat)
    (root_page_pointer : DualPagePointer) (create : Bool) (st : ArrayStoragePimpl)
    (h : ArrayStoragePimpl.construct K fuel id payload_size array_size root_page_pointer create
      = some st) :
    st.array_size_ = array_size ∧ st.exist_ = !create ∧
      st.payload_size_ = payload_size ∧ st.id_ = id ∧ st.root_page_ = none ∧
      st.root_page_pointer_ = root_page_pointer := by
  unfold ArrayStoragePimpl.construct at h
  cases hp : calculate_required_pages K fuel array_size (align8 payload_size) with
  | none => simp [hp] at h
  | some pages =>
    simp only [hp] at h
    have := (Option.some.inj h).symm
    subst this
    exact ⟨rfl, rfl, rfl, rfl, rfl, rfl⟩

/-- The constructor plans the tree. -/
theorem construct_planned (K : ArrayConsts) (fuel id payload_size array_size : Nat)
    (root_page_pointer : DualPagePointer) (create : Bool) (st : ArrayStoragePimpl)
    (hF : 2 ≤ K.INTERIOR_FANOUT) (hN : 1 ≤ array_size)
    (hr : 1 ≤ K.DATA_SIZE / (align8 payload_size + K.RECORD_OVERHEAD))
    (h : ArrayStoragePimpl.construct K fuel id payload_size array_size root_page_pointer create
      = some st) :
    Planned K st ∧ st.array_size_ = array_size ∧ st.exist_ = !create ∧
      st.payload_size_ = payload_size ∧ st.id_ = id ∧
      st.interval 0 = K.DATA_SIZE / (align8 payload_size + K.RECORD_OVERHEAD) := by
  obtain ⟨h1, h2, h3, h4, _, h6, _, _⟩ :=
    construct_spec K fuel id payload_size array_size root_page_pointer create st h
  obtain ⟨p, _, hdet, hne, hp0, hps, hlast, hgt⟩ :=
    calculate_required_pages_spec K array_size (align8 payload_size) hF hN hr
  have hpe : st.pages_ = p := hdet fuel _ h6
  have hfields := construct_fields K fuel id payload_size array_size root_page_pointer create st h
  have hlen : 1 ≤ p.length := List.length_pos.2 hne
  refine ⟨⟨hF, by rw [hfields.1]; exact hN, by rw [h1, hpe]; exact hlen, ?_, ?_, ?_, ?_, ?_, ?_⟩,
    hfields.1, hfields.2.1, hfields.2.2.1, hfields.2.2.2.1, h3⟩
  · show 1 ≤ st.offset_intervals_.getD 0 0
    rw [h3]; exact hr
  · intro L hL
    have := h4 (L + 1) (by omega) hL
    rw [Nat.add_sub_cancel] at this
    exact this
  · rw [hpe, hp0, hfields.1]
    show _ = (array_size - 1) / st.offset_intervals_.getD 0 0 + 1
    rw [h3]
    exact ceil_eq_pred_div array_size _ hN hr
  · intro L hL
    rw [h1, hpe] at hL
    rw [hpe, hps L hL]
    have := hgt L hL
    exact ceil_eq_pred_div _ _ (by omega) (by omega)
  · rw [h1, hpe]
    exact getLast_getD p hlast
  · intro L hL
    rw [h1, hpe] at hL
    rw [hpe]
    exact hgt L hL

/-- What create returns for a storage that does not exist yet. -/
theorem create_eq (K : ArrayConsts) (st : ArrayStoragePimpl) (w : World)
    (h : st.exist_ = false) :
    st.create K w =
      (ErrorCode.RET_OK,
        { st with
          root_page_pointer_ :=
            ⟨0, ⟨0, (create_build K st w).1.current_pages_offset.getD (st.levels_ - 1) 0⟩⟩
          root_page_ := some ((create_build K st w).1.current_pages.getD (st.levels_ - 1) 0)
          exist_ := true },
        { (create_build K st w).2 with
          registered := (create_build K st w).2.registered ++ [st.id_] }) := by
  unfold ArrayStoragePimpl.create
  rw [h]
  rfl

/-! ## lookup on the built tree -/

theorem Fresh.grabbed_ne_zero {w : World} (h : Fresh w) : ∀ o, o ∈ w.grabbed → o ≠ 0 := by
  intro o ho
  rw [h.trace] at ho
  obtain ⟨i, _, heq⟩ := List.mem_map.1 ho
  rw [← heq]
  exact h.nonzero i

theorem sub_u64_eq (a b : Nat) (hb : b ≤ a) (ha : a < 2 ^ 64) : sub_u64 a b = a - b := by
  unfold sub_u64
  omega

theorem lookup_loop_mono (self : ArrayStoragePimpl) (pages : Nat → ArrayPage) (offset : Nat)
    (fuel : Nat) : ∀ (page : Nat) (r : ErrorCode × Option Nat),
      lookup_loop self pages offset fuel page = some r →
      lookup_loop self pages offset (fuel + 1) page = some r := by
  induction fuel with
  | zero =>
    intro page r h
    unfold lookup_loop at h
    unfold lookup_loop
    by_cases hl : (!(pages page).is_leaf) = true
    · rw [if_pos hl] at h; cases h
    · rw [if_neg hl] at h; rw [if_neg hl]; exact h
  | succ n ih =>
    intro page r h
    unfold lookup_loop at h
    unfold lookup_loop
    by_cases hl : (!(pages page).is_leaf) = true
    · rw [if_pos hl] at h
      rw [if_pos hl]
      simp only at h ⊢
      split
      · rename_i h0
        rw [if_pos h0] at h
        exact h
      · rename_i h0
        rw [if_neg h0] at h
        exact ih _ _ h
    · rw [if_neg hl] at h; rw [if_neg hl]; exact h

theorem lookup_loop_mono_le (self : ArrayStoragePimpl) (pages : Nat → ArrayPage) (offset : Nat)
    (page : Nat) (r : ErrorCode × Option Nat) (fuel fuel2 : Nat) (hle : fuel ≤ fuel2)
    (h : lookup_loop self pages offset fuel page = some r) :
    lookup_loop self pages offset fuel2 page = some r := by
  induction hle with
  | refl => exact h
  | step _ ih => exact lookup_loop_mono self pages offset _ _ _ ih

/-- The slot that lookup computes in a page of level `L + 1`. -/
theorem slot_arith (offset d F : Nat) (hF : 1 ≤ F) :
    offset / (d * F) * (d * F) ≤ offset ∧
    (offset - offset / (d * F) * (d * F)) / d < F ∧
    offset / (d * F) * F + (offset - offset / (d * F) * (d * F)) / d = offset / d := by
  have h1 : offset / (d * F) * (d * F) ≤ offset := Nat.div_mul_le_self _ _
  have h2 : offset / (d * F) = offset / d / F := (Nat.div_div_eq_div_mul _ _ _).symm
  have h3 : offset / (d * F) * (d * F) = d * (offset / d / F * F) := by rw [h2]; ring
  have h4 : (offset - offset / (d * F) * (d * F)) / d = offset / d - offset / d / F * F := by
    rw [h3, Nat.sub_mul_div _ _ _ (by rw [← h3]; exact h1)]
  have h5 := Nat.div_add_mod (offset / d) F
  have h6 := Nat.mod_lt (offset / d) (show F > 0 by omega)
  rw [Nat.mul_comm] at h5
  refine ⟨h1, ?_, ?_⟩
  · rw [h4]; omega
  · rw [h4, h2]; omega

theorem Planned.index_lt {K : ArrayConsts} {st : ArrayStoragePimpl} (h : Planned K st)
    (L : Nat) (hL : L < st.levels_) (offset : Nat) (ho : offset < st.array_size_) :
    offset / st.interval L < st.pages_.getD L 0 := by
  rw [h.pages_eq L hL]
  have : offset / st.interval L ≤ (st.array_size_ - 1) / st.interval L :=
    Nat.div_le_div_right (by omega)
  omega

/-- From the page of level `L` whose range holds `offset`, lookup reaches
the leaf whose range holds `offset`. -/
theorem lookup_loop_built (K : ArrayConsts) (st self : ArrayStoragePimpl) (c : Cursors)
    (w : World) (hplan : Planned K st) (hb : Built K st c w)
    (hiv : self.offset_intervals_ = st.offset_intervals_)
    (hF16 : K.INTERIOR_FANOUT ≤ 2 ^ 16) (offset : Nat) (ho : offset < st.array_size_)
    (h64 : st.array_size_ < 2 ^ 64) :
    ∀ L, L < st.levels_ → ∀ fuel, L ≤ fuel →
      lookup_loop self w.pages offset fuel ((level_pages w L).getD (offset / st.interval L) 0) =
        some (ErrorCode.RET_OK, some ((level_pages w 0).getD (offset / st.interval 0) 0)) := by
  intro L
  induction L with
  | zero =>
    intro hL fuel _
    have hk := hplan.index_lt 0 hL offset ho
    have hh := level_pages_height w 0 (offset / st.interval 0)
      (by rw [hb.len, if_pos hL]; exact hk)
    unfold lookup_loop
    rw [if_neg (by unfold ArrayPage.is_leaf; rw [hh]; decide)]
  | succ L ih =>
    intro hL fuel hfuel
    have hF := hplan.fanout
    have hk := hplan.index_lt (L + 1) hL offset ho
    have hk0 := hplan.index_lt L (by omega) offset ho
    have hd := hplan.interval_ge L (by omega)
    have hh := level_pages_height w (L + 1) (offset / st.interval (L + 1))
      (by rw [hb.len, if_pos hL]; exact hk)
    have hbeg := hb.begin_eq (L + 1) _ hL hk
    have hivs := hplan.interval_succ L hL
    obtain ⟨a1, a2, a3⟩ := slot_arith offset (st.interval L) K.INTERIOR_FANOUT (by omega)
    rw [← hivs] at a1 a2 a3
    obtain ⟨f, rfl⟩ : ∃ f, fuel = f + 1 := ⟨fuel - 1, by omega⟩
    unfold lookup_loop
    rw [if_pos (by unfold ArrayPage.is_leaf; rw [hh]; rfl)]
    simp only
    rw [hh, hbeg, Nat.add_sub_cancel, sub_u64_eq _ _ a1 (by omega), hiv]
    have hrec : (offset - offset / st.interval (L + 1) * st.interval (L + 1)) /
        st.offset_intervals_.getD L 0 % 2 ^ 16 =
        (offset - offset / st.interval (L + 1) * st.interval (L + 1)) / st.interval L :=
      Nat.mod_eq_of_lt (lt_of_lt_of_le a2 hF16)
    rw [hrec, hb.slots (L + 1) _ (by omega) hL hk, Nat.add_sub_cancel, a3,
      if_pos (And.intro a2 hk0)]
    simp only
    have hne : (level_pages w L).getD (offset / st.interval L) 0 ≠ 0 :=
      hb.fresh.grabbed_ne_zero _ (level_pages_mem w L _
        (by rw [hb.len, if_pos (by omega)]; exact hk0))
    rw [if_neg hne]
    exact ih (by omega) f (by omega)

/-- The leaf that lookup returns holds `offset` in its range. -/
theorem Built.leaf_contains {K : ArrayConsts} {st : ArrayStoragePimpl} {c : Cursors}
    {w : World} (hplan : Planned K st) (hb : Built K st c w) (offset : Nat)
    (ho : offset < st.array_size_) :
    (w.pages ((level_pages w 0).getD (offset / st.interval 0) 0)).node_height_ = 0 ∧
    (w.pages ((level_pages w 0).getD (offset / st.interval 0) 0)).array_range_.begin_ =
      offset / st.interval 0 * st.interval 0 ∧
    (w.pages ((level_pages w 0).getD (offset / st.interval 0) 0)).array_range_.contains offset
      = true ∧
    offset - offset / st.interval 0 * st.interval 0 < st.interval 0 := by
  have hL : 0 < st.levels_ := hplan.levels_pos
  have hk := hplan.index_lt 0 hL offset ho
  have hd := hplan.interval_pos
  have h1 : offset / st.interval 0 * st.interval 0 ≤ offset := Nat.div_mul_le_self _ _
  have h2 : offset < (offset / st.interval 0 + 1) * st.interval 0 := by
    rw [Nat.mul_comm]; exact Nat.lt_mul_div_succ offset (by omega)
  refine ⟨level_pages_height w 0 _ (by rw [hb.len, if_pos hL]; exact hk),
    hb.begin_eq 0 _ hL hk, ?_, ?_⟩
  · unfold ArrayRange.contains
    rw [hb.begin_eq 0 _ hL hk, hb.end_eq 0 _ hL hk]
    unfold ArrayStoragePimpl.range_end
    rw [if_pos (Or.inl rfl)]
    simp only [Bool.and_eq_true, decide_eq_true_eq]
    exact ⟨h1, lt_min h2 ho⟩
  · rw [Nat.add_mul, Nat.one_mul] at h2
    omega

/-- The root page is the page of the top level whose range holds every
offset of the array. -/
theorem Planned.top_index {K : ArrayConsts} {st : ArrayStoragePimpl} (h : Planned K st)
    (offset : Nat) (ho : offset < st.array_size_) :
    offset / st.interval (st.levels_ - 1) = 0 := by
  have h1 := h.index_lt (st.levels_ - 1) (by have := h.levels_pos; omega) offset ho
  rw [h.pages_top] at h1
  exact Nat.lt_one_iff.1 h1

theorem fresh_of_empty (w : World) (hinj : Function.Injective w.supply)
    (hnz : ∀ n, w.supply n ≠ 0) (hempty : w.grabbed = []) : Fresh w :=
  ⟨hinj, hnz, by rw [hempty]; rfl⟩

theorem small_storage_eq :
    ArrayStoragePimpl.construct small_consts 9 7 8 5 DualPagePointer.null true =
      some small_storage := rfl

theorem small_world_inj : Function.Injective small_world.supply :=
  fun _ _ h => Nat.succ.inj h

theorem small_world_nonzero : ∀ n, small_world.supply n ≠ 0 := fun n => Nat.succ_ne_zero n

/-- create on a freshly constructed storage builds the planned tree. -/
theorem create_built (K : ArrayConsts) (fuel id payload_size array_size : Nat)
    (root_page_pointer : DualPagePointer) (st : ArrayStoragePimpl) (w0 : World)
    (hF : 2 ≤ K.INTERIOR_FANOUT) (hN : 1 ≤ array_size)
    (hr : 1 ≤ K.DATA_SIZE / (align8 payload_size + K.RECORD_OVERHEAD))
    (hst : ArrayStoragePimpl.construct K fuel id payload_size array_size root_page_pointer true
      = some st)
    (hinj : Function.Injective w0.supply) (hnz : ∀ n, w0.supply n ≠ 0)
    (hempty : w0.grabbed = []) :
    ∃ (c : Cursors) (w : World) (st2 : ArrayStoragePimpl),
      st.create K w0 =
        (ErrorCode.RET_OK, st2, { w with registered := w.registered ++ [st.id_] }) ∧
      Planned K st ∧ st.array_size_ = array_size ∧
      st.interval 0 = K.DATA_SIZE / (align8 payload_size + K.RECORD_OVERHEAD) ∧
      Built K st c w ∧ World.same_env w0 w ∧
      st2.root_page_ = some ((level_pages w (st.levels_ - 1)).getD 0 0) ∧
      st2.root_page_pointer_ = ⟨0, ⟨0, (level_pages w (st.levels_ - 1)).getD 0 0⟩⟩ ∧
      st2.exist_ = true ∧
      st2.offset_intervals_ = st.offset_intervals_ := by
  obtain ⟨hplan, hsize, hexist, _, _, hiv0⟩ := construct_planned K fuel id payload_size
    array_size root_page_pointer true st hF hN hr hst
  have hex : st.exist_ = false := by rw [hexist]; rfl
  obtain ⟨hb, henv⟩ := create_build_built K st hplan w0 (fresh_of_empty w0 hinj hnz hempty)
    hempty
  refine ⟨_, _, _, create_eq K st w0 hex, hplan, hsize, hiv0, hb, henv, ?_, ?_, rfl, rfl⟩
  · simp only; rw [hb.root_page]
  · simp only; rw [hb.root_offset]

/-- On the built tree lookup returns the leaf of every offset of the array. -/
theorem built_lookup (K : ArrayConsts) (st st2 : ArrayStoragePimpl) (c : Cursors) (w : World)
    (hplan : Planned K st) (hb : Built K st c w)
    (hroot : st2.root_page_ = some ((level_pages w (st.levels_ - 1)).getD 0 0))
    (hiv : st2.offset_intervals_ = st.offset_intervals_)
    (hF16 : K.INTERIOR_FANOUT ≤ 2 ^ 16) (h64 : st.array_size_ < 2 ^ 64)
    (offset : Nat) (ho : offset < st.array_size_) (fuel2 : Nat) (hfuel : st.levels_ ≤ fuel2) :
    st2.lookup w.pages fuel2 offset =
      some (ErrorCode.RET_OK, some ((level_pages w 0).getD (offset / st.interval 0) 0)) := by
  unfold ArrayStoragePimpl.lookup
  rw [hroot]
  simp only [Option.getD_some]
  have htop := hplan.top_index offset ho
  have h := lookup_loop_built K st st2 c w hplan hb hiv hF16 offset ho h64 (st.levels_ - 1)
    (by have := hplan.levels_pos; omega) fuel2 (by omega)
  rw [htop] at h
  exact h

/-! ## get_record -/

/-- get_record once lookup has returned a leaf. -/
theorem get_record_of_lookup (self : ArrayStoragePimpl) (pages : Nat → ArrayPage) (fuel : Nat)
    (context : Thread) (offset : Nat) (payload : Nat → Nat) (payload_offset payload_count : Nat)
    (leaf : Nat) (h : self.lookup pages fuel offset = some (ErrorCode.RET_OK, some leaf)) :
    self.get_record pages fuel context offset payload payload_offset payload_count =
      if context.current_xct_.max_read_set_size_ ≤ context.current_xct_.read_set_.length then
        some (ErrorCode.READ_SET_OVERFLOW, context, payload)
      else
        some (ErrorCode.RET_OK,
          { context with current_xct_ :=
              { context.current_xct_ with read_set_ := context.current_xct_.read_set_ ++
                  [⟨leaf, sub_u64 offset (pages leaf).array_range_.begin_,
                    ((pages leaf).leaf
                      (sub_u64 offset (pages leaf).array_range_.begin_)).owner_id_⟩] } },
          memcpy_payload payload
            ((pages leaf).leaf (sub_u64 offset (pages leaf).array_range_.begin_))
            payload_offset payload_count) := by
  unfold ArrayStoragePimpl.get_record
  rw [h]
  simp only [Xct.add_to_read_set]
  by_cases hfull : context.current_xct_.max_read_set_size_ ≤ context.current_xct_.read_set_.length
  · rw [if_pos hfull, if_pos hfull]
  · rw [if_neg hfull, if_neg hfull]

theorem get_record_none (self : ArrayStoragePimpl) (pages : Nat → ArrayPage) (fuel : Nat)
    (context : Thread) (offset : Nat) (payload : Nat → Nat) (payload_offset payload_count : Nat)
    (h : self.lookup pages fuel offset = none) :
    self.get_record pages fuel context offset payload payload_offset payload_count = none := by
  unfold ArrayStoragePimpl.get_record
  rw [h]

/-! ## release_pages_recursive follows the post-order walk -/

theorem foldlM_range_succ {β : Type} (f : β → Nat → Option β) (b : β) (t : Nat) :
    (List.range (t + 1)).foldlM f b = ((List.range t).foldlM f b).bind (fun b2 => f b2 t) := by
  rw [List.range_succ, List.foldlM_append]
  cases (List.range t).foldlM f b with
  | none => rfl
  | some b2 => simp [List.foldlM_cons, List.foldlM_nil]

theorem descendants_step_prefix (walk : Nat → Option (List Nat)) (pages : Nat → ArrayPage)
    (page : Nat) (acc acc2 : List Nat) (slot : Nat)
    (h : descendants_step walk pages page acc slot = some acc2) : ∃ r, acc2 = acc ++ r := by
  unfold descendants_step at h
  split at h
  · split at h
    · cases h
    · rename_i below _
      exact ⟨below ++ [((pages page).interior slot).volatile_pointer_.offset],
        by rw [← Option.some.inj h, List.append_assoc]⟩
  · exact ⟨[], by rw [← Option.some.inj h, List.append_nil]⟩

theorem nodup_split (acc r : List Nat) (page : Nat) (h : (acc ++ r ++ [page]).Nodup) :
    (acc ++ [page]).Nodup ∧ r.Nodup ∧ (∀ q, q ∈ r → q ∉ acc ∧ q ≠ page) ∧ page ∉ acc := by
  rw [List.nodup_append, List.nodup_append] at h
  obtain ⟨⟨h1, h2, h3⟩, _, h5⟩ := h
  have hpage : page ∉ acc ++ r := fun hm => h5 hm (List.mem_singleton_self page) 
  refine ⟨?_, h2, ?_, ?_⟩
  · rw [List.nodup_append]
    refine ⟨h1, List.nodup_singleton _, ?_⟩
    intro q hq hq2
    rw [List.mem_singleton] at hq2
    subst hq2
    exact hpage (List.mem_append_left _ hq)
  · intro q hq
    refine ⟨fun hq2 => h3 hq2 hq, ?_⟩
    intro hqp
    subst hqp
    exact hpage (List.mem_append_right _ hq)
  · intro hm
    exact hpage (List.mem_append_left _ hm)

/-- The walk reads only the pages it lists and the page it starts from. -/
theorem descendants_postorder_congr (K : ArrayConsts) (fuel : Nat) :
    ∀ (pages1 pages2 : Nat → ArrayPage) (page : Nat) (l : List Nat),
      descendants_postorder K fuel pages1 page = some l →
      (∀ q, q ∈ l ∨ q = page → pages2 q = pages1 q) →
      descendants_postorder K fuel pages2 page = some l := by
  induction fuel with
  | zero => intro pages1 pages2 page l h; cases h
  | succ fuel ih =>
    intro pages1 pages2 page l h hagree
    have hpage : pages2 page = pages1 page := hagree page (Or.inr rfl)
    unfold descendants_postorder at h ⊢
    rw [hpage]
    by_cases hleaf : (!(pages1 page).is_leaf) = true
    · rw [if_pos hleaf] at h ⊢
      have hfold : ∀ (t : Nat) (acc : List Nat),
          (List.range t).foldlM
            (descendants_step (descendants_postorder K fuel pages1) pages1 page) [] = some acc →
          (∀ q, q ∈ acc → pages2 q = pages1 q) →
          (List.range t).foldlM
            (descendants_step (descendants_postorder K fuel pages2) pages2 page) [] = some acc := by
        intro t
        induction t with
        | zero => intro acc h0 _; exact h0
        | succ t iht =>
          intro acc h1 hag
          rw [foldlM_range_succ] at h1 ⊢
          cases h0 : (List.range t).foldlM
              (descendants_step (descendants_postorder K fuel pages1) pages1 page) [] with
          | none => rw [h0] at h1; cases h1
          | some acc0 =>
            rw [h0] at h1
            simp only [Option.some_bind] at h1
            obtain ⟨r, hr⟩ := descendants_step_prefix _ _ _ _ _ _ h1
            rw [iht acc0 h0 (fun q hq => hag q (by rw [hr]; exact List.mem_append_left _ hq))]
            simp only [Option.some_bind]
            unfold descendants_step at h1 ⊢
            rw [hpage]
            by_cases hch : ((pages1 page).interior t).volatile_pointer_.offset ≠ 0
            · rw [if_pos hch] at h1 ⊢
              cases hw : descendants_postorder K fuel pages1
                  ((pages1 page).interior t).volatile_pointer_.offset with
              | none => rw [hw] at h1; cases h1
              | some below =>
                rw [hw] at h1
                simp only at h1
                have hacc := (Option.some.inj h1).symm
                rw [ih pages1 pages2 _ below hw (by
                  intro q hq
                  apply hag
                  rw [hacc]
                  rcases hq with hq | hq
                  · exact List.mem_append_left _ (List.mem_append_right _ hq)
                  · rw [hq]; exact List.mem_append_right _ (List.mem_singleton_self _))]
                exact h1
            · rw [if_neg hch] at h1 ⊢
              exact h1
      exact hfold K.INTERIOR_FANOUT l h (fun q hq => hagree q (Or.inl hq))
    · rw [if_neg hleaf] at h ⊢
      exact h

theorem clear_offset_of_zero (d : DualPagePointer) (h : d.volatile_pointer_.offset = 0) :
    d.clear_offset = d := by
  obtain ⟨s, m, o⟩ := d
  simp only at h
  subst h
  rfl

theorem cleared_below_zero (p : ArrayPage) : p.cleared_below 0 = p := by
  unfold ArrayPage.cleared_below
  simp

theorem cleared_below_interior (p : ArrayPage) (t : Nat) :
    (p.cleared_below t).interior t = p.interior t := by
  unfold ArrayPage.cleared_below
  simp

theorem cleared_below_clear_child (p : ArrayPage) (t : Nat) :
    (p.cleared_below t).clear_child t = p.cleared_below (t + 1) := by
  unfold ArrayPage.clear_child ArrayPage.cleared_below
  simp only
  congr 1
  funext i
  by_cases h : i = t
  · subst h; simp
  · rw [Function.update_noteq h]
    by_cases h2 : i < t
    · rw [if_pos h2, if_pos (by omega)]
    · rw [if_neg h2, if_neg (by omega)]

theorem cleared_below_succ_of_zero (p : ArrayPage) (t : Nat)
    (h : (p.interior t).volatile_pointer_.offset = 0) :
    p.cleared_below (t + 1) = p.cleared_below t := by
  unfold ArrayPage.cleared_below
  congr 1
  funext i
  by_cases h1 : i = t
  · subst h1
    rw [if_pos (by omega), if_neg (by omega), clear_offset_of_zero _ h]
  · by_cases h2 : i < t
    · rw [if_pos h2, if_pos (by omega)]
    · rw [if_neg h2, if_neg (by omega)]

/-- release_pages_recursive releases the pages of the post-order walk and
then `offset`, and sets the child pointers it followed to zero. -/
theorem release_pages_recursive_spec (K : ArrayConsts) (fuel : Nat) :
    ∀ (w : World) (page offset : Nat) (l : List Nat),
      descendants_postorder K fuel w.pages page = some l → (l ++ [page]).Nodup →
      ∃ w2, release_pages_recursive K fuel w page offset = some w2 ∧
        w2.released = w.released ++ l ++ [offset] ∧
        w2.grabbed = w.grabbed ∧ w2.supply = w.supply ∧ w2.registered = w.registered ∧
        w2.current_global_epoch = w.current_global_epoch ∧
        (∀ q, w2.pages q =
          if q ∈ l ∨ q = page then released_page K (w.pages q) else w.pages q) := by
  induction fuel with
  | zero => intro w page offset l h; cases h
  | succ fuel ih =>
    intro w page offset l h hnd
    unfold descendants_postorder at h
    unfold release_pages_recursive
    by_cases hleaf : (!(w.pages page).is_leaf) = true
    · rw [if_pos hleaf] at h
      simp only [if_pos hleaf]
      have hfold : ∀ (t : Nat) (acc : List Nat),
          (List.range t).foldlM
            (descendants_step (descendants_postorder K fuel w.pages) w.pages page) [] =
              some acc →
          (acc ++ [page]).Nodup →
          ∃ wt, (List.range t).foldlM
              (release_child (release_pages_recursive K fuel) page) w = some wt ∧
            wt.released = w.released ++ acc ∧
            wt.grabbed = w.grabbed ∧ wt.supply = w.supply ∧ wt.registered = w.registered ∧
            wt.current_global_epoch = w.current_global_epoch ∧
            (∀ q, wt.pages q =
              if q ∈ acc then released_page K (w.pages q)
              else if q = page then (w.pages page).cleared_below t else w.pages q) := by
        intro t
        induction t with
        | zero =>
          intro acc h0 _
          have hacc : acc = [] := (Option.some.inj h0).symm
          subst hacc
          refine ⟨w, rfl, by simp, rfl, rfl, rfl, rfl, ?_⟩
          intro q
          by_cases hq : q = page
          · subst hq; simp [cleared_below_zero]
          · simp [hq]
        | succ t iht =>
          intro acc h1 hnd1
          rw [foldlM_range_succ] at h1 ⊢
          cases h0 : (List.range t).foldlM
              (descendants_step (descendants_postorder K fuel w.pages) w.pages page) [] with
          | none => rw [h0] at h1; cases h1
          | some acc0 =>
            rw [h0] at h1
            simp only [Option.some_bind] at h1
            obtain ⟨r, hr⟩ := descendants_step_prefix _ _ _ _ _ _ h1
            rw [hr] at hnd1
            obtain ⟨hnd0, hrnd, hrdisj, hpnot⟩ := nodup_split acc0 r page hnd1
            obtain ⟨wt, hwt, hrel, hgr, hsu, hreg, hep, hpg⟩ := iht acc0 h0 hnd0
            rw [hwt]
            simp only [Option.some_bind]
            have hwtpage : wt.pages page = (w.pages page).cleared_below t := by
              rw [hpg page, if_neg hpnot, if_pos rfl]
            unfold descendants_step at h1
            unfold release_child
            simp only
            rw [hwtpage, cleared_below_interior]
            by_cases hch : ((w.pages page).interior t).volatile_pointer_.offset ≠ 0
            · rw [if_pos hch] at h1
              rw [if_pos hch]
              cases hw : descendants_postorder K fuel w.pages
                  ((w.pages page).interior t).volatile_pointer_.offset with
              | none => rw [hw] at h1; cases h1
              | some below =>
                rw [hw] at h1
                simp only at h1
                have hacc : acc = acc0 ++ below ++
                    [((w.pages page).interior t).volatile_pointer_.offset] :=
                  (Option.some.inj h1).symm
                have hreq : r = below ++
                    [((w.pages page).interior t).volatile_pointer_.offset] := by
                  have := hacc.symm.trans hr
                  rw [List.append_assoc] at this
                  exact (List.append_cancel_left this).symm
                generalize ((w.pages page).interior t).volatile_pointer_.offset = ch
                  at hch hw hacc hreq h1
                have hsame : ∀ q, q ∈ below ∨ q = ch → wt.pages q = w.pages q := by
                  intro q hq
                  have hqr : q ∈ r := by
                    rw [hreq]
                    rcases hq with hq | hq
                    · exact List.mem_append_left _ hq
                    · rw [hq]; exact List.mem_append_right _ (List.mem_singleton_self _)
                  obtain ⟨hq1, hq2⟩ := hrdisj q hqr
                  rw [hpg q, if_neg hq1, if_neg hq2]
                have hw2 := descendants_postorder_congr K fuel w.pages wt.pages ch below hw hsame
                obtain ⟨w3, hw3, hrel3, hgr3, hsu3, hreg3, hep3, hpg3⟩ := ih wt ch ch below hw2
                  (by rw [← hreq]; exact hrnd)
                rw [hw3]
                simp only
                refine ⟨_, rfl, ?_, hgr3.trans hgr, hsu3.trans hsu, hreg3.trans hreg,
                  hep3.trans hep, ?_⟩
                · show w3.released = _
                  rw [hrel3, hrel, hacc]
                  simp only [List.append_assoc]
                · intro q
                  show Function.update w3.pages page ((w3.pages page).clear_child t) q = _
                  have hpr : page ∉ r := fun hm => (hrdisj page hm).2 rfl
                  have hpbelow : ¬ (page ∈ below ∨ page = ch) := by
                    intro hm
                    apply hpr
                    rw [hreq]
                    rcases hm with hm | hm
                    · exact List.mem_append_left _ hm
                    · rw [hm]; exact List.mem_append_right _ (List.mem_singleton_self _)
                  by_cases hq : q = page
                  · subst hq
                    rw [Function.update_same, hpg3 q, if_neg hpbelow, hwtpage,
                      cleared_below_clear_child]
                    have hqacc : q ∉ acc := by
                      rw [hr]
                      intro hm
                      rcases List.mem_append.1 hm with hm | hm
                      · exact hpnot hm
                      · exact hpr hm
                    rw [if_neg hqacc, if_pos rfl]
                  · rw [Function.update_noteq hq, hpg3 q]
                    by_cases hqb : q ∈ below ∨ q = ch
                    · rw [if_pos hqb, hsame q hqb]
                      have hqacc : q ∈ acc := by
                        rw [hacc]
                        rcases hqb with hqb | hqb
                        · exact List.mem_append_left _ (List.mem_append_right _ hqb)
                        · rw [hqb]; exact List.mem_append_right _ (List.mem_singleton_self _)
                      rw [if_pos hqacc]
                    · rw [if_neg hqb, hpg q]
                      have hiff : q ∈ acc ↔ q ∈ acc0 := by
                        rw [hacc]
                        constructor
                        · intro hm
                          rcases List.mem_append.1 hm with hm | hm
                          · rcases List.mem_append.1 hm with hm | hm
                            · exact hm
                            · exact absurd (Or.inl hm) hqb
                          · exact absurd (Or.inr (List.mem_singleton.1 hm)) hqb
                        · intro hm
                          exact List.mem_append_left _ (List.mem_append_left _ hm)
                      by_cases hqa : q ∈ acc0
                      · rw [if_pos hqa, if_pos (hiff.2 hqa)]
                      · rw [if_neg hqa, if_neg (fun hm => hqa (hiff.1 hm)), if_neg hq, if_neg hq]
            · rw [if_neg hch] at h1
              rw [if_neg hch]
              have hacc : acc = acc0 := (Option.some.inj h1).symm
              subst hacc
              refine ⟨wt, rfl, hrel, hgr, hsu, hreg, hep, ?_⟩
              intro q
              rw [hpg q, cleared_below_succ_of_zero _ _ (by simpa using hch)]
      obtain ⟨wt, hwt, hrel, hgr, hsu, hreg, hep, hpg⟩ := hfold K.INTERIOR_FANOUT l h hnd
      rw [hwt]
      refine ⟨_, rfl, ?_, hgr, hsu, hreg, hep, ?_⟩
      · show wt.released ++ [offset] = _
        rw [hrel]
      · intro q
        show wt.pages q = _
        rw [hpg q]
        have hpagenot : page ∉ l := by
          intro hm
          rw [List.nodup_append] at hnd
          exact hnd.2.2 hm (List.mem_singleton_self _)
        by_cases hq : q ∈ l
        · rw [if_pos hq, if_pos (Or.inl hq)]
        · rw [if_neg hq]
          by_cases hq2 : q = page
          · subst hq2
            rw [if_pos rfl, if_pos (Or.inr rfl)]
            unfold released_page
            rw [if_neg (by simpa using hleaf)]
          · rw [if_neg hq2, if_neg (by tauto)]
    · rw [if_neg hleaf] at h
      simp only [if_neg hleaf]
      have hl : l = [] := (Option.some.inj h).symm
      subst hl
      refine ⟨_, rfl, by simp [World.release_free_page], rfl, rfl, rfl, rfl, ?_⟩
      intro q
      show w.pages q = _
      by_cases hq : q = page
      · subst hq
        simp only [List.not_mem_nil, false_or, if_true]
        unfold released_page
        rw [if_pos (by simpa using hleaf)]
      · simp [hq]

/-! ## The post-order walk of a built tree lists every grabbed page once -/

theorem Planned.ancestor_lt {K : ArrayConsts} {st : ArrayStoragePimpl} (h : Planned K st) :
    ∀ (d L2 k2 : Nat), L2 + d < st.levels_ → k2 < st.pages_.getD L2 0 →
      ancestor_index K d k2 < st.pages_.getD (L2 + d) 0 := by
  intro d
  induction d with
  | zero => intro L2 k2 _ hk; exact hk
  | succ d ih =>
    intro L2 k2 hL hk
    have h1 := ih L2 k2 (by omega) hk
    have h2 := h.pages_succ (L2 + d) (by omega)
    show ancestor_index K d k2 / K.INTERIOR_FANOUT < st.pages_.getD (L2 + d + 1) 0
    rw [h2]
    have h3 : ancestor_index K d k2 ≤ st.pages_.getD (L2 + d) 0 - 1 := by omega
    have := Nat.div_le_div_right (c := K.INTERIOR_FANOUT) h3
    omega

theorem Built.child_offset {K : ArrayConsts} {st : ArrayStoragePimpl} {c : Cursors} {w : World}
    (hb : Built K st c w) (L k i : Nat) (hL : L + 1 < st.levels_)
    (hk : k < st.pages_.getD (L + 1) 0) :
    ((w.pages ((level_pages w (L + 1)).getD k 0)).interior i).volatile_pointer_.offset =
      if i < K.INTERIOR_FANOUT ∧ k * K.INTERIOR_FANOUT + i < st.pages_.getD L 0 then
        (level_pages w L).getD (k * K.INTERIOR_FANOUT + i) 0
      else 0 := by
  rw [hb.slots (L + 1) k (by omega) hL hk i, Nat.add_sub_cancel]
  split <;> rfl

theorem Built.length_eq {K : ArrayConsts} {st : ArrayStoragePimpl} {c : Cursors} {w : World}
    (hb : Built K st c w) (L : Nat) (hL : L < st.levels_) :
    (level_pages w L).length = st.pages_.getD L 0 := by
  rw [hb.len, if_pos hL]

/-- A page lies in the subtree of one page of a level only. -/
theorem InSubtree.unique {K : ArrayConsts} {st : ArrayStoragePimpl} {c : Cursors} {w : World}
    (hb : Built K st c w) (L : Nat) (hL : L < st.levels_) (k1 k2 q : Nat)
    (h1 : InSubtree K st w L k1 q) (h2 : InSubtree K st w L k2 q) : k1 = k2 := by
  obtain ⟨d1, j1, hd1, hj1, ha1, hq1⟩ := h1
  obtain ⟨d2, j2, hd2, hj2, ha2, hq2⟩ := h2
  have heq := level_pages_inj w hb.nodup (L - d1) j1 (L - d2) j2
    (by rw [hb.length_eq _ (by omega)]; exact hj1)
    (by rw [hb.length_eq _ (by omega)]; exact hj2) (hq1.symm.trans hq2)
  have hd : d1 = d2 := by omega
  rw [← ha1, ← ha2, hd, heq.2]

theorem InSubtree.mem_grabbed {K : ArrayConsts} {st : ArrayStoragePimpl} {c : Cursors}
    {w : World} (hb : Built K st c w) (L : Nat) (hL : L < st.levels_) (k q : Nat)
    (h : InSubtree K st w L k q) : q ∈ w.grabbed := by
  obtain ⟨d, j, hd, hj, _, hq⟩ := h
  rw [hq]
  exact level_pages_mem w _ j (by rw [hb.length_eq _ (by omega)]; exact hj)

/-- The walk below the `k`-th page of level `L` of a built tree. -/
theorem Built.descendants {K : ArrayConsts} {st : ArrayStoragePimpl} {c : Cursors} {w : World}
    (hplan : Planned K st) (hb : Built K st c w) :
    ∀ L, L < st.levels_ → ∀ k, k < st.pages_.getD L 0 → ∀ fuel, L < fuel →
      ∃ l, descendants_postorder K fuel w.pages ((level_pages w L).getD k 0) = some l ∧
        (l ++ [(level_pages w L).getD k 0]).Nodup ∧
        (∀ q, q ∈ l ++ [(level_pages w L).getD k 0] ↔ InSubtree K st w L k q) := by
  have hF := hplan.fanout
  intro L
  induction L with
  | zero =>
    intro hL k hk fuel hfuel
    obtain ⟨f, rfl⟩ : ∃ f, fuel = f + 1 := ⟨fuel - 1, by omega⟩
    have hh := level_pages_height w 0 k (by rw [hb.length_eq 0 hL]; exact hk)
    refine ⟨[], ?_, by simp, ?_⟩
    · unfold descendants_postorder
      rw [if_neg (by unfold ArrayPage.is_leaf; rw [hh]; decide)]
    · intro q
      simp only [List.nil_append, List.mem_singleton]
      constructor
      · intro hq
        exact ⟨0, k, le_refl _, hk, rfl, hq⟩
      · rintro ⟨d, j, hd, hj, ha, hq⟩
        have hd0 : d = 0 := by omega
        subst hd0
        have hjk : j = k := ha
        subst hjk
        exact hq
  | succ L ih =>
    intro hL k hk fuel hfuel
    obtain ⟨f, rfl⟩ : ∃ f, fuel = f + 1 := ⟨fuel - 1, by omega⟩
    have hh := level_pages_height w (L + 1) k (by rw [hb.length_eq _ hL]; exact hk)
    have hfold : ∀ t, t ≤ K.INTERIOR_FANOUT →
        ∃ acc, (List.range t).foldlM
            (descendants_step (descendants_postorder K f w.pages) w.pages
              ((level_pages w (L + 1)).getD k 0)) [] = some acc ∧
          acc.Nodup ∧
          (∀ q, q ∈ acc ↔ ∃ i, i < t ∧ k * K.INTERIOR_FANOUT + i < st.pages_.getD L 0 ∧
            InSubtree K st w L (k * K.INTERIOR_FANOUT + i) q) := by
      intro t
      induction t with
      | zero =>
        intro _
        refine ⟨[], rfl, List.nodup_nil, ?_⟩
        intro q
        simp
      | succ t iht =>
        intro ht
        obtain ⟨acc, hacc, hnd, hmem⟩ := iht (by omega)
        rw [foldlM_range_succ, hacc]
        simp only [Option.some_bind]
        unfold descendants_step
        rw [hb.child_offset L k t hL hk]
        by_cases hex : k * K.INTERIOR_FANOUT + t < st.pages_.getD L 0
        · rw [if_pos (And.intro (by omega) hex)]
          have hne : (level_pages w L).getD (k * K.INTERIOR_FANOUT + t) 0 ≠ 0 :=
            hb.fresh.grabbed_ne_zero _ (level_pages_mem w L _
              (by rw [hb.length_eq L (by omega)]; exact hex))
          rw [if_pos hne]
          obtain ⟨below, hbelow, hbnd, hbmem⟩ := ih (by omega) _ hex f (by omega)
          rw [hbelow]
          simp only
          refine ⟨_, rfl, ?_, ?_⟩
          · rw [List.append_assoc, List.nodup_append]
            refine ⟨hnd, hbnd, ?_⟩
            intro q hq1 hq2
            obtain ⟨i, hi, _, hin⟩ := (hmem q).1 hq1
            have := InSubtree.unique hb L (by omega) _ _ q hin ((hbmem q).1 hq2)
            omega
          · intro q
            rw [List.append_assoc, List.mem_append, hmem q, hbmem q]
            constructor
            · rintro (⟨i, hi, hi2, hin⟩ | hin)
              · exact ⟨i, by omega, hi2, hin⟩
              · exact ⟨t, by omega, hex, hin⟩
            · rintro ⟨i, hi, hi2, hin⟩
              by_cases hit : i = t
              · subst hit; exact Or.inr hin
              · exact Or.inl ⟨i, by omega, hi2, hin⟩
        · have hzero : (if t < K.INTERIOR_FANOUT ∧
                k * K.INTERIOR_FANOUT + t < st.pages_.getD L 0 then
              (level_pages w L).getD (k * K.INTERIOR_FANOUT + t) 0 else 0) = 0 :=
            if_neg (fun hc => hex hc.2)
          rw [hzero, if_neg (by simp)]
          refine ⟨acc, rfl, hnd, ?_⟩
          intro q
          rw [hmem q]
          constructor
          · rintro ⟨i, hi, hi2, hin⟩
            exact ⟨i, by omega, hi2, hin⟩
          · rintro ⟨i, hi, hi2, hin⟩
            exact ⟨i, by omega, hi2, hin⟩
    obtain ⟨l, hl, hnd, hmem⟩ := hfold K.INTERIOR_FANOUT (le_refl _)
    have hlevel : ∀ q, q ∈ l → q ≠ (level_pages w (L + 1)).getD k 0 := by
      intro q hq heq
      obtain ⟨i, _, _, d, j, hd, hj, _, hqj⟩ := (hmem q).1 hq
      have := level_pages_inj w hb.nodup (L - d) j (L + 1) k
        (by rw [hb.length_eq _ (by omega)]; exact hj)
        (by rw [hb.length_eq _ hL]; exact hk) (hqj.symm.trans heq)
      omega
    refine ⟨l, ?_, ?_, ?_⟩
    · unfold descendants_postorder
      rw [if_pos (by unfold ArrayPage.is_leaf; rw [hh]; rfl)]
      exact hl
    · rw [List.nodup_append]
      refine ⟨hnd, List.nodup_singleton _, ?_⟩
      intro q hq1 hq2
      exact hlevel q hq1 (List.mem_singleton.1 hq2)
    · intro q
      rw [List.mem_append, hmem q, List.mem_singleton]
      constructor
      · rintro (⟨i, hi, hi2, d, j, hd, hj, ha, hqj⟩ | hq)
        · refine ⟨d + 1, j, by omega, ?_, ?_, ?_⟩
          · rw [Nat.add_sub_add_right]; exact hj
          · show ancestor_index K d j / K.INTERIOR_FANOUT = k
            rw [ha, Nat.mul_comm, Nat.mul_add_div (by omega), Nat.div_eq_of_lt hi, Nat.add_zero]
          · rw [Nat.add_sub_add_right]; exact hqj
        · exact ⟨0, k, Nat.zero_le _, hk, rfl, hq⟩
      · rintro ⟨d, j, hd, hj, ha, hqj⟩
        cases d with
        | zero =>
          right
          have hjk : j = k := ha
          subst hjk
          exact hqj
        | succ d =>
          left
          rw [Nat.add_sub_add_right] at hj hqj
          have ha2 : ancestor_index K d j / K.INTERIOR_FANOUT = k := ha
          have hlt := hplan.ancestor_lt d (L - d) j (by omega) hj
          rw [Nat.sub_add_cancel (by omega)] at hlt
          have hdm := Nat.div_add_mod (ancestor_index K d j) K.INTERIOR_FANOUT
          have hml := Nat.mod_lt (ancestor_index K d j) (show K.INTERIOR_FANOUT > 0 by omega)
          rw [ha2, Nat.mul_comm] at hdm
          refine ⟨ancestor_index K d j % K.INTERIOR_FANOUT, hml, by rw [hdm]; exact hlt, ?_⟩
          rw [hdm]
          exact ⟨d, j, by omega, hj, rfl, hqj⟩

/-- The walk from the root of a built tree lists the grabbed pages, each
once. -/
theorem Built.root_walk {K : ArrayConsts} {st : ArrayStoragePimpl} {c : Cursors} {w : World}
    (hplan : Planned K st) (hb : Built K st c w) (fuel : Nat) (hfuel : st.levels_ ≤ fuel) :
    ∃ l, descendants_postorder K fuel w.pages ((level_pages w (st.levels_ - 1)).getD 0 0)
        = some l ∧
      (l ++ [(level_pages w (st.levels_ - 1)).getD 0 0]).Nodup ∧
      (l ++ [(level_pages w (st.levels_ - 1)).getD 0 0]).Perm w.grabbed := by
  have hn := hplan.levels_pos
  obtain ⟨l, hl, hnd, hmem⟩ := hb.descendants hplan (st.levels_ - 1) (by omega) 0
    (by rw [hplan.pages_top]; exact Nat.one_pos) fuel (by omega)
  refine ⟨l, hl, hnd, (List.perm_ext_iff_of_nodup hnd hb.nodup).2 ?_⟩
  intro q
  rw [hmem q]
  constructor
  · exact InSubtree.mem_grabbed hb _ (by omega) 0 q
  · intro hq
    -- the level and index of a grabbed page
    have hq0 : q ∈ level_pages w (w.pages q).node_height_ := by
      unfold level_pages
      exact List.mem_filter.2 ⟨hq, by simp⟩
    have hlt : (w.pages q).node_height_ < st.levels_ := by
      by_contra hcon
      have := hb.len (w.pages q).node_height_
      rw [if_neg hcon] at this
      rw [List.length_eq_zero.1 this] at hq0
      exact absurd hq0 (List.not_mem_nil _)
    obtain ⟨j, hj, hqj⟩ := List.getElem_of_mem hq0
    have hj2 : j < st.pages_.getD (w.pages q).node_height_ 0 := by
      rw [← hb.length_eq _ hlt]; exact hj
    have hanc := hplan.ancestor_lt (st.levels_ - 1 - (w.pages q).node_height_)
      (w.pages q).node_height_ j (by omega) hj2
    have hsum : (w.pages q).node_height_ + (st.levels_ - 1 - (w.pages q).node_height_) =
        st.levels_ - 1 := by omega
    rw [hsum, hplan.pages_top] at hanc
    refine ⟨st.levels_ - 1 - (w.pages q).node_height_, j, by omega, ?_, by omega, ?_⟩
    · have : st.levels_ - 1 - (st.levels_ - 1 - (w.pages q).node_height_) =
          (w.pages q).node_height_ := by omega
      rw [this]; exact hj2
    · have : st.levels_ - 1 - (st.levels_ - 1 - (w.pages q).node_height_) =
          (w.pages q).node_height_ := by omega
      rw [this, List.getD_eq_getElem?_getD, List.getElem?_eq_getElem hj]
      exact hqj.symm

/-! ## The walk is a post-order listing of the reachable pages -/

theorem ReleasedBefore.append_right {l : List Nat} {a b : Nat} (h : ReleasedBefore l a b)
    (r : List Nat) : ReleasedBefore (l ++ r) a b := by
  obtain ⟨l1, l2, l3, hl⟩ := h
  exact ⟨l1, l2, l3 ++ r, by rw [hl]; simp⟩

theorem ReleasedBefore.append_left {l : List Nat} {a b : Nat} (h : ReleasedBefore l a b)
    (r : List Nat) : ReleasedBefore (r ++ l) a b := by
  obtain ⟨l1, l2, l3, hl⟩ := h
  exact ⟨r ++ l1, l2, l3, by rw [hl]; simp⟩

theorem ReleasedBefore.of_mem {l : List Nat} {a : Nat} (h : a ∈ l) (b : Nat) :
    ReleasedBefore (l ++ [b]) a b := by
  obtain ⟨x, y, hl⟩ := List.append_of_mem h
  exact ⟨x, y, [], by rw [hl]⟩

theorem ReleasedBefore.mem_left {l : List Nat} {a b : Nat} (h : ReleasedBefore l a b) :
    a ∈ l := by
  obtain ⟨l1, l2, l3, hl⟩ := h
  rw [hl]
  simp

theorem Reachable.trans {K : ArrayConsts} {pages : Nat → ArrayPage} {a b c : Nat}
    (h1 : Reachable K pages a b) (h2 : Reachable K pages b c) : Reachable K pages a c := by
  induction h2 with
  | root => exact h1
  | child q ch _ hc ih => exact Reachable.child q ch ih hc

/-- The walk below `page` lists the children of `page`, lists every page
after the children of that page, and lists reachable pages only. -/
theorem descendants_postorder_order (K : ArrayConsts) (fuel : Nat) :
    ∀ (pages : Nat → ArrayPage) (page : Nat) (l : List Nat),
      descendants_postorder K fuel pages page = some l →
      (∀ ch, IsChild K pages page ch → ch ∈ l) ∧
      (∀ q ch, q ∈ l → IsChild K pages q ch → ReleasedBefore l ch q) ∧
      (∀ q, q ∈ l → Reachable K pages page q) := by
  induction fuel with
  | zero => intro pages page l h; cases h
  | succ fuel ih =>
    intro pages page l h
    unfold descendants_postorder at h
    by_cases hleaf : (!(pages page).is_leaf) = true
    · rw [if_pos hleaf] at h
      have hnl : (pages page).is_leaf = false := by simpa using hleaf
      have hfold : ∀ (t : Nat) (acc : List Nat), t ≤ K.INTERIOR_FANOUT →
          (List.range t).foldlM
            (descendants_step (descendants_postorder K fuel pages) pages page) [] = some acc →
          (∀ i, i < t → ((pages page).interior i).volatile_pointer_.offset ≠ 0 →
            ((pages page).interior i).volatile_pointer_.offset ∈ acc) ∧
          (∀ q ch, q ∈ acc → IsChild K pages q ch → ReleasedBefore acc ch q) ∧
          (∀ q, q ∈ acc → Reachable K pages page q) := by
        intro t
        induction t with
        | zero =>
          intro acc _ h0
          have hacc : acc = [] := (Option.some.inj h0).symm
          subst hacc
          refine ⟨fun i hi => absurd hi (Nat.not_lt_zero i), ?_, ?_⟩
          · intro q ch hq; exact absurd hq (List.not_mem_nil q)
          · intro q hq; exact absurd hq (List.not_mem_nil q)
        | succ t iht =>
          intro acc ht h1
          rw [foldlM_range_succ] at h1
          cases h0 : (List.range t).foldlM
              (descendants_step (descendants_postorder K fuel pages) pages page) [] with
          | none => rw [h0] at h1; cases h1
          | some acc0 =>
            rw [h0] at h1
            simp only [Option.some_bind] at h1
            obtain ⟨hA, hB, hC⟩ := iht acc0 (by omega) h0
            unfold descendants_step at h1
            by_cases hch : ((pages page).interior t).volatile_pointer_.offset ≠ 0
            · rw [if_pos hch] at h1
              cases hw : descendants_postorder K fuel pages
                  ((pages page).interior t).volatile_pointer_.offset with
              | none => rw [hw] at h1; cases h1
              | some below =>
                rw [hw] at h1
                simp only at h1
                have hacc : acc = acc0 ++ below ++
                    [((pages page).interior t).volatile_pointer_.offset] :=
                  (Option.some.inj h1).symm
                obtain ⟨hA2, hB2, hC2⟩ := ih pages _ below hw
                have hchild : IsChild K pages page
                    ((pages page).interior t).volatile_pointer_.offset :=
                  ⟨hnl, hch, t, by omega, rfl⟩
                generalize hceq : ((pages page).interior t).volatile_pointer_.offset = c
                  at hch hw hacc hA2 hB2 hC2 hchild h1
                have hcreach : Reachable K pages page c :=
                  Reachable.child page c Reachable.root hchild
                subst hacc
                refine ⟨?_, ?_, ?_⟩
                · intro i hi hne
                  by_cases hit : i = t
                  · subst hit
                    rw [hceq]
                    exact List.mem_append_right _ (List.mem_singleton_self _)
                  · exact List.mem_append_left _ (List.mem_append_left _ (hA i (by omega) hne))
                · intro q ch hq hqc
                  rcases List.mem_append.1 hq with hq | hq
                  · rcases List.mem_append.1 hq with hq | hq
                    · rw [List.append_assoc]
                      exact (hB q ch hq hqc).append_right _
                    · exact ((hB2 q ch hq hqc).append_left acc0).append_right _
                  · rw [List.mem_singleton] at hq
                    subst hq
                    rw [List.append_assoc]
                    exact (ReleasedBefore.of_mem (hA2 ch hqc) q).append_left acc0
                · intro q hq
                  rcases List.mem_append.1 hq with hq | hq
                  · rcases List.mem_append.1 hq with hq | hq
                    · exact hC q hq
                    · exact hcreach.trans (hC2 q hq)
                  · rw [List.mem_singleton] at hq
                    subst hq
                    exact hcreach
            · rw [if_neg hch] at h1
              have hacc : acc = acc0 := (Option.some.inj h1).symm
              subst hacc
              refine ⟨?_, hB, hC⟩
              intro i hi hne
              by_cases hit : i = t
              · subst hit; exact absurd hne hch
              · exact hA i (by omega) hne
      obtain ⟨hA, hB, hC⟩ := hfold K.INTERIOR_FANOUT l (le_refl _) h
      refine ⟨?_, hB, hC⟩
      rintro ch ⟨_, hne, i, hi, hcheq⟩
      rw [← hcheq]
      exact hA i hi (by rw [hcheq]; exact hne)
    · rw [if_neg hleaf] at h
      have hl : l = [] := (Option.some.inj h).symm
      subst hl
      have hlf : (pages page).is_leaf = true := by simpa using hleaf
      refine ⟨?_, ?_, ?_⟩
      · rintro ch ⟨hnl, _⟩
        rw [hlf] at hnl
        cases hnl
      · intro q ch hq; exact absurd hq (List.not_mem_nil q)
      · intro q hq; exact absurd hq (List.not_mem_nil q)

/-- The walk from `root`, with `root` at its end, lists exactly the pages
reachable from `root`, every page after its children. -/
theorem descendants_postorder_reachable (K : ArrayConsts) (fuel : Nat)
    (pages : Nat → ArrayPage) (root : Nat) (l : List Nat)
    (h : descendants_postorder K fuel pages root = some l) :
    (∀ q, q ∈ l ++ [root] ↔ Reachable K pages root q) ∧
    (∀ q ch, q ∈ l ++ [root] → IsChild K pages q ch → ReleasedBefore (l ++ [root]) ch q) := by
  obtain ⟨hA, hB, hC⟩ := descendants_postorder_order K fuel pages root l h
  have hord : ∀ q ch, q ∈ l ++ [root] → IsChild K pages q ch →
      ReleasedBefore (l ++ [root]) ch q := by
    intro q ch hq hqc
    rcases List.mem_append.1 hq with hq | hq
    · exact (hB q ch hq hqc).append_right _
    · rw [List.mem_singleton] at hq
      subst hq
      exact ReleasedBefore.of_mem (hA ch hqc) q
  refine ⟨?_, hord⟩
  intro q
  constructor
  · intro hq
    rcases List.mem_append.1 hq with hq | hq
    · exact hC q hq
    · rw [List.mem_singleton] at hq
      subst hq
      exact Reachable.root
  · intro hq
    induction hq with
    | root => exact List.mem_append_right _ (List.mem_singleton_self _)
    | child q ch _ hc ih => exact (hord q ch ih hc).mem_left

/-! ## The record of an offset in a created array -/

/-- On the array that create has built, lookup of an offset of the array
returns one leaf, whatever the bound on its iterations, and the record index
that get_record and overwrite_record compute is `offset - range.begin`, below
the records per leaf. -/
theorem created_record (K : ArrayConsts) (fuel id payload_size array_size : Nat)
    (root_page_pointer : DualPagePointer) (st : ArrayStoragePimpl) (w0 : World) (offset : Nat)
    (hF : 2 ≤ K.INTERIOR_FANOUT) (hF16 : K.INTERIOR_FANOUT ≤ 2 ^ 16)
    (hN : 1 ≤ array_size) (h64 : array_size < 2 ^ 64)
    (hr : 1 ≤ K.DATA_SIZE / (align8 payload_size + K.RECORD_OVERHEAD))
    (hst : ArrayStoragePimpl.construct K fuel id payload_size array_size root_page_pointer true
      = some st)
    (hinj : Function.Injective w0.supply) (hnz : ∀ n, w0.supply n ≠ 0)
    (hempty : w0.grabbed = []) (ho : offset < array_size) :
    ∃ leaf,
      (∀ fuel2, st.levels_ ≤ fuel2 →
        (st.create K w0).2.1.lookup (st.create K w0).2.2.pages fuel2 offset =
          some (ErrorCode.RET_OK, some leaf)) ∧
      (∀ fuel2 r, (st.create K w0).2.1.lookup (st.create K w0).2.2.pages fuel2 offset = some r →
        r = (ErrorCode.RET_OK, some leaf)) ∧
      ((st.create K w0).2.2.pages leaf).is_leaf = true ∧
      ((st.create K w0).2.2.pages leaf).array_range_.contains offset = true ∧
      ((st.create K w0).2.2.pages leaf).array_range_.begin_ ≤ offset ∧
      offset - ((st.create K w0).2.2.pages leaf).array_range_.begin_ <
        K.DATA_SIZE / (align8 payload_size + K.RECORD_OVERHEAD) ∧
      sub_u64 offset ((st.create K w0).2.2.pages leaf).array_range_.begin_ =
        offset - ((st.create K w0).2.2.pages leaf).array_range_.begin_ ∧
      (st.create K w0).2.1.id_ = id := by
  obtain ⟨c, w, st2, hcreate, hplan, hsize, hiv0, hb, _, hroot, _, _, hiv⟩ := create_built K fuel
    id payload_size array_size root_page_pointer st w0 hF hN hr hst hinj hnz hempty
  have hid : (st.create K w0).2.1.id_ = id := by
    have hex : st.exist_ = false := by
      rw [(construct_fields K fuel id payload_size array_size root_page_pointer true st hst).2.1]
      rfl
    rw [create_eq K st w0 hex]
    exact (construct_fields K fuel id payload_size array_size root_page_pointer true st hst).2.2.2.1
  revert hid
  rw [hcreate]
  simp only
  intro hid
  have hlook := fun fuel2 hfuel => built_lookup K st st2 c w hplan hb hroot hiv hF16
    (by rw [hsize]; exact h64) offset (by rw [hsize]; exact ho) fuel2 hfuel
  obtain ⟨hh, hbeg, hcont, hidx⟩ := hb.leaf_contains hplan offset (by rw [hsize]; exact ho)
  have hle : offset / st.interval 0 * st.interval 0 ≤ offset := Nat.div_mul_le_self _ _
  refine ⟨_, hlook, ?_, ?_, hcont, by rw [hbeg]; exact hle, by rw [hbeg, ← hiv0]; exact hidx,
    sub_u64_eq _ _ (by rw [hbeg]; exact hle) (by omega), hid⟩
  · intro fuel2 r hlk
    have h1 := lookup_loop_mono_le _ _ _ _ _ _ _ (Nat.le_max_left fuel2 st.levels_) hlk
    have h2 := hlook (max fuel2 st.levels_) (Nat.le_max_right _ _)
    unfold ArrayStoragePimpl.lookup at h2
    rw [h1] at h2
    exact Option.some.inj h2
  · unfold ArrayPage.is_leaf
    rw [hh]
    rfl

/-! ## overwrite_record -/

/-- The results of lookup: success with a page, or `ERROR_CODE_NOTIMPLEMENTED`
without one. -/
theorem lookup_loop_result (self : ArrayStoragePimpl) (pages : Nat → ArrayPage) (offset : Nat)
    (fuel : Nat) : ∀ (page : Nat) (r : ErrorCode × Option Nat),
      lookup_loop self pages offset fuel page = some r →
      r = (ErrorCode.ERROR_CODE_NOTIMPLEMENTED, none) ∨
        ∃ leaf, (pages leaf).is_leaf = true ∧ r = (ErrorCode.RET_OK, some leaf) := by
  induction fuel with
  | zero =>
    intro page r h
    unfold lookup_loop at h
    cases hl : (pages page).is_leaf with
    | true =>
      simp only [hl, Bool.not_true, Bool.false_eq_true, if_false] at h
      exact Or.inr ⟨page, hl, (Option.some.inj h).symm⟩
    | false => simp [hl] at h
  | succ fuel ih =>
    intro page r h
    unfold lookup_loop at h
    cases hl : (pages page).is_leaf with
    | true =>
      simp only [hl, Bool.not_true, Bool.false_eq_true, if_false] at h
      exact Or.inr ⟨page, hl, (Option.some.inj h).symm⟩
    | false =>
      simp only [hl, Bool.not_false, if_true] at h
      split at h
      · exact Or.inl (Option.some.inj h).symm
      · exact ih _ r h

/-- overwrite_record once lookup has returned a leaf. -/
theorem overwrite_record_of_lookup (calculate_log_length : Nat → Nat) (self : ArrayStoragePimpl)
    (pages : Nat → ArrayPage) (fuel : Nat) (context : Thread) (offset : Nat)
    (payload : Nat → Nat) (payload_offset payload_count : Nat) (leaf : Nat)
    (h : self.lookup pages fuel offset = some (ErrorCode.RET_OK, some leaf)) :
    self.overwrite_record calculate_log_length pages fuel context offset payload payload_offset
        payload_count =
      if context.thread_log_buffer_.offset_tail_ + calculate_log_length payload_count % 2 ^ 16 ≤
          context.thread_log_buffer_.buffer_size_ then
        if context.current_xct_.max_write_set_size_ ≤ context.current_xct_.write_set_.length then
          some (ErrorCode.WRITE_SET_OVERFLOW,
            { current_xct_ := context.current_xct_
              thread_log_buffer_ :=
                { buffer_size_ := context.thread_log_buffer_.buffer_size_
                  offset_tail_ := context.thread_log_buffer_.offset_tail_ +
                    calculate_log_length payload_count % 2 ^ 16
                  buffer_ := Function.update context.thread_log_buffer_.buffer_
                    context.thread_log_buffer_.offset_tail_
                    (some (OverwriteLogType.populate self.id_ offset payload payload_offset
                      payload_count)) } },
            pages)
        else
          some (ErrorCode.RET_OK,
            { current_xct_ :=
                { context.current_xct_ with
                  write_set_ := context.current_xct_.write_set_ ++
                    [⟨leaf, sub_u64 offset (pages leaf).array_range_.begin_,
                      context.thread_log_buffer_.offset_tail_⟩] }
              thread_log_buffer_ :=
                { buffer_size_ := context.thread_log_buffer_.buffer_size_
                  offset_tail_ := context.thread_log_buffer_.offset_tail_ +
                    calculate_log_length payload_count % 2 ^ 16
                  buffer_ := Function.update context.thread_log_buffer_.buffer_
                    context.thread_log_buffer_.offset_tail_
                    (some (OverwriteLogType.populate self.id_ offset payload payload_offset
                      payload_count)) } },
            pages)
      else none := by
  unfold ArrayStoragePimpl.overwrite_record
  rw [h]
  simp only [ThreadLogBuffer.reserve_new_log, Xct.add_to_write_set, ThreadLogBuffer.write]
  by_cases hroom : context.thread_log_buffer_.offset_tail_ +
      calculate_log_length payload_count % 2 ^ 16 ≤ context.thread_log_buffer_.buffer_size_
  · rw [if_pos hroom, if_pos hroom]
    simp only
    by_cases hfull : context.current_xct_.max_write_set_size_ ≤
        context.current_xct_.write_set_.length
    · rw [if_pos hfull, if_pos hfull]
    · rw [if_neg hfull, if_neg hfull]
  · rw [if_neg hroom, if_neg hroom]

/-- overwrite_record when lookup does not return. -/
theorem overwrite_record_none (calculate_log_length : Nat → Nat) (self : ArrayStoragePimpl)
    (pages : Nat → ArrayPage) (fuel : Nat) (context : Thread) (offset : Nat)
    (payload : Nat → Nat) (payload_offset payload_count : Nat)
    (h : self.lookup pages fuel offset = none) :
    self.overwrite_record calculate_log_length pages fuel context offset payload payload_offset
      payload_count = none := by
  unfold ArrayStoragePimpl.overwrite_record
  rw [h]

/-- overwrite_record when lookup fails. -/
theorem overwrite_record_notimplemented (calculate_log_length : Nat → Nat)
    (self : ArrayStoragePimpl) (pages : Nat → ArrayPage) (fuel : Nat) (context : Thread)
    (offset : Nat) (payload : Nat → Nat) (payload_offset payload_count : Nat)
    (h : self.lookup pages fuel offset = some (ErrorCode.ERROR_CODE_NOTIMPLEMENTED, none)) :
    self.overwrite_record calculate_log_length pages fuel context offset payload payload_offset
      payload_count = some (ErrorCode.ERROR_CODE_NOTIMPLEMENTED, context, pages) := by
  unfold ArrayStoragePimpl.overwrite_record
  rw [h]

/-- get_record when lookup fails. -/
theorem get_record_notimplemented (self : ArrayStoragePimpl) (pages : Nat → ArrayPage)
    (fuel : Nat) (context : Thread) (offset : Nat) (payload : Nat → Nat)
    (payload_offset payload_count : Nat)
    (h : self.lookup pages fuel offset = some (ErrorCode.ERROR_CODE_NOTIMPLEMENTED, none)) :
    self.get_record pages fuel context offset payload payload_offset payload_count =
      some (ErrorCode.ERROR_CODE_NOTIMPLEMENTED, context, payload) := by
  unfold ArrayStoragePimpl.get_record
  rw [h]

/-- The three cases of lookup. -/
theorem lookup_cases (self : ArrayStoragePimpl) (pages : Nat → ArrayPage) (fuel offset : Nat) :
    self.lookup pages fuel offset = none ∨
    self.lookup pages fuel offset = some (ErrorCode.ERROR_CODE_NOTIMPLEMENTED, none) ∨
    ∃ leaf, (pages leaf).is_leaf = true ∧
      self.lookup pages fuel offset = some (ErrorCode.RET_OK, some leaf) := by
  cases h : self.lookup pages fuel offset with
  | none => exact Or.inl rfl
  | some r =>
    unfold ArrayStoragePimpl.lookup at h
    rcases lookup_loop_result self pages offset fuel _ r h with h1 | ⟨leaf, hl, h1⟩
    · exact Or.inr (Or.inl (by rw [h1]))
    · exact Or.inr (Or.inr ⟨leaf, hl, by rw [h1]⟩)

/-- Whatever overwrite_record returns, the page memory, the read set and the
capacities are as before. -/
theorem overwrite_record_unchanged (calculate_log_length : Nat → Nat) (self : ArrayStoragePimpl)
    (pages : Nat → ArrayPage) (fuel : Nat) (context : Thread) (offset : Nat)
    (payload : Nat → Nat) (payload_offset payload_count : Nat) (e : ErrorCode)
    (context2 : Thread) (pages2 : Nat → ArrayPage)
    (h : self.overwrite_record calculate_log_length pages fuel context offset payload
      payload_offset payload_count = some (e, context2, pages2)) :
    pages2 = pages ∧
    context2.current_xct_.read_set_ = context.current_xct_.read_set_ ∧
    context2.current_xct_.max_read_set_size_ = context.current_xct_.max_read_set_size_ ∧
    context2.current_xct_.max_write_set_size_ = context.current_xct_.max_write_set_size_ ∧
    context2.thread_log_buffer_.buffer_size_ = context.thread_log_buffer_.buffer_size_ := by
  rcases lookup_cases self pages fuel offset with hl | hl | ⟨leaf, _, hl⟩
  · rw [overwrite_record_none _ _ _ _ _ _ _ _ _ hl] at h
    cases h
  · rw [overwrite_record_notimplemented _ _ _ _ _ _ _ _ _ hl] at h
    have h3 := Prod.mk.inj (Prod.mk.inj (Option.some.inj h)).2
    rw [← h3.1, ← h3.2]
    exact ⟨rfl, rfl, rfl, rfl, rfl⟩
  · rw [overwrite_record_of_lookup _ _ _ _ _ _ _ _ _ leaf hl] at h
    split at h
    · split at h
      · have h3 := Prod.mk.inj (Prod.mk.inj (Option.some.inj h)).2
        rw [← h3.1, ← h3.2]
        exact ⟨rfl, rfl, rfl, rfl, rfl⟩
      · have h3 := Prod.mk.inj (Prod.mk.inj (Option.some.inj h)).2
        rw [← h3.1, ← h3.2]
        exact ⟨rfl, rfl, rfl, rfl, rfl⟩
    · cases h

/-! ## The path of lookup -/

/-- One iteration of the loop of lookup at an interior page whose selected
pointer is not null. -/
theorem lookup_loop_step (self : ArrayStoragePimpl) (pages : Nat → ArrayPage) (offset : Nat)
    (fuel page : Nat) (hl : (pages page).is_leaf = false)
    (hp : (self.selected_pointer pages offset page).volatile_pointer_.offset ≠ 0) :
    lookup_loop self pages offset (fuel + 1) page =
      lookup_loop self pages offset fuel
        (self.selected_pointer pages offset page).volatile_pointer_.offset := by
  conv_lhs => unfold lookup_loop
  simp only [hl, Bool.not_false, if_true]
  unfold ArrayStoragePimpl.selected_pointer at hp
  rw [if_neg hp]
  rfl

/-- The loop of lookup at an interior page whose selected pointer is null. -/
theorem lookup_loop_null (self : ArrayStoragePimpl) (pages : Nat → ArrayPage) (offset : Nat)
    (fuel page : Nat) (hl : (pages page).is_leaf = false)
    (hp : (self.selected_pointer pages offset page).volatile_pointer_.offset = 0) :
    lookup_loop self pages offset (fuel + 1) page =
      some (ErrorCode.ERROR_CODE_NOTIMPLEMENTED, none) := by
  unfold lookup_loop
  simp only [hl, Bool.not_false, if_true]
  unfold ArrayStoragePimpl.selected_pointer at hp
  rw [if_pos hp]

/-- The loop of lookup at a leaf. -/
theorem lookup_loop_leaf (self : ArrayStoragePimpl) (pages : Nat → ArrayPage) (offset : Nat)
    (fuel page : Nat) (hl : (pages page).is_leaf = true) :
    lookup_loop self pages offset fuel page = some (ErrorCode.RET_OK, some page) := by
  unfold lookup_loop
  simp only [hl, Bool.not_true, Bool.false_eq_true, if_false]

/-- A step of the walk: the page before is interior and its selected pointer
is the non-zero offset of the page after. -/
theorem lookup_walk_succ (self : ArrayStoragePimpl) (pages : Nat → ArrayPage) (offset n q : Nat) :
    self.lookup_walk pages offset (n + 1) = some q ↔
      ∃ p, self.lookup_walk pages offset n = some p ∧ (pages p).is_leaf = false ∧
        (self.selected_pointer pages offset p).volatile_pointer_.offset = q ∧ q ≠ 0 := by
  conv_lhs => unfold ArrayStoragePimpl.lookup_walk
  cases hw : self.lookup_walk pages offset n with
  | none => simp
  | some p =>
    simp only [Option.some.injEq, exists_eq_left']
    cases hl : (pages p).is_leaf with
    | true => simp
    | false =>
      simp only [Bool.false_eq_true, if_false, true_and]
      by_cases hp : (self.selected_pointer pages offset p).volatile_pointer_.offset = 0
      · rw [if_pos hp]
        constructor
        · intro h
          cases h
        · intro ⟨h1, h2⟩
          exact absurd (hp ▸ h1 : (0 : Nat) = q).symm h2
      · rw [if_neg hp]
        constructor
        · intro h
          have h1 := Option.some.inj h
          exact ⟨h1, h1 ▸ hp⟩
        · intro ⟨h1, _⟩
          rw [h1]

/-- The loop of lookup from the root is the loop from any page of the walk,
with as many iterations more as the walk has made steps. -/
theorem lookup_loop_walk (self : ArrayStoragePimpl) (pages : Nat → ArrayPage) (offset : Nat) :
    ∀ (n p : Nat), self.lookup_walk pages offset n = some p → ∀ fuel,
      lookup_loop self pages offset (fuel + n) (self.root_page_.getD 0) =
        lookup_loop self pages offset fuel p := by
  intro n
  induction n with
  | zero =>
    intro p hw fuel
    unfold ArrayStoragePimpl.lookup_walk at hw
    rw [← Option.some.inj hw]
    rfl
  | succ n ih =>
    intro q hw fuel
    obtain ⟨p, hp, hl, hsel, hq⟩ := (lookup_walk_succ self pages offset n q).mp hw
    have h1 := ih p hp (fuel + 1)
    rw [show fuel + (n + 1) = fuel + 1 + n by omega, h1,
      lookup_loop_step self pages offset fuel p hl (by rw [hsel]; exact hq), hsel]

/-- Every result of the loop of lookup from a page of the walk comes from a
page further on the walk: a leaf, or an interior page whose selected pointer
is null. -/
theorem lookup_loop_from_walk (self : ArrayStoragePimpl) (pages : Nat → ArrayPage) (offset : Nat)
    (r : ErrorCode × Option Nat) :
    ∀ (fuel n p : Nat), self.lookup_walk pages offset n = some p →
      lookup_loop self pages offset fuel p = some r →
      (∃ m q, m < n + fuel ∧ self.lookup_walk pages offset m = some q ∧
        (pages q).is_leaf = false ∧
        (self.selected_pointer pages offset q).volatile_pointer_.offset = 0 ∧
        r = (ErrorCode.ERROR_CODE_NOTIMPLEMENTED, none)) ∨
      (∃ m q, m ≤ n + fuel ∧ self.lookup_walk pages offset m = some q ∧
        (pages q).is_leaf = true ∧ r = (ErrorCode.RET_OK, some q)) := by
  intro fuel
  induction fuel with
  | zero =>
    intro n p hw h
    cases hl : (pages p).is_leaf with
    | true =>
      rw [lookup_loop_leaf self pages offset 0 p hl] at h
      exact Or.inr ⟨n, p, by omega, hw, hl, (Option.some.inj h).symm⟩
    | false =>
      unfold lookup_loop at h
      simp [hl] at h
  | succ fuel ih =>
    intro n p hw h
    cases hl : (pages p).is_leaf with
    | true =>
      rw [lookup_loop_leaf self pages offset _ p hl] at h
      exact Or.inr ⟨n, p, by omega, hw, hl, (Option.some.inj h).symm⟩
    | false =>
      by_cases hp : (self.selected_pointer pages offset p).volatile_pointer_.offset = 0
      · rw [lookup_loop_null self pages offset fuel p hl hp] at h
        exact Or.inl ⟨n, p, by omega, hw, hl, hp, (Option.some.inj h).symm⟩
      · rw [lookup_loop_step self pages offset fuel p hl hp] at h
        have hw2 : self.lookup_walk pages offset (n + 1) =
            some (self.selected_pointer pages offset p).volatile_pointer_.offset :=
          (lookup_walk_succ self pages offset n _).mpr ⟨p, hw, hl, rfl, hp⟩
        rcases ih (n + 1) _ hw2 h with ⟨m, q, hm, h1⟩ | ⟨m, q, hm, h1⟩
        · exact Or.inl ⟨m, q, by omega, h1⟩
        · exact Or.inr ⟨m, q, by omega, h1⟩

/-- The walk of lookup and its results, for every page memory. -/
theorem lookup_walk_spec (self : ArrayStoragePimpl) (pages : Nat → ArrayPage) (offset : Nat) :
    (∀ n p, self.lookup_walk pages offset n = some p → (pages p).is_leaf = false →
      (self.selected_pointer pages offset p).volatile_pointer_.offset = 0 →
      ∀ fuel, n < fuel →
        self.lookup pages fuel offset = some (ErrorCode.ERROR_CODE_NOTIMPLEMENTED, none)) ∧
    (∀ n p, self.lookup_walk pages offset n = some p → (pages p).is_leaf = true →
      ∀ fuel, n ≤ fuel → self.lookup pages fuel offset = some (ErrorCode.RET_OK, some p)) ∧
    (∀ fuel r, self.lookup pages fuel offset = some r →
      (r.1 = ErrorCode.ERROR_CODE_NOTIMPLEMENTED ↔
        ∃ n p, self.lookup_walk pages offset n = some p ∧ (pages p).is_leaf = false ∧
          (self.selected_pointer pages offset p).volatile_pointer_.offset = 0) ∧
      (r.1 = ErrorCode.ERROR_CODE_NOTIMPLEMENTED → r.2 = none) ∧
      (r.1 ≠ ErrorCode.ERROR_CODE_NOTIMPLEMENTED →
        ∃ n p, n ≤ fuel ∧ self.lookup_walk pages offset n = some p ∧
          (pages p).is_leaf = true ∧ r = (ErrorCode.RET_OK, some p))) := by
  have hnull : ∀ n p, self.lookup_walk pages offset n = some p → (pages p).is_leaf = false →
      (self.selected_pointer pages offset p).volatile_pointer_.offset = 0 →
      ∀ fuel, n < fuel →
        self.lookup pages fuel offset = some (ErrorCode.ERROR_CODE_NOTIMPLEMENTED, none) := by
    intro n p hw hl hp fuel hfuel
    unfold ArrayStoragePimpl.lookup
    rw [show fuel = (fuel - n - 1 + 1) + n by omega, lookup_loop_walk self pages offset n p hw,
      lookup_loop_null self pages offset _ p hl hp]
  refine ⟨hnull, ?_, ?_⟩
  · intro n p hw hl fuel hfuel
    unfold ArrayStoragePimpl.lookup
    rw [show fuel = (fuel - n) + n by omega, lookup_loop_walk self pages offset n p hw,
      lookup_loop_leaf self pages offset _ p hl]
  · intro fuel r hr
    have hroot : self.lookup_walk pages offset 0 = some (self.root_page_.getD 0) := by
      unfold ArrayStoragePimpl.lookup_walk
      rfl
    have hcases := lookup_loop_from_walk self pages offset r fuel 0 _ hroot hr
    refine ⟨⟨?_, ?_⟩, ?_, ?_⟩
    · intro he
      rcases hcases with ⟨m, q, _, hw, hl, hp, _⟩ | ⟨m, q, _, _, _, hq⟩
      · exact ⟨m, q, hw, hl, hp⟩
      · rw [hq] at he
        cases he
    · intro ⟨n, p, hw, hl, hp⟩
      have h1 := hnull n p hw hl hp (max fuel (n + 1)) (by omega)
      have h2 := lookup_loop_mono_le self pages offset _ r fuel (max fuel (n + 1))
        (Nat.le_max_left _ _) hr
      unfold ArrayStoragePimpl.lookup at h1
      rw [h2] at h1
      rw [Option.some.inj h1]
    · intro he
      rcases hcases with ⟨_, _, _, _, _, _, hq⟩ | ⟨_, _, _, _, _, hq⟩
      · rw [hq]
      · rw [hq] at he
        cases he
    · intro hne
      rcases hcases with ⟨_, _, _, _, _, _, hq⟩ | ⟨m, q, hm, hw, hl, hq⟩
      · rw [hq] at hne
        exact absurd rfl hne
      · exact ⟨m, q, by omega, hw, hl, hq⟩

/-! ## The loop of calculate_required_pages on an empty level -/

/-- With no page on the last level the loop goes on for ever: every bound on
its iterations is used up. -/
theorem calculate_required_pages_loop_zero (K : ArrayConsts) (fuel : Nat) :
    ∀ pages : List Nat, pages.getLastD 0 = 0 →
      calculate_required_pages_loop K fuel pages = none := by
  induction fuel with
  | zero =>
    intro pages h
    unfold calculate_required_pages_loop
    rw [h, if_pos (by decide)]
  | succ fuel ih =>
    intro pages h
    unfold calculate_required_pages_loop
    rw [h, if_pos (by decide)]
    simp only
    apply ih
    rw [List.getLastD_concat]
    unfold int_div_ceil
    simp

/-- The leaf page count of an empty array is 0. -/
theorem int_div_ceil_zero (b : Nat) : int_div_ceil 0 b = 0 := by
  unfold int_div_ceil
  simp

/-! ## Counting the pages of a level -/

/-- A list whose elements have a height below `n` is as long as its levels
together. -/
theorem length_eq_sum_levels (h : Nat → Nat) (n : Nat) :
    ∀ l : List Nat, (∀ x ∈ l, h x < n) →
      l.length = ((List.range n).map
        (fun L => (l.filter (fun o => decide (h o = L))).length)).sum := by
  intro l
  induction l with
  | nil =>
    intro _
    simp
  | cons x l ih =>
    intro hx
    have hl := ih (fun y hy => hx y (List.mem_cons_of_mem _ hy))
    have hxn : h x < n := hx x (List.mem_cons_self _ _)
    have hone : ((List.range n).map (fun L => if h x = L then 1 else 0)).sum = 1 := by
      clear hl hx ih
      induction n with
      | zero => omega
      | succ n ihn =>
        rw [List.range_succ, List.map_append, List.sum_append]
        by_cases hlast : h x = n
        · have hz : ((List.range n).map (fun L => if h x = L then 1 else 0)).sum = 0 := by
            apply List.sum_eq_zero
            intro y hy
            obtain ⟨L, hL, rfl⟩ := List.mem_map.1 hy
            have := List.mem_range.1 hL
            rw [if_neg (by omega)]
          rw [hz]
          simp [hlast]
        · rw [ihn (by omega)]
          simp [hlast]
    have hsplit : ∀ L, ((x :: l).filter (fun o => decide (h o = L))).length =
        (if h x = L then 1 else 0) + (l.filter (fun o => decide (h o = L))).length := by
      intro L
      by_cases hL : h x = L
      · rw [List.filter_cons_of_pos (by simpa using hL), if_pos hL, List.length_cons]
        omega
      · rw [List.filter_cons_of_neg (by simpa using hL), if_neg hL]
        omega
    simp only [hsplit]
    rw [List.length_cons, hl]
    have hadd : ∀ (f g : Nat → Nat) (m : List Nat),
        (m.map (fun L => f L + g L)).sum = (m.map f).sum + (m.map g).sum := by
      intro f g m
      induction m with
      | nil => rfl
      | cons a m ihm =>
        simp only [List.map_cons, List.sum_cons, ihm]
        omega
    rw [hadd, hone]
    omega

/-- The sum of a list, entry by entry. -/
theorem sum_range_getD (l : List Nat) :
    ((List.range l.length).map (fun L => l.getD L 0)).sum = l.sum := by
  induction l with
  | nil => rfl
  | cons a l ih =>
    rw [List.length_cons, List.range_succ_eq_map, List.map_cons, List.sum_cons, List.map_map,
      List.sum_cons]
    simp only [List.getD_cons_zero]
    have : (fun L => (a :: l).getD L 0) ∘ Nat.succ = fun L => l.getD L 0 := by
      funext L
      simp
    rw [this, ih]

/-- The pages that create has grabbed are as many as the plan has pages. -/
theorem Built.grabbed_length {K : ArrayConsts} {st : ArrayStoragePimpl} {c : Cursors}
    {w : World} (hb : Built K st c w) (hlen : st.levels_ = st.pages_.length) :
    w.grabbed.length = st.pages_.sum := by
  have hheight : ∀ x ∈ w.grabbed, (w.pages x).node_height_ < st.levels_ := by
    intro x hx
    by_contra hge
    have hmem : x ∈ level_pages w (w.pages x).node_height_ := by
      unfold level_pages
      exact List.mem_filter.2 ⟨hx, by simp⟩
    have h0 := hb.len (w.pages x).node_height_
    rw [if_neg hge] at h0
    rw [List.length_eq_zero.1 h0] at hmem
    cases hmem
  rw [length_eq_sum_levels (fun o => (w.pages o).node_height_) st.levels_ w.grabbed hheight,
    ← sum_range_getD st.pages_, ← hlen]
  congr 1
  apply List.map_congr_left
  intro L hL
  have := hb.len L
  unfold level_pages at this
  rw [this, if_pos (List.mem_range.1 hL)]

/-! ## The walk of lookup on the built tree -/

/-- On the built tree, at the page of level `L + 1` whose range holds
`offset`: the page is interior and its range holds `offset`; the slot that
lookup computes is not changed by the conversions to fixed width, is below
the fanout, and holds the pointer that create has set to the page of level
`L` whose range holds `offset`. -/
theorem Built.selected {K : ArrayConsts} {st : ArrayStoragePimpl} {c : Cursors} {w : World}
    (hplan : Planned K st) (hb : Built K st c w) (self : ArrayStoragePimpl)
    (hiv : self.offset_intervals_ = st.offset_intervals_)
    (hF16 : K.INTERIOR_FANOUT ≤ 2 ^ 16) (offset : Nat) (ho : offset < st.array_size_)
    (h64 : st.array_size_ < 2 ^ 64) (L : Nat) (hL : L + 1 < st.levels_) :
    (w.pages ((level_pages w (L + 1)).getD (offset / st.interval (L + 1)) 0)).is_leaf = false ∧
    (w.pages ((level_pages w (L + 1)).getD (offset / st.interval (L + 1)) 0)).node_height_
      = L + 1 ∧
    (w.pages ((level_pages w (L + 1)).getD (offset / st.interval (L + 1))
      0)).array_range_.contains offset = true ∧
    (sub_u64 offset (w.pages ((level_pages w (L + 1)).getD (offset / st.interval (L + 1))
        0)).array_range_.begin_ /
      self.offset_intervals_.getD ((w.pages ((level_pages w (L + 1)).getD
        (offset / st.interval (L + 1)) 0)).node_height_ - 1) 0) % 2 ^ 16 =
      (offset - (w.pages ((level_pages w (L + 1)).getD (offset / st.interval (L + 1))
        0)).array_range_.begin_) / st.interval L ∧
    (offset - (w.pages ((level_pages w (L + 1)).getD (offset / st.interval (L + 1))
        0)).array_range_.begin_) / st.interval L < K.INTERIOR_FANOUT ∧
    self.selected_pointer w.pages offset
        ((level_pages w (L + 1)).getD (offset / st.interval (L + 1)) 0) =
      ⟨0, ⟨0, (level_pages w L).getD (offset / st.interval L) 0⟩⟩ ∧
    (level_pages w L).getD (offset / st.interval L) 0 ≠ 0 ∧
    (level_pages w L).getD (offset / st.interval L) 0 ∈ w.grabbed := by
  have hF := hplan.fanout
  have hk := hplan.index_lt (L + 1) hL offset ho
  have hk0 := hplan.index_lt L (by omega) offset ho
  have hd := hplan.interval_ge L (by omega)
  have hd1 := hplan.interval_ge (L + 1) hL
  have hh := level_pages_height w (L + 1) (offset / st.interval (L + 1))
    (by rw [hb.len, if_pos hL]; exact hk)
  have hbeg := hb.begin_eq (L + 1) _ hL hk
  have hend := hb.end_eq (L + 1) _ hL hk
  have hivs := hplan.interval_succ L hL
  obtain ⟨a1, a2, a3⟩ := slot_arith offset (st.interval L) K.INTERIOR_FANOUT (by omega)
  rw [← hivs] at a1 a2 a3
  have hmem : (level_pages w L).getD (offset / st.interval L) 0 ∈ level_pages w L :=
    getD_mem _ _ (by rw [hb.len, if_pos (by omega)]; exact hk0)
  have hne : (level_pages w L).getD (offset / st.interval L) 0 ≠ 0 :=
    hb.fresh.grabbed_ne_zero _ (level_pages_mem w L _
      (by rw [hb.len, if_pos (by omega)]; exact hk0))
  have hslot : (sub_u64 offset (w.pages ((level_pages w (L + 1)).getD
        (offset / st.interval (L + 1)) 0)).array_range_.begin_ /
      self.offset_intervals_.getD ((w.pages ((level_pages w (L + 1)).getD
        (offset / st.interval (L + 1)) 0)).node_height_ - 1) 0) % 2 ^ 16 =
      (offset - (w.pages ((level_pages w (L + 1)).getD (offset / st.interval (L + 1))
        0)).array_range_.begin_) / st.interval L := by
    rw [hh, hbeg, Nat.add_sub_cancel, sub_u64_eq _ _ a1 (by omega), hiv]
    exact Nat.mod_eq_of_lt (lt_of_lt_of_le a2 hF16)
  have hupper : offset < (offset / st.interval (L + 1) + 1) * st.interval (L + 1) := by
    have h1 := Nat.div_add_mod offset (st.interval (L + 1))
    have h2 := Nat.mod_lt offset (show st.interval (L + 1) > 0 by omega)
    rw [Nat.add_mul, Nat.one_mul, Nat.mul_comm]
    omega
  refine ⟨by unfold ArrayPage.is_leaf; rw [hh]; rfl, hh, ?_, hslot, by rw [hbeg]; exact a2, ?_,
    hne, (List.mem_filter.1 hmem).1⟩
  · unfold ArrayRange.contains
    rw [hbeg, hend]
    simp only [Bool.and_eq_true, decide_eq_true_eq]
    refine ⟨a1, ?_⟩
    unfold ArrayStoragePimpl.range_end
    split
    · exact lt_min hupper ho
    · exact hupper
  · unfold ArrayStoragePimpl.selected_pointer
    rw [hslot, hbeg, hb.slots (L + 1) _ (by omega) hL hk, Nat.add_sub_cancel, a3,
      if_pos (And.intro a2 hk0)]

/-- On the built tree the walk of lookup goes down one level with every step,
through the pages whose range holds `offset`, and ends at the leaf. -/
theorem Built.walk {K : ArrayConsts} {st : ArrayStoragePimpl} {c : Cursors} {w : World}
    (hplan : Planned K st) (hb : Built K st c w) (self : ArrayStoragePimpl)
    (hroot : self.root_page_ = some ((level_pages w (st.levels_ - 1)).getD 0 0))
    (hiv : self.offset_intervals_ = st.offset_intervals_)
    (hF16 : K.INTERIOR_FANOUT ≤ 2 ^ 16) (offset : Nat) (ho : offset < st.array_size_)
    (h64 : st.array_size_ < 2 ^ 64) :
    (∀ n, n < st.levels_ → self.lookup_walk w.pages offset n =
      some ((level_pages w (st.levels_ - 1 - n)).getD
        (offset / st.interval (st.levels_ - 1 - n)) 0)) ∧
    (∀ n, st.levels_ ≤ n → self.lookup_walk w.pages offset n = none) := by
  have hpos := hplan.levels_pos
  have hdown : ∀ n, n < st.levels_ → self.lookup_walk w.pages offset n =
      some ((level_pages w (st.levels_ - 1 - n)).getD
        (offset / st.interval (st.levels_ - 1 - n)) 0) := by
    intro n
    induction n with
    | zero =>
      intro _
      unfold ArrayStoragePimpl.lookup_walk
      rw [hroot, Nat.sub_zero, hplan.top_index offset ho]
      rfl
    | succ n ih =>
      intro hn
      have h1 := ih (by omega)
      obtain ⟨hleaf, _, _, _, _, hsel, hne, _⟩ := hb.selected hplan self hiv hF16 offset ho h64
        (st.levels_ - 1 - (n + 1)) (by omega)
      rw [show st.levels_ - 1 - (n + 1) + 1 = st.levels_ - 1 - n by omega] at hleaf hsel
      exact (lookup_walk_succ self w.pages offset n _).2 ⟨_, h1, hleaf, by rw [hsel], hne⟩
  refine ⟨hdown, ?_⟩
  have hend : self.lookup_walk w.pages offset st.levels_ = none := by
    obtain ⟨m, hm⟩ : ∃ m, st.levels_ = m + 1 := ⟨st.levels_ - 1, by omega⟩
    have h1 := hdown m (by omega)
    rw [show st.levels_ - 1 - m = 0 by omega] at h1
    have hh := level_pages_height w 0 (offset / st.interval 0)
      (by rw [hb.len, if_pos (by omega)]; exact hplan.index_lt 0 (by omega) offset ho)
    rw [hm]
    unfold ArrayStoragePimpl.lookup_walk
    rw [h1]
    simp only
    rw [if_pos (by unfold ArrayPage.is_leaf; rw [hh]; rfl)]
  intro n hn
  induction hn with
  | refl => exact hend
  | step _ ih =>
    unfold ArrayStoragePimpl.lookup_walk
    rw [ih]

/-- On the built tree, every interior page that lookup visits for an offset
of the array holds the offset in its range, and the slot computed there is
in bounds and holds a pointer that create has set. -/
theorem Built.indexing {K : ArrayConsts} {st : ArrayStoragePimpl} {c : Cursors} {w : World}
    (hplan : Planned K st) (hb : Built K st c w) (self : ArrayStoragePimpl)
    (hroot : self.root_page_ = some ((level_pages w (st.levels_ - 1)).getD 0 0))
    (hiv : self.offset_intervals_ = st.offset_intervals_)
    (hF16 : K.INTERIOR_FANOUT ≤ 2 ^ 16) (offset : Nat) (ho : offset < st.array_size_)
    (h64 : st.array_size_ < 2 ^ 64) :
    (∀ n, self.lookup_walk w.pages offset n ≠ none ↔ n < st.levels_) ∧
    (∀ n p, self.lookup_walk w.pages offset n = some p →
      (w.pages p).array_range_.contains offset = true ∧
      (w.pages p).node_height_ + n + 1 = st.levels_) ∧
    (∀ n p, self.lookup_walk w.pages offset n = some p → (w.pages p).is_leaf = false →
      (sub_u64 offset (w.pages p).array_range_.begin_ /
          self.offset_intervals_.getD ((w.pages p).node_height_ - 1) 0) % 2 ^ 16 =
        (offset - (w.pages p).array_range_.begin_) /
          self.offset_intervals_.getD ((w.pages p).node_height_ - 1) 0 ∧
      (offset - (w.pages p).array_range_.begin_) /
        self.offset_intervals_.getD ((w.pages p).node_height_ - 1) 0 < K.INTERIOR_FANOUT ∧
      ∃ child, self.selected_pointer w.pages offset p = ⟨0, ⟨0, child⟩⟩ ∧ child ≠ 0 ∧
        child ∈ w.grabbed ∧ self.lookup_walk w.pages offset (n + 1) = some child) := by
  have hpos := hplan.levels_pos
  obtain ⟨hdown, hnone⟩ := hb.walk hplan self hroot hiv hF16 offset ho h64
  have hlt : ∀ n p, self.lookup_walk w.pages offset n = some p → n < st.levels_ := by
    intro n p hw
    by_contra hge
    rw [hnone n (by omega)] at hw
    cases hw
  refine ⟨?_, ?_, ?_⟩
  · intro n
    constructor
    · intro hne
      by_contra hge
      exact hne (hnone n (by omega))
    · intro hn
      rw [hdown n hn]
      exact Option.some_ne_none _
  · intro n p hw
    have hn := hlt n p hw
    rw [hdown n hn] at hw
    have hp := (Option.some.inj hw).symm
    by_cases hzero : st.levels_ - 1 - n = 0
    · obtain ⟨hh, _, hcont, _⟩ := hb.leaf_contains hplan offset ho
      rw [hzero] at hp
      rw [hp]
      exact ⟨hcont, by rw [hh]; omega⟩
    · obtain ⟨_, hh, hcont, _⟩ := hb.selected hplan self hiv hF16 offset ho h64
        (st.levels_ - 1 - n - 1) (by omega)
      rw [show st.levels_ - 1 - n - 1 + 1 = st.levels_ - 1 - n by omega] at hh hcont
      rw [hp]
      exact ⟨hcont, by rw [hh]; omega⟩
  · intro n p hw hleaf
    have hn := hlt n p hw
    have hw2 := hw
    rw [hdown n hn] at hw
    have hp := (Option.some.inj hw).symm
    have hzero : st.levels_ - 1 - n ≠ 0 := by
      intro hz
      rw [hz] at hp
      obtain ⟨hh, _⟩ := hb.leaf_contains hplan offset ho
      rw [hp] at hleaf
      unfold ArrayPage.is_leaf at hleaf
      rw [hh] at hleaf
      cases hleaf
    obtain ⟨hl, hh, _, hslot, hbound, hsel, hne, hmem⟩ := hb.selected hplan self hiv hF16
      offset ho h64 (st.levels_ - 1 - n - 1) (by omega)
    rw [show st.levels_ - 1 - n - 1 + 1 = st.levels_ - 1 - n by omega] at hl hh hslot hbound hsel
    rw [← hp] at hl hh hslot hbound hsel
    have hinterval : self.offset_intervals_.getD ((w.pages p).node_height_ - 1) 0 =
        st.interval (st.levels_ - 1 - n - 1) := by
      rw [hh, hiv]
      rfl
    refine ⟨by rw [hslot, hinterval], by rw [hinterval]; exact hbound, _, hsel, hne, hmem, ?_⟩
    exact (lookup_walk_succ self w.pages offset n _).2 ⟨p, hw2, hl, by rw [hsel], hne⟩

/-- C1: for an array storage built by create (array size at least one, at
least one record per leaf, fanout at least two and within the 16-bit slot
index, every `grab_free_page` returning a fresh non-zero offset) and every
`offset < array_size`, lookup returns, given at least `levels` iterations,
`RET_OK` and a page that is a leaf (height 0) whose range `[begin, end)`
contains `offset`; no run of lookup returns anything else, so it never
returns `ERROR_CODE_NOTIMPLEMENTED`. -/
theorem lookup_returns_leaf (K : ArrayConsts) (fuel id payload_size array_size : Nat)
    (root_page_pointer : DualPagePointer) (st : ArrayStoragePimpl) (w0 : World) (offset : Nat)
    (hF : 2 ≤ K.INTERIOR_FANOUT) (hF16 : K.INTERIOR_FANOUT ≤ 2 ^ 16)
    (hN : 1 ≤ array_size) (h64 : array_size < 2 ^ 64)
    (hr : 1 ≤ K.DATA_SIZE / (align8 payload_size + K.RECORD_OVERHEAD))
    (hst : ArrayStoragePimpl.construct K fuel id payload_size array_size root_page_pointer true
      = some st)
    (hinj : Function.Injective w0.supply) (hnz : ∀ n, w0.supply n ≠ 0)
    (hempty : w0.grabbed = []) (ho : offset < array_size) :
    (st.create K w0).1 = ErrorCode.RET_OK ∧
    ∃ leaf,
      (∀ fuel2, st.levels_ ≤ fuel2 →
        (st.create K w0).2.1.lookup (st.create K w0).2.2.pages fuel2 offset =
          some (ErrorCode.RET_OK, some leaf)) ∧
      (∀ fuel2 r, (st.create K w0).2.1.lookup (st.create K w0).2.2.pages fuel2 offset = some r →
        r = (ErrorCode.RET_OK, some leaf)) ∧
      ((st.create K w0).2.2.pages leaf).is_leaf = true ∧
      ((st.create K w0).2.2.pages leaf).node_height_ = 0 ∧
      ((st.create K w0).2.2.pages leaf).array_range_.contains offset = true ∧
      ((st.create K w0).2.2.pages leaf).array_range_.begin_ ≤ offset ∧
      offset < ((st.create K w0).2.2.pages leaf).array_range_.end_ := by
  obtain ⟨c, w, st2, hcreate, hplan, hsize, _, hb, _, hroot, _, _, hiv⟩ := create_built K fuel id
    payload_size array_size root_page_pointer st w0 hF hN hr hst hinj hnz hempty
  rw [hcreate]
  simp only
  have hlook := fun offset ho fuel2 hfuel => built_lookup K st st2 c w hplan hb hroot hiv hF16
    (by rw [hsize]; exact h64) offset (by rw [hsize]; exact ho) fuel2 hfuel
  obtain ⟨hh, _, hc, _⟩ := hb.leaf_contains hplan offset (by rw [hsize]; exact ho)
  refine ⟨trivial, _, hlook offset ho, ?_, ?_, hh, hc, ?_, ?_⟩
  · intro fuel2 r hr2
    have h1 := lookup_loop_mono_le _ _ _ _ _ _ _ (Nat.le_max_left fuel2 st.levels_) hr2
    have h2 := hlook offset ho (max fuel2 st.levels_) (Nat.le_max_right _ _)
    unfold ArrayStoragePimpl.lookup at h2
    rw [h1] at h2
    exact Option.some.inj h2
  · unfold ArrayPage.is_leaf
    rw [hh]
    rfl
  · unfold ArrayRange.contains at hc
    simp only [Bool.and_eq_true, decide_eq_true_eq] at hc
    exact hc.1
  · unfold ArrayRange.contains at hc
    simp only [Bool.and_eq_true, decide_eq_true_eq] at hc
    exact hc.2

/-- In the array of five records, two per leaf, fanout two, lookup finds a
leaf holding offset 4. -/
theorem lookup_returns_leaf_witness :
    (2 ≤ small_consts.INTERIOR_FANOUT ∧ (4 : Nat) < 5) ∧
    ((small_storage.create small_consts small_world).1 = ErrorCode.RET_OK ∧
    ∃ leaf,
      (∀ fuel2, small_storage.levels_ ≤ fuel2 →
        (small_storage.create small_consts small_world).2.1.lookup
          (small_storage.create small_consts small_world).2.2.pages fuel2 4 =
          some (ErrorCode.RET_OK, some leaf)) ∧
      (∀ fuel2 r, (small_storage.create small_consts small_world).2.1.lookup
          (small_storage.create small_consts small_world).2.2.pages fuel2 4 = some r →
        r = (ErrorCode.RET_OK, some leaf)) ∧
      ((small_storage.create small_consts small_world).2.2.pages leaf).is_leaf = true ∧
      ((small_storage.create small_consts small_world).2.2.pages leaf).node_height_ = 0 ∧
      ((small_storage.create small_consts small_world).2.2.pages leaf).array_range_.contains 4
        = true ∧
      ((small_storage.create small_consts small_world).2.2.pages leaf).array_range_.begin_ ≤ 4 ∧
      4 < ((small_storage.create small_consts small_world).2.2.pages leaf).array_range_.end_) :=
  ⟨⟨by decide, by decide⟩,
    lookup_returns_leaf small_consts 9 7 8 5 DualPagePointer.null small_storage small_world 4
      (by decide) (by decide) (by decide) (by decide) (by decide) small_storage_eq
      small_world_inj small_world_nonzero rfl (by decide)⟩

/-- C2: for an array built by create (array size at least one), the leaf
pages (the grabbed pages of height 0, in the order create grabbed them) have
ranges of at most `records_per_leaf` offsets, the first leaf begins at 0,
each next leaf begins where the previous one ends, and the last leaf ends at
`array_size`. -/
theorem leaf_ranges_tile (K : ArrayConsts) (fuel id payload_size array_size : Nat)
    (root_page_pointer : DualPagePointer) (st : ArrayStoragePimpl) (w0 : World)
    (hF : 2 ≤ K.INTERIOR_FANOUT) (hN : 1 ≤ array_size)
    (hr : 1 ≤ K.DATA_SIZE / (align8 payload_size + K.RECORD_OVERHEAD))
    (hst : ArrayStoragePimpl.construct K fuel id payload_size array_size root_page_pointer true
      = some st)
    (hinj : Function.Injective w0.supply) (hnz : ∀ n, w0.supply n ≠ 0)
    (hempty : w0.grabbed = []) :
    level_pages (st.create K w0).2.2 0 ≠ [] ∧
    (∀ o, o ∈ level_pages (st.create K w0).2.2 0 ↔
      o ∈ (st.create K w0).2.2.grabbed ∧ ((st.create K w0).2.2.pages o).is_leaf = true) ∧
    (∀ k, k < (level_pages (st.create K w0).2.2 0).length →
      ((st.create K w0).2.2.pages
          ((level_pages (st.create K w0).2.2 0).getD k 0)).array_range_.begin_ ≤
        ((st.create K w0).2.2.pages
          ((level_pages (st.create K w0).2.2 0).getD k 0)).array_range_.end_ ∧
      ((st.create K w0).2.2.pages
          ((level_pages (st.create K w0).2.2 0).getD k 0)).array_range_.end_ -
        ((st.create K w0).2.2.pages
          ((level_pages (st.create K w0).2.2 0).getD k 0)).array_range_.begin_ ≤
        K.DATA_SIZE / (align8 payload_size + K.RECORD_OVERHEAD)) ∧
    ((st.create K w0).2.2.pages
      ((level_pages (st.create K w0).2.2 0).getD 0 0)).array_range_.begin_ = 0 ∧
    (∀ k, k + 1 < (level_pages (st.create K w0).2.2 0).length →
      ((st.create K w0).2.2.pages
          ((level_pages (st.create K w0).2.2 0).getD (k + 1) 0)).array_range_.begin_ =
        ((st.create K w0).2.2.pages
          ((level_pages (st.create K w0).2.2 0).getD k 0)).array_range_.end_) ∧
    ((st.create K w0).2.2.pages
      ((level_pages (st.create K w0).2.2 0).getD
        ((level_pages (st.create K w0).2.2 0).length - 1) 0)).array_range_.end_ = array_size := by
  obtain ⟨c, w, st2, hcreate, hplan, hsize, hiv0, hb, _, _, _, _, _⟩ := create_built K fuel id
    payload_size array_size root_page_pointer st w0 hF hN hr hst hinj hnz hempty
  rw [hcreate]
  show level_pages w 0 ≠ [] ∧
    (∀ o, o ∈ level_pages w 0 ↔ o ∈ w.grabbed ∧ (w.pages o).is_leaf = true) ∧
    (∀ k, k < (level_pages w 0).length →
      (w.pages ((level_pages w 0).getD k 0)).array_range_.begin_ ≤
        (w.pages ((level_pages w 0).getD k 0)).array_range_.end_ ∧
      (w.pages ((level_pages w 0).getD k 0)).array_range_.end_ -
        (w.pages ((level_pages w 0).getD k 0)).array_range_.begin_ ≤
        K.DATA_SIZE / (align8 payload_size + K.RECORD_OVERHEAD)) ∧
    (w.pages ((level_pages w 0).getD 0 0)).array_range_.begin_ = 0 ∧
    (∀ k, k + 1 < (level_pages w 0).length →
      (w.pages ((level_pages w 0).getD (k + 1) 0)).array_range_.begin_ =
        (w.pages ((level_pages w 0).getD k 0)).array_range_.end_) ∧
    (w.pages ((level_pages w 0).getD ((level_pages w 0).length - 1) 0)).array_range_.end_
      = array_size
  have hL : 0 < st.levels_ := hplan.levels_pos
  have hlen : (level_pages w 0).length = (st.array_size_ - 1) / st.interval 0 + 1 := by
    rw [hb.len, if_pos hL, hplan.pages_zero]
  have hp0 : st.pages_.getD 0 0 = (st.array_size_ - 1) / st.interval 0 + 1 := hplan.pages_zero
  have hd := hplan.interval_pos
  have hNpos := hplan.size_pos
  -- the end of leaf `k`
  have hend : ∀ k, k < (level_pages w 0).length →
      (w.pages ((level_pages w 0).getD k 0)).array_range_.end_ =
        min ((k + 1) * st.interval 0) st.array_size_ := by
    intro k hk
    rw [hb.end_eq 0 k hL (by rw [hp0, ← hlen]; exact hk)]
    unfold ArrayStoragePimpl.range_end
    rw [if_pos (Or.inl rfl)]
  have hbeg : ∀ k, k < (level_pages w 0).length →
      (w.pages ((level_pages w 0).getD k 0)).array_range_.begin_ = k * st.interval 0 := by
    intro k hk
    exact hb.begin_eq 0 k hL (by rw [hp0, ← hlen]; exact hk)
  -- a leaf that is not the last one lies below the array size
  have hfull : ∀ k, k + 1 < (level_pages w 0).length →
      (k + 1) * st.interval 0 < st.array_size_ := by
    intro k hk
    rw [hlen] at hk
    have h1 : k + 1 ≤ (st.array_size_ - 1) / st.interval 0 := by omega
    have h2 := (Nat.le_div_iff_mul_le hd).1 h1
    omega
  have hpos : 0 < (level_pages w 0).length := by rw [hlen]; exact Nat.succ_pos _
  refine ⟨?_, ?_, ?_, ?_, ?_, ?_⟩
  · intro h
    rw [h] at hpos
    exact absurd hpos (by decide)
  · intro o
    unfold level_pages ArrayPage.is_leaf
    simp [List.mem_filter]
  · intro k hk
    rw [hend k hk, hbeg k hk]
    have hk2 : k * st.interval 0 < st.array_size_ := by
      rcases Nat.eq_zero_or_pos k with h0 | h0
      · subst h0; omega
      · have := hfull (k - 1) (by omega)
        rw [Nat.sub_add_cancel h0] at this
        exact this
    rw [← hiv0, Nat.add_mul, Nat.one_mul]
    constructor
    · exact le_min (by omega) (by omega)
    · have : min (k * st.interval 0 + st.interval 0) st.array_size_ ≤
          k * st.interval 0 + st.interval 0 := Nat.min_le_left _ _
      omega
  · rw [hbeg 0 hpos, Nat.zero_mul]
  · intro k hk
    rw [hbeg (k + 1) hk, hend k (by omega)]
    exact (Nat.min_eq_left (Nat.le_of_lt (hfull k hk))).symm
  · rw [hend _ (Nat.sub_lt hpos Nat.one_pos), hlen, Nat.add_sub_cancel, hsize]
    apply Nat.min_eq_right
    have := Nat.lt_mul_div_succ (st.array_size_ - 1) (show 0 < st.interval 0 by omega)
    rw [Nat.mul_comm] at this
    rw [hsize] at this
    omega

/-- The three leaves of the array of five records, two per leaf. -/
theorem leaf_ranges_tile_witness :
    (2 ≤ small_consts.INTERIOR_FANOUT ∧ (1 : Nat) ≤ 5) ∧
    (level_pages (small_storage.create small_consts small_world).2.2 0).length = 3 ∧
    ((small_storage.create small_consts small_world).2.2.pages
      ((level_pages (small_storage.create small_consts small_world).2.2 0).getD
        ((level_pages (small_storage.create small_consts small_world).2.2 0).length - 1)
        0)).array_range_.end_ = 5 :=
  ⟨⟨by decide, by decide⟩, by decide,
    (leaf_ranges_tile small_consts 9 7 8 5 DualPagePointer.null small_storage small_world
      (by decide) (by decide) (by decide) small_storage_eq small_world_inj small_world_nonzero
      rfl).2.2.2.2.2⟩

/-- C3, evaluated: in the array of five records (two per leaf, fanout two)
the second page of level 1 is page 6 with range `[4, 8)`, although its only
child, the leaf at page 5, has range `[4, 5)`; and the root, page 3, has
range `[0, 5)` while its children, pages 2 and 6, have ranges `[0, 4)` and
`[4, 8)`.  The range of an interior page that is not the left-most of its
level is not clamped to the array size, so its children do not end where it
ends. -/
theorem interior_range_not_clamped :
    small_created.1 = ErrorCode.RET_OK ∧
    small_created.2.1.root_page_ = some 3 ∧
    level_pages small_created.2.2 1 = [2, 6] ∧
    (small_created.2.2.pages 6).node_height_ = 1 ∧
    (small_created.2.2.pages 6).array_range_ = ⟨4, 8⟩ ∧
    ((small_created.2.2.pages 6).interior 0).volatile_pointer_.offset = 5 ∧
    ((small_created.2.2.pages 6).interior 1).volatile_pointer_.offset = 0 ∧
    (small_created.2.2.pages 5).array_range_ = ⟨4, 5⟩ ∧
    (small_created.2.2.pages 3).array_range_ = ⟨0, 5⟩ ∧
    ((small_created.2.2.pages 3).interior 0).volatile_pointer_.offset = 2 ∧
    ((small_created.2.2.pages 3).interior 1).volatile_pointer_.offset = 6 ∧
    (small_created.2.2.pages 2).array_range_ = ⟨0, 4⟩ := by
  decide

/-- C4: for `array_size ≥ 1` and `records_per_page ≥ 1` (and a fanout of at
least two), `calculate_required_pages` returns, given enough iterations, one
non-empty list `p` (the same for every run that returns): `p[0]` is
`array_size / records_per_page` rounded up, every next entry is the previous
one divided by `INTERIOR_FANOUT` rounded up, the last entry is `1` and every
entry before the last is greater than `1`. -/
theorem calculate_required_pages_plan (K : ArrayConsts) (array_size payload : Nat)
    (hF : 2 ≤ K.INTERIOR_FANOUT) (hN : 1 ≤ array_size)
    (hr : 1 ≤ K.DATA_SIZE / (payload + K.RECORD_OVERHEAD)) :
    ∃ p : List Nat,
      (∀ fuel, array_size ≤ fuel →
        calculate_required_pages K fuel array_size payload = some p) ∧
      (∀ fuel q, calculate_required_pages K fuel array_size payload = some q → q = p) ∧
      p ≠ [] ∧
      p.getD 0 0 = (array_size + K.DATA_SIZE / (payload + K.RECORD_OVERHEAD) - 1) /
        (K.DATA_SIZE / (payload + K.RECORD_OVERHEAD)) ∧
      (∀ i, i + 1 < p.length →
        p.getD (i + 1) 0 = (p.getD i 0 + K.INTERIOR_FANOUT - 1) / K.INTERIOR_FANOUT) ∧
      p.getLast? = some 1 ∧
      (∀ i, i + 1 < p.length → 1 < p.getD i 0) :=
  calculate_required_pages_spec K array_size payload hF hN hr

/-- The plan for five records, two per page, fanout two, is `[3, 2, 1]`. -/
theorem calculate_required_pages_plan_witness :
    ∃ p : List Nat,
      (∀ fuel, 5 ≤ fuel → calculate_required_pages small_consts fuel 5 8 = some p) ∧
      (∀ fuel q, calculate_required_pages small_consts fuel 5 8 = some q → q = p) ∧
      p ≠ [] ∧
      p.getD 0 0 = (5 + 32 / (8 + 8) - 1) / (32 / (8 + 8)) ∧
      (∀ i, i + 1 < p.length → p.getD (i + 1) 0 = (p.getD i 0 + 2 - 1) / 2) ∧
      p.getLast? = some 1 ∧
      (∀ i, i + 1 < p.length → 1 < p.getD i 0) :=
  calculate_required_pages_plan small_consts 5 8 (by decide) (by decide) (by decide)

/-- C5: for a payload size whose 8-byte-aligned value fits the `uint16_t`
parameter of `calculate_required_pages`, with at least one record per leaf
and a fanout of at least two (no division by zero): when the constructor
returns, it has set `levels_` to the length of `pages_` and built
`offset_intervals_` with exactly `levels_` entries, the first being
`DATA_SIZE / (align8(payload_size) + RECORD_OVERHEAD)` and every next one the
previous one times `INTERIOR_FANOUT`, so that entry `L` is
`records_per_leaf * INTERIOR_FANOUT ^ L`; `pages_` is the plan computed from
the aligned payload size, so its first entry is `array_size` divided by
`offset_intervals_[0]`, rounded up; `align8` yields the least multiple of
eight that is not below the payload size.  The constructor does return for a
non-empty array, given `array_size` iterations. -/
theorem construct_offset_intervals (K : ArrayConsts) (fuel id payload_size array_size : Nat)
    (root_page_pointer : DualPagePointer) (create : Bool)
    (hps : align8 payload_size < 2 ^ 16)
    (hr : 1 ≤ K.DATA_SIZE / (align8 payload_size + K.RECORD_OVERHEAD))
    (hF : 2 ≤ K.INTERIOR_FANOUT) :
    payload_size < 2 ^ 16 ∧
    (∀ st : ArrayStoragePimpl,
      ArrayStoragePimpl.construct K fuel id payload_size array_size root_page_pointer create
        = some st →
      st.levels_ = st.pages_.length ∧
      st.offset_intervals_.length = st.levels_ ∧
      st.offset_intervals_.getD 0 0 = K.DATA_SIZE / (align8 payload_size + K.RECORD_OVERHEAD) ∧
      (∀ L, 1 ≤ L → L < st.levels_ →
        st.offset_intervals_.getD L 0 =
          st.offset_intervals_.getD (L - 1) 0 * K.INTERIOR_FANOUT) ∧
      (∀ L, L < st.levels_ →
        st.offset_intervals_.getD L 0 =
          K.DATA_SIZE / (align8 payload_size + K.RECORD_OVERHEAD) * K.INTERIOR_FANOUT ^ L) ∧
      calculate_required_pages K fuel array_size (align8 payload_size % 2 ^ 16) =
        some st.pages_ ∧
      st.pages_.getD 0 0 = int_div_ceil array_size (st.offset_intervals_.getD 0 0) ∧
      st.payload_size_aligned_ = align8 payload_size ∧
      (payload_size ≤ align8 payload_size ∧ align8 payload_size < payload_size + 8 ∧
        align8 payload_size % 8 = 0)) ∧
    (1 ≤ array_size → array_size ≤ fuel →
      ∃ st : ArrayStoragePimpl,
        ArrayStoragePimpl.construct K fuel id payload_size array_size root_page_pointer create
          = some st) := by
  have hmod : align8 payload_size % 2 ^ 16 = align8 payload_size := Nat.mod_eq_of_lt hps
  refine ⟨?_, ?_, ?_⟩
  · unfold align8 at hps
    omega
  · intro st h
    obtain ⟨h1, h2, h3, h4, h5, h6, h7, h8⟩ :=
      construct_spec K fuel id payload_size array_size root_page_pointer create st h
    refine ⟨h1, h2, h3, h4, h5, by rw [hmod]; exact h6, h7, ?_, h8⟩
    unfold ArrayStoragePimpl.construct at h
    cases hp : calculate_required_pages K fuel array_size (align8 payload_size) with
    | none => simp [hp] at h
    | some pages =>
      simp only [hp] at h
      rw [← Option.some.inj h]
  · intro hN hfuel
    obtain ⟨p, hp, _⟩ := calculate_required_pages_spec K array_size (align8 payload_size)
      (by omega) hN hr
    unfold ArrayStoragePimpl.construct
    simp only [hp fuel hfuel]
    exact ⟨_, rfl⟩

/-- The constructor on payload size 5 (aligned to 8), five records, two per
page, fanout two. -/
theorem construct_offset_intervals_witness :
    (align8 5 < 2 ^ 16 ∧ align8 8 < 2 ^ 16 ∧ 1 ≤ small_consts.DATA_SIZE / (align8 5 +
      small_consts.RECORD_OVERHEAD) ∧ 2 ≤ small_consts.INTERIOR_FANOUT ∧ (1 : Nat) ≤ 5 ∧
      (5 : Nat) ≤ 9) ∧
    (∃ st : ArrayStoragePimpl,
        ArrayStoragePimpl.construct small_consts 9 7 5 5 DualPagePointer.null true = some st) ∧
    (ArrayStoragePimpl.construct small_consts 9 7 8 5 DualPagePointer.null true
        = some small_storage ∧
      small_storage.offset_intervals_.length = small_storage.levels_ ∧
      (∀ L, L < small_storage.levels_ →
        small_storage.offset_intervals_.getD L 0 = 32 / (align8 8 + 8) * 2 ^ L)) :=
  ⟨⟨by decide, by decide, by decide, by decide, by decide, by decide⟩,
    (construct_offset_intervals small_consts 9 7 5 5 DualPagePointer.null true
      (by decide) (by decide) (by decide)).2.2 (by decide) (by decide),
    ⟨rfl,
      ((construct_offset_intervals small_consts 9 7 8 5 DualPagePointer.null true
        (by decide) (by decide) (by decide)).2.1 small_storage rfl).2.1,
      ((construct_offset_intervals small_consts 9 7 8 5 DualPagePointer.null true
        (by decide) (by decide) (by decide)).2.1 small_storage rfl).2.2.2.2.1⟩⟩

/-- C6: create followed by uninitialize hands back to `release_free_page`
exactly the offsets that create obtained from `grab_free_page`: uninitialize
returns, given at least `levels` levels of recursion, and the offsets it
releases are a permutation of the offsets grabbed (every grabbed page is
released exactly once and nothing else is released), so as many pages are
released as were grabbed. -/
theorem create_uninitialize_releases_grabbed (K : ArrayConsts)
    (fuel id payload_size array_size : Nat) (root_page_pointer : DualPagePointer)
    (st : ArrayStoragePimpl) (w0 : World) (fuel2 : Nat)
    (hF : 2 ≤ K.INTERIOR_FANOUT) (hN : 1 ≤ array_size)
    (hr : 1 ≤ K.DATA_SIZE / (align8 payload_size + K.RECORD_OVERHEAD))
    (hst : ArrayStoragePimpl.construct K fuel id payload_size array_size root_page_pointer true
      = some st)
    (hinj : Function.Injective w0.supply) (hnz : ∀ n, w0.supply n ≠ 0)
    (hempty : w0.grabbed = []) (hfuel : st.levels_ ≤ fuel2) :
    ∃ st3 w3 released,
      (st.create K w0).2.1.uninitialize_once K fuel2 (st.create K w0).2.2 =
        some (ErrorCode.RET_OK, st3, w3) ∧
      w3.released = w0.released ++ released ∧
      released.Perm (st.create K w0).2.2.grabbed ∧
      released.Nodup ∧
      released.length = (st.create K w0).2.2.grabbed.length ∧
      w3.grabbed = (st.create K w0).2.2.grabbed ∧
      st3.root_page_ = none ∧
      st3.root_page_pointer_.volatile_pointer_.offset = 0 := by
  obtain ⟨c, w, st2, hcreate, hplan, _, _, hb, henv, hroot, hptr, _, _⟩ := create_built K fuel id
    payload_size array_size root_page_pointer st w0 hF hN hr hst hinj hnz hempty
  rw [hcreate]
  simp only
  obtain ⟨l, hwalk, hnd, hperm⟩ := hb.root_walk hplan fuel2 hfuel
  obtain ⟨w3, hrel, hreleased, hgr, _, _, _, _⟩ := release_pages_recursive_spec K fuel2
    { w with registered := w.registered ++ [st.id_] }
    ((level_pages w (st.levels_ - 1)).getD 0 0)
    st2.root_page_pointer_.volatile_pointer_.offset l hwalk hnd
  rw [hptr] at hrel hreleased
  simp only at hrel hreleased
  refine ⟨{ st2 with root_page_ := none
                     root_page_pointer_ := st2.root_page_pointer_.clear_offset }, w3,
    l ++ [(level_pages w (st.levels_ - 1)).getD 0 0], ?_, ?_, hperm, hnd, hperm.length_eq, hgr,
    rfl, rfl⟩
  · unfold ArrayStoragePimpl.uninitialize_once
    rw [hroot]
    simp only
    rw [hptr]
    simp only
    rw [hrel]
  · rw [hreleased, henv.2.1, List.append_assoc]

/-- Uninitialize after create of the array of five records releases the six
pages that create grabbed. -/
theorem create_uninitialize_releases_grabbed_witness :
    (2 ≤ small_consts.INTERIOR_FANOUT ∧ small_storage.levels_ ≤ 3) ∧
    ∃ st3 w3 released,
      (small_storage.create small_consts small_world).2.1.uninitialize_once small_consts 3
          (small_storage.create small_consts small_world).2.2 =
        some (ErrorCode.RET_OK, st3, w3) ∧
      w3.released = small_world.released ++ released ∧
      released.Perm (small_storage.create small_consts small_world).2.2.grabbed ∧
      released.Nodup ∧
      released.length = (small_storage.create small_consts small_world).2.2.grabbed.length ∧
      w3.grabbed = (small_storage.create small_consts small_world).2.2.grabbed ∧
      st3.root_page_ = none ∧
      st3.root_page_pointer_.volatile_pointer_.offset = 0 :=
  ⟨⟨by decide, by decide⟩,
    create_uninitialize_releases_grabbed small_consts 9 7 8 5 DualPagePointer.null small_storage
      small_world 3 (by decide) (by decide) (by decide) small_storage_eq small_world_inj
      small_world_nonzero rfl (by decide)⟩

/-- C7: uninitialize of a storage with a non-null root, when the pages below
the root form a tree (the read-only walk `descendants_postorder` returns a
list `l` that, with the root, has no page twice), releases the pages of `l`
in that order and last the offset of the root pointer.  The list `l` with the
root at its end holds exactly the pages reachable from the root through
non-zero volatile child offsets, and every page in it comes after its
children, so a page is released after the pages of its subtree and the root
last.  Every page walked has the volatile offsets of its child pointers set
to 0 and no other page is changed; finally `root_page_` is null and the
volatile offset of the root pointer is 0.  A second uninitialize then returns
`RET_OK` and changes neither the storage nor the world. -/
theorem uninitialize_releases_postorder (K : ArrayConsts) (st : ArrayStoragePimpl) (w : World)
    (fuel root : Nat) (l : List Nat) (hroot : st.root_page_ = some root)
    (hwalk : descendants_postorder K fuel w.pages root = some l)
    (htree : (l ++ [root]).Nodup) :
    ∃ st2 w2,
      st.uninitialize_once K fuel w = some (ErrorCode.RET_OK, st2, w2) ∧
      w2.released = w.released ++ l ++ [st.root_page_pointer_.volatile_pointer_.offset] ∧
      (∀ q, q ∈ l ++ [root] ↔ Reachable K w.pages root q) ∧
      (∀ q ch, q ∈ l ++ [root] → IsChild K w.pages q ch →
        ReleasedBefore (l ++ [root]) ch q) ∧
      w2.grabbed = w.grabbed ∧
      (∀ q, w2.pages q =
        if q ∈ l ∨ q = root then released_page K (w.pages q) else w.pages q) ∧
      (∀ q i, (q ∈ l ∨ q = root) → (w.pages q).is_leaf = false → i < K.INTERIOR_FANOUT →
        ((w2.pages q).interior i).volatile_pointer_.offset = 0) ∧
      st2.root_page_ = none ∧
      st2.root_page_pointer_.volatile_pointer_.offset = 0 ∧
      st2.root_page_pointer_.snapshot_page_id_ = st.root_page_pointer_.snapshot_page_id_ ∧
      (∀ fuel2, st2.uninitialize_once K fuel2 w2 = some (ErrorCode.RET_OK, st2, w2)) := by
  obtain ⟨w2, hrel, hreleased, hgr, _, _, _, hpages⟩ := release_pages_recursive_spec K fuel w root
    st.root_page_pointer_.volatile_pointer_.offset l hwalk htree
  obtain ⟨hreach, horder⟩ := descendants_postorder_reachable K fuel w.pages root l hwalk
  refine ⟨{ st with root_page_ := none
                    root_page_pointer_ := st.root_page_pointer_.clear_offset }, w2, ?_,
    hreleased, hreach, horder, hgr, hpages, ?_, rfl, rfl, rfl, ?_⟩
  · unfold ArrayStoragePimpl.uninitialize_once
    rw [hroot]
    simp only
    rw [hrel]
  · intro q i hq hleaf hi
    rw [hpages q, if_pos hq]
    unfold released_page
    rw [hleaf]
    simp only [Bool.false_eq_true, if_false]
    unfold ArrayPage.cleared_below
    simp only
    rw [if_pos hi]
    rfl
  · intro fuel2
    rfl

/-- Uninitialize of the array of five records releases its six pages in
post-order, the root (page 3) last. -/
theorem uninitialize_releases_postorder_witness :
    (small_created.2.1.root_page_ = some 3 ∧
      descendants_postorder small_consts 3 small_created.2.2.pages 3 = some [1, 4, 2, 5, 6] ∧
      ([1, 4, 2, 5, 6] ++ [3]).Nodup) ∧
    ∃ st2 w2,
      small_created.2.1.uninitialize_once small_consts 3 small_created.2.2 =
        some (ErrorCode.RET_OK, st2, w2) ∧
      w2.released = small_created.2.2.released ++ [1, 4, 2, 5, 6] ++
        [small_created.2.1.root_page_pointer_.volatile_pointer_.offset] ∧
      (∀ q, q ∈ [1, 4, 2, 5, 6] ++ [3] ↔ Reachable small_consts small_created.2.2.pages 3 q) ∧
      (∀ q ch, q ∈ [1, 4, 2, 5, 6] ++ [3] → IsChild small_consts small_created.2.2.pages q ch →
        ReleasedBefore ([1, 4, 2, 5, 6] ++ [3]) ch q) ∧
      w2.grabbed = small_created.2.2.grabbed ∧
      (∀ q, w2.pages q =
        if q ∈ [1, 4, 2, 5, 6] ∨ q = 3 then released_page small_consts (small_created.2.2.pages q)
        else small_created.2.2.pages q) ∧
      (∀ q i, (q ∈ [1, 4, 2, 5, 6] ∨ q = 3) → (small_created.2.2.pages q).is_leaf = false →
        i < small_consts.INTERIOR_FANOUT →
        ((w2.pages q).interior i).volatile_pointer_.offset = 0) ∧
      st2.root_page_ = none ∧
      st2.root_page_pointer_.volatile_pointer_.offset = 0 ∧
      st2.root_page_pointer_.snapshot_page_id_ =
        small_created.2.1.root_page_pointer_.snapshot_page_id_ ∧
      (∀ fuel2, st2.uninitialize_once small_consts fuel2 w2 = some (ErrorCode.RET_OK, st2, w2)) :=
  ⟨⟨by decide, by decide, by decide⟩,
    uninitialize_releases_postorder small_consts small_created.2.1 small_created.2.2 3 3
      [1, 4, 2, 5, 6] (by decide) (by decide) (by decide)⟩

/-- C8: after create, the `k`-th page of a level `L ≥ 1` (which begins at
`k` intervals, so creation order is left-to-right order) has in every slot
`i` it populated, that is `i < INTERIOR_FANOUT` with page
`k * INTERIOR_FANOUT + i` existing on level `L - 1`, the pointer with
`snapshot_page_id_ = 0`, `mod_count = 0` and the offset of that page; every
other slot is null.  The root pointer has `snapshot_page_id_ = 0`,
`mod_count = 0` and the offset of the single page of the top level, which is
not zero. -/
theorem create_child_pointers (K : ArrayConsts) (fuel id payload_size array_size : Nat)
    (root_page_pointer : DualPagePointer) (st : ArrayStoragePimpl) (w0 : World)
    (hF : 2 ≤ K.INTERIOR_FANOUT) (hN : 1 ≤ array_size)
    (hr : 1 ≤ K.DATA_SIZE / (align8 payload_size + K.RECORD_OVERHEAD))
    (hst : ArrayStoragePimpl.construct K fuel id payload_size array_size root_page_pointer true
      = some st)
    (hinj : Function.Injective w0.supply) (hnz : ∀ n, w0.supply n ≠ 0)
    (hempty : w0.grabbed = []) :
    (∀ L k, L < st.levels_ → k < (level_pages (st.create K w0).2.2 L).length →
      ((st.create K w0).2.2.pages
        ((level_pages (st.create K w0).2.2 L).getD k 0)).array_range_.begin_ =
          k * st.offset_intervals_.getD L 0) ∧
    (∀ L k i, 1 ≤ L → L < st.levels_ → k < (level_pages (st.create K w0).2.2 L).length →
      i < K.INTERIOR_FANOUT →
      k * K.INTERIOR_FANOUT + i < (level_pages (st.create K w0).2.2 (L - 1)).length →
      ((st.create K w0).2.2.pages ((level_pages (st.create K w0).2.2 L).getD k 0)).interior i =
        { snapshot_page_id_ := 0
          volatile_pointer_ :=
            { mod_count := 0
              offset := (level_pages (st.create K w0).2.2 (L - 1)).getD
                (k * K.INTERIOR_FANOUT + i) 0 } }) ∧
    (∀ L k i, 1 ≤ L → L < st.levels_ → k < (level_pages (st.create K w0).2.2 L).length →
      ¬ (i < K.INTERIOR_FANOUT ∧
        k * K.INTERIOR_FANOUT + i < (level_pages (st.create K w0).2.2 (L - 1)).length) →
      ((st.create K w0).2.2.pages ((level_pages (st.create K w0).2.2 L).getD k 0)).interior i =
        DualPagePointer.null) ∧
    (level_pages (st.create K w0).2.2 (st.levels_ - 1)).length = 1 ∧
    (st.create K w0).2.1.root_page_pointer_ =
      { snapshot_page_id_ := 0
        volatile_pointer_ :=
          { mod_count := 0
            offset := (level_pages (st.create K w0).2.2 (st.levels_ - 1)).getD 0 0 } } ∧
    (st.create K w0).2.1.root_page_pointer_.volatile_pointer_.offset ≠ 0 := by
  obtain ⟨c, w, st2, hcreate, hplan, hsize, hiv0, hb, _, _, hptr, _, _⟩ := create_built K fuel id
    payload_size array_size root_page_pointer st w0 hF hN hr hst hinj hnz hempty
  rw [hcreate]
  show (∀ L k, L < st.levels_ → k < (level_pages w L).length →
      (w.pages ((level_pages w L).getD k 0)).array_range_.begin_ =
          k * st.offset_intervals_.getD L 0) ∧
    (∀ L k i, 1 ≤ L → L < st.levels_ → k < (level_pages w L).length →
      i < K.INTERIOR_FANOUT → k * K.INTERIOR_FANOUT + i < (level_pages w (L - 1)).length →
      (w.pages ((level_pages w L).getD k 0)).interior i =
        ⟨0, ⟨0, (level_pages w (L - 1)).getD (k * K.INTERIOR_FANOUT + i) 0⟩⟩) ∧
    (∀ L k i, 1 ≤ L → L < st.levels_ → k < (level_pages w L).length →
      ¬ (i < K.INTERIOR_FANOUT ∧ k * K.INTERIOR_FANOUT + i < (level_pages w (L - 1)).length) →
      (w.pages ((level_pages w L).getD k 0)).interior i = DualPagePointer.null) ∧
    (level_pages w (st.levels_ - 1)).length = 1 ∧
    st2.root_page_pointer_ = ⟨0, ⟨0, (level_pages w (st.levels_ - 1)).getD 0 0⟩⟩ ∧
    st2.root_page_pointer_.volatile_pointer_.offset ≠ 0
  have hlen : ∀ L, L < st.levels_ → (level_pages w L).length = st.pages_.getD L 0 := by
    intro L hL; rw [hb.len, if_pos hL]
  have htop : (level_pages w (st.levels_ - 1)).length = 1 := by
    rw [hlen _ (by have := hplan.levels_pos; omega), hplan.pages_top]
  refine ⟨?_, ?_, ?_, htop, hptr, ?_⟩
  · intro L k hL hk
    rw [hlen L hL] at hk
    exact hb.begin_eq L k hL hk
  · intro L k i h1 hL hk hi hki
    rw [hlen L hL] at hk
    rw [hlen (L - 1) (by omega)] at hki
    rw [hb.slots L k h1 hL hk i, if_pos (And.intro hi hki)]
  · intro L k i h1 hL hk hn
    rw [hlen L hL] at hk
    rw [hlen (L - 1) (by omega)] at hn
    rw [hb.slots L k h1 hL hk i, if_neg hn]
  · rw [hptr]
    exact hb.fresh.grabbed_ne_zero _ (level_pages_mem w _ 0 (by rw [htop]; exact Nat.one_pos))

/-- The root pointer of the array of five records is that of page 3. -/
theorem create_child_pointers_witness :
    (2 ≤ small_consts.INTERIOR_FANOUT ∧ (1 : Nat) ≤ 5) ∧
    (level_pages (small_storage.create small_consts small_world).2.2
      (small_storage.levels_ - 1)).getD 0 0 = 3 ∧
    (small_storage.create small_consts small_world).2.1.root_page_pointer_ =
      { snapshot_page_id_ := 0
        volatile_pointer_ :=
          { mod_count := 0
            offset := (level_pages (small_storage.create small_consts small_world).2.2
              (small_storage.levels_ - 1)).getD 0 0 } } :=
  ⟨⟨by decide, by decide⟩, by decide,
    (create_child_pointers small_consts 9 7 8 5 DualPagePointer.null small_storage small_world
      (by decide) (by decide) (by decide) small_storage_eq small_world_inj small_world_nonzero
      rfl).2.2.2.2.1⟩

/-- C9: create requires `!exists`.  On a storage that already exists it
returns `ERROR_CODE_STR_ALREADY_EXISTS` and leaves the storage object (root
pointer and `root_page_` included) and the world (no page grabbed, no storage
registered) as they were; and when create returns `RET_OK` it has set
`exist_`, so that a second create, in whatever world, returns
`ERROR_CODE_STR_ALREADY_EXISTS` and changes nothing. -/
theorem create_requires_not_exists (K : ArrayConsts) (st : ArrayStoragePimpl) (w w2 : World) :
    (st.exist_ = true →
      st.create K w = (ErrorCode.ERROR_CODE_STR_ALREADY_EXISTS, st, w)) ∧
    ((st.create K w).1 = ErrorCode.RET_OK →
      (st.create K w).2.1.exist_ = true ∧
      (st.create K w).2.1.create K w2 =
        (ErrorCode.ERROR_CODE_STR_ALREADY_EXISTS, (st.create K w).2.1, w2)) := by
  have hfirst : ∀ (s : ArrayStoragePimpl) (v : World), s.exist_ = true →
      s.create K v = (ErrorCode.ERROR_CODE_STR_ALREADY_EXISTS, s, v) := by
    intro s v h
    unfold ArrayStoragePimpl.create
    rw [if_pos h]
  refine ⟨hfirst st w, ?_⟩
  intro hok
  have hex : st.exist_ = false := by
    cases h : st.exist_ with
    | false => rfl
    | true =>
      rw [hfirst st w h] at hok
      cases hok
  have hset : (st.create K w).2.1.exist_ = true := by rw [create_eq K st w hex]
  exact ⟨hset, hfirst _ w2 hset⟩

/-- A second create on the array of five records is refused. -/
theorem create_requires_not_exists_witness :
    ((small_storage.create small_consts small_world).2.1.exist_ = true ∧
      (small_storage.create small_consts small_world).2.1.create small_consts small_world =
        (ErrorCode.ERROR_CODE_STR_ALREADY_EXISTS,
          (small_storage.create small_consts small_world).2.1, small_world)) ∧
    ((small_storage.create small_consts small_world).1 = ErrorCode.RET_OK ∧
      (small_storage.create small_consts small_world).2.1.create small_consts
          (small_storage.create small_consts small_world).2.2 =
        (ErrorCode.ERROR_CODE_STR_ALREADY_EXISTS,
          (small_storage.create small_consts small_world).2.1,
          (small_storage.create small_consts small_world).2.2)) :=
  ⟨⟨rfl, (create_requires_not_exists small_consts
      (small_storage.create small_consts small_world).2.1 small_world small_world).1 rfl⟩,
    ⟨rfl, ((create_requires_not_exists small_consts small_storage small_world
      (small_storage.create small_consts small_world).2.2).2 rfl).2⟩⟩

/-- C10: on a built array, for `offset < array_size` and
`payload_offset + payload_count ≤ payload_size`, lookup returns a leaf, and
every run of get_record that returns `RET_OK` has located the record at
index `offset - range.begin` of that leaf (an index below the records per
leaf), has appended exactly that record, with its owner id, to the read set,
and has written to the caller's buffer exactly the `payload_count` bytes
`record.payload[payload_offset ..]`, all of them inside the payload, leaving
the rest of the buffer as it was; get_record does return `RET_OK` whenever
the read set has room.  The page memory is an argument that get_record only
reads. -/
theorem get_record_copies (K : ArrayConsts) (fuel id payload_size array_size : Nat)
    (root_page_pointer : DualPagePointer) (st : ArrayStoragePimpl) (w0 : World) (offset : Nat)
    (context : Thread) (payload : Nat → Nat) (payload_offset payload_count : Nat)
    (hF : 2 ≤ K.INTERIOR_FANOUT) (hF16 : K.INTERIOR_FANOUT ≤ 2 ^ 16)
    (hN : 1 ≤ array_size) (h64 : array_size < 2 ^ 64)
    (hr : 1 ≤ K.DATA_SIZE / (align8 payload_size + K.RECORD_OVERHEAD))
    (hst : ArrayStoragePimpl.construct K fuel id payload_size array_size root_page_pointer true
      = some st)
    (hinj : Function.Injective w0.supply) (hnz : ∀ n, w0.supply n ≠ 0)
    (hempty : w0.grabbed = []) (ho : offset < array_size)
    (hpayload : payload_offset + payload_count ≤ payload_size) :
    ∃ leaf,
      (∀ fuel2, st.levels_ ≤ fuel2 →
        (st.create K w0).2.1.lookup (st.create K w0).2.2.pages fuel2 offset =
          some (ErrorCode.RET_OK, some leaf)) ∧
      ((st.create K w0).2.2.pages leaf).array_range_.begin_ ≤ offset ∧
      offset - ((st.create K w0).2.2.pages leaf).array_range_.begin_ <
        K.DATA_SIZE / (align8 payload_size + K.RECORD_OVERHEAD) ∧
      (∀ fuel2 context2 payload2,
        (st.create K w0).2.1.get_record (st.create K w0).2.2.pages fuel2 context offset payload
          payload_offset payload_count = some (ErrorCode.RET_OK, context2, payload2) →
        context2.current_xct_.read_set_ = context.current_xct_.read_set_ ++
          [{ page := leaf
             index := offset - ((st.create K w0).2.2.pages leaf).array_range_.begin_
             observed_owner_id_ := (((st.create K w0).2.2.pages leaf).leaf
               (offset - ((st.create K w0).2.2.pages leaf).array_range_.begin_)).owner_id_ }] ∧
        context2.current_xct_.max_read_set_size_ = context.current_xct_.max_read_set_size_ ∧
        (∀ i, i < payload_count →
          payload2 i = (((st.create K w0).2.2.pages leaf).leaf
            (offset - ((st.create K w0).2.2.pages leaf).array_range_.begin_)).payload_
              (payload_offset + i) ∧ payload_offset + i < payload_size) ∧
        (∀ i, payload_count ≤ i → payload2 i = payload i)) ∧
      (context.current_xct_.read_set_.length < context.current_xct_.max_read_set_size_ →
        ∀ fuel2, st.levels_ ≤ fuel2 → ∃ context2 payload2,
          (st.create K w0).2.1.get_record (st.create K w0).2.2.pages fuel2 context offset payload
            payload_offset payload_count = some (ErrorCode.RET_OK, context2, payload2)) := by
  obtain ⟨c, w, st2, hcreate, hplan, hsize, hiv0, hb, _, hroot, _, _, hiv⟩ := create_built K fuel
    id payload_size array_size root_page_pointer st w0 hF hN hr hst hinj hnz hempty
  rw [hcreate]
  simp only
  have hlook := fun fuel2 hfuel => built_lookup K st st2 c w hplan hb hroot hiv hF16
    (by rw [hsize]; exact h64) offset (by rw [hsize]; exact ho) fuel2 hfuel
  obtain ⟨_, hbeg, _, hidx⟩ := hb.leaf_contains hplan offset (by rw [hsize]; exact ho)
  have hle : offset / st.interval 0 * st.interval 0 ≤ offset := Nat.div_mul_le_self _ _
  have hsub : sub_u64 offset
      (w.pages ((level_pages w 0).getD (offset / st.interval 0) 0)).array_range_.begin_ =
      offset - (w.pages ((level_pages w 0).getD (offset / st.interval 0) 0)).array_range_.begin_ :=
    sub_u64_eq _ _ (by rw [hbeg]; exact hle) (by omega)
  refine ⟨_, hlook, by rw [hbeg]; exact hle, by rw [hbeg, ← hiv0]; exact hidx, ?_, ?_⟩
  · intro fuel2 context2 payload2 hget
    have hl : st2.lookup w.pages fuel2 offset =
        some (ErrorCode.RET_OK, some ((level_pages w 0).getD (offset / st.interval 0) 0)) := by
      cases hlk : st2.lookup w.pages fuel2 offset with
      | none => rw [get_record_none _ _ _ _ _ _ _ _ hlk] at hget; cases hget
      | some r =>
        have h1 := lookup_loop_mono_le _ _ _ _ _ _ _ (Nat.le_max_left fuel2 st.levels_) hlk
        have h2 := hlook (max fuel2 st.levels_) (Nat.le_max_right _ _)
        unfold ArrayStoragePimpl.lookup at h2
        rw [h1] at h2
        rw [Option.some.inj h2]
    rw [get_record_of_lookup _ _ _ _ _ _ _ _ _ hl, hsub] at hget
    by_cases hfull : context.current_xct_.max_read_set_size_ ≤
        context.current_xct_.read_set_.length
    · rw [if_pos hfull] at hget
      cases hget
    · rw [if_neg hfull] at hget
      have h3 := Option.some.inj hget
      have h4 := (Prod.mk.inj (Prod.mk.inj h3).2)
      rw [← h4.1, ← h4.2]
      refine ⟨rfl, rfl, ?_, ?_⟩
      · intro i hi
        refine ⟨?_, by omega⟩
        unfold memcpy_payload
        rw [if_pos hi]
      · intro i hi
        unfold memcpy_payload
        rw [if_neg (by omega)]
  · intro hroom fuel2 hfuel
    rw [get_record_of_lookup _ _ _ _ _ _ _ _ _ (hlook fuel2 hfuel), if_neg (by omega)]
    exact ⟨_, _, rfl⟩

/-- Reading record 4 of the array of five records with an empty read set of
capacity one. -/
theorem get_record_copies_witness :
    (2 ≤ small_consts.INTERIOR_FANOUT ∧ (4 : Nat) < 5 ∧ 2 + 6 ≤ 8) ∧
    ∃ leaf,
      (∀ fuel2, small_storage.levels_ ≤ fuel2 →
        small_created.2.1.lookup small_created.2.2.pages fuel2 4 =
          some (ErrorCode.RET_OK, some leaf)) ∧
      (small_created.2.2.pages leaf).array_range_.begin_ ≤ 4 ∧
      4 - (small_created.2.2.pages leaf).array_range_.begin_ < 32 / (align8 8 + 8) ∧
      (∀ fuel2 context2 payload2,
        small_created.2.1.get_record small_created.2.2.pages fuel2 small_thread 4 (fun _ => 9) 2 6
          = some (ErrorCode.RET_OK, context2, payload2) →
        context2.current_xct_.read_set_ = [] ++
          [{ page := leaf
             index := 4 - (small_created.2.2.pages leaf).array_range_.begin_
             observed_owner_id_ := ((small_created.2.2.pages leaf).leaf
               (4 - (small_created.2.2.pages leaf).array_range_.begin_)).owner_id_ }] ∧
        context2.current_xct_.max_read_set_size_ = 1 ∧
        (∀ i, i < 6 →
          payload2 i = ((small_created.2.2.pages leaf).leaf
            (4 - (small_created.2.2.pages leaf).array_range_.begin_)).payload_ (2 + i) ∧
            2 + i < 8) ∧
        (∀ i, 6 ≤ i → payload2 i = 9)) ∧
      ((0 : Nat) < 1 →
        ∀ fuel2, small_storage.levels_ ≤ fuel2 → ∃ context2 payload2,
          small_created.2.1.get_record small_created.2.2.pages fuel2 small_thread 4 (fun _ => 9) 2 6
            = some (ErrorCode.RET_OK, context2, payload2)) :=
  ⟨⟨by decide, by decide, by decide⟩,
    get_record_copies small_consts 9 7 8 5 DualPagePointer.null small_storage small_world 4
      small_thread (fun _ => 9) 2 6 (by decide) (by decide) (by decide) (by decide) (by decide)
      small_storage_eq small_world_inj small_world_nonzero rfl (by decide) (by decide)⟩

/-- C11: on a built array, for `offset < array_size` and
`payload_offset + payload_count ≤ payload_size`, lookup returns a leaf, and
every run of overwrite_record that returns `RET_OK` has reserved exactly
`calculate_log_length payload_count` bytes of the thread's log buffer (the
tail moves by that much and stays inside the buffer), has written at the
reserved address the entry with the storage id, the offset, the payload
offset, the payload count and the first `payload_count` bytes of the caller's
buffer, has left every other address of the log buffer as it was, and has
appended exactly one entry to the write set: the record at index
`offset - range.begin` of that leaf, paired with the address of the log
entry.  The run does return `RET_OK` whenever the log buffer has room for the
entry and the write set is not full.  `calculate_log_length` is a parameter
whose value fits the `uint16_t` it is stored in. -/
theorem overwrite_record_logs (calculate_log_length : Nat → Nat) (K : ArrayConsts)
    (fuel id payload_size array_size : Nat)
    (root_page_pointer : DualPagePointer) (st : ArrayStoragePimpl) (w0 : World) (offset : Nat)
    (context : Thread) (payload : Nat → Nat) (payload_offset payload_count : Nat)
    (hF : 2 ≤ K.INTERIOR_FANOUT) (hF16 : K.INTERIOR_FANOUT ≤ 2 ^ 16)
    (hN : 1 ≤ array_size) (h64 : array_size < 2 ^ 64)
    (hr : 1 ≤ K.DATA_SIZE / (align8 payload_size + K.RECORD_OVERHEAD))
    (hst : ArrayStoragePimpl.construct K fuel id payload_size array_size root_page_pointer true
      = some st)
    (hinj : Function.Injective w0.supply) (hnz : ∀ n, w0.supply n ≠ 0)
    (hempty : w0.grabbed = []) (ho : offset < array_size)
    (hpayload : payload_offset + payload_count ≤ payload_size)
    (hlen : calculate_log_length payload_count < 2 ^ 16) :
    ∃ leaf,
      (∀ fuel2, st.levels_ ≤ fuel2 →
        (st.create K w0).2.1.lookup (st.create K w0).2.2.pages fuel2 offset =
          some (ErrorCode.RET_OK, some leaf)) ∧
      ((st.create K w0).2.2.pages leaf).array_range_.begin_ ≤ offset ∧
      offset - ((st.create K w0).2.2.pages leaf).array_range_.begin_ <
        K.DATA_SIZE / (align8 payload_size + K.RECORD_OVERHEAD) ∧
      (∀ fuel2 context2 pages2,
        (st.create K w0).2.1.overwrite_record calculate_log_length (st.create K w0).2.2.pages
          fuel2 context offset payload payload_offset payload_count =
            some (ErrorCode.RET_OK, context2, pages2) →
        context2.thread_log_buffer_.offset_tail_ =
          context.thread_log_buffer_.offset_tail_ + calculate_log_length payload_count ∧
        context2.thread_log_buffer_.offset_tail_ ≤ context.thread_log_buffer_.buffer_size_ ∧
        context2.thread_log_buffer_.buffer_size_ = context.thread_log_buffer_.buffer_size_ ∧
        context2.thread_log_buffer_.buffer_ context.thread_log_buffer_.offset_tail_ =
          some { storage_id_ := id
                 offset_ := offset
                 payload_offset_ := payload_offset
                 payload_count_ := payload_count
                 payload_ := (List.range payload_count).map payload } ∧
        (∀ i, i < payload_count → payload_offset + i < payload_size) ∧
        (∀ a, a ≠ context.thread_log_buffer_.offset_tail_ →
          context2.thread_log_buffer_.buffer_ a = context.thread_log_buffer_.buffer_ a) ∧
        context2.current_xct_.write_set_ = context.current_xct_.write_set_ ++
          [{ page := leaf
             index := offset - ((st.create K w0).2.2.pages leaf).array_range_.begin_
             log_entry_ := context.thread_log_buffer_.offset_tail_ }]) ∧
      (context.thread_log_buffer_.offset_tail_ + calculate_log_length payload_count ≤
          context.thread_log_buffer_.buffer_size_ →
        context.current_xct_.write_set_.length < context.current_xct_.max_write_set_size_ →
        ∀ fuel2, st.levels_ ≤ fuel2 → ∃ context2 pages2,
          (st.create K w0).2.1.overwrite_record calculate_log_length (st.create K w0).2.2.pages
            fuel2 context offset payload payload_offset payload_count =
              some (ErrorCode.RET_OK, context2, pages2)) := by
  obtain ⟨leaf, hlook, huniq, _, _, hbeg, hidx, hsub, hid⟩ := created_record K fuel id
    payload_size array_size root_page_pointer st w0 offset hF hF16 hN h64 hr hst hinj hnz hempty ho
  have hmod : calculate_log_length payload_count % 2 ^ 16 = calculate_log_length payload_count :=
    Nat.mod_eq_of_lt hlen
  refine ⟨leaf, hlook, hbeg, hidx, ?_, ?_⟩
  · intro fuel2 context2 pages2 hrun
    have hl : (st.create K w0).2.1.lookup (st.create K w0).2.2.pages fuel2 offset =
        some (ErrorCode.RET_OK, some leaf) := by
      cases hlk : (st.create K w0).2.1.lookup (st.create K w0).2.2.pages fuel2 offset with
      | none => rw [overwrite_record_none _ _ _ _ _ _ _ _ _ hlk] at hrun; cases hrun
      | some r => rw [huniq fuel2 r hlk]
    rw [overwrite_record_of_lookup _ _ _ _ _ _ _ _ _ leaf hl, hsub, hmod, hid] at hrun
    by_cases hroom : context.thread_log_buffer_.offset_tail_ + calculate_log_length payload_count ≤
        context.thread_log_buffer_.buffer_size_
    · rw [if_pos hroom] at hrun
      by_cases hfull : context.current_xct_.max_write_set_size_ ≤
          context.current_xct_.write_set_.length
      · rw [if_pos hfull] at hrun
        cases hrun
      · rw [if_neg hfull] at hrun
        have h3 := Option.some.inj hrun
        have h4 := (Prod.mk.inj (Prod.mk.inj h3).2).1
        rw [← h4]
        refine ⟨rfl, hroom, rfl, ?_, ?_, ?_, rfl⟩
        · simp only [Function.update_same]
          rfl
        · intro i hi
          omega
        · intro a ha
          simp only [Function.update_noteq ha]
    · rw [if_neg hroom] at hrun
      cases hrun
  · intro hroom hset fuel2 hfuel
    rw [overwrite_record_of_lookup _ _ _ _ _ _ _ _ _ leaf (hlook fuel2 hfuel), hmod,
      if_pos hroom, if_neg (by omega)]
    exact ⟨_, _, rfl⟩

/-- Overwriting six bytes of record 4 of the array of five records, with a
log length of 24 bytes in an empty log buffer of 64 bytes. -/
theorem overwrite_record_logs_witness :
    (2 ≤ small_consts.INTERIOR_FANOUT ∧ (4 : Nat) < 5 ∧ 2 + 6 ≤ 8 ∧
      small_calculate_log_length 6 < 2 ^ 16) ∧
    ∃ leaf,
      (∀ fuel2, small_storage.levels_ ≤ fuel2 →
        small_created.2.1.lookup small_created.2.2.pages fuel2 4 =
          some (ErrorCode.RET_OK, some leaf)) ∧
      (small_created.2.2.pages leaf).array_range_.begin_ ≤ 4 ∧
      4 - (small_created.2.2.pages leaf).array_range_.begin_ < 32 / (align8 8 + 8) ∧
      (∀ fuel2 context2 pages2,
        small_created.2.1.overwrite_record small_calculate_log_length small_created.2.2.pages
          fuel2 small_thread 4 (fun i => 17 + i) 2 6 =
            some (ErrorCode.RET_OK, context2, pages2) →
        context2.thread_log_buffer_.offset_tail_ = 0 + small_calculate_log_length 6 ∧
        context2.thread_log_buffer_.offset_tail_ ≤ 64 ∧
        context2.thread_log_buffer_.buffer_size_ = 64 ∧
        context2.thread_log_buffer_.buffer_ 0 =
          some { storage_id_ := 7
                 offset_ := 4
                 payload_offset_ := 2
                 payload_count_ := 6
                 payload_ := (List.range 6).map (fun i => 17 + i) } ∧
        (∀ i, i < 6 → 2 + i < 8) ∧
        (∀ a, a ≠ 0 → context2.thread_log_buffer_.buffer_ a = none) ∧
        context2.current_xct_.write_set_ = [] ++
          [{ page := leaf
             index := 4 - (small_created.2.2.pages leaf).array_range_.begin_
             log_entry_ := 0 }]) ∧
      (0 + small_calculate_log_length 6 ≤ 64 →
        (0 : Nat) < 1 →
        ∀ fuel2, small_storage.levels_ ≤ fuel2 → ∃ context2 pages2,
          small_created.2.1.overwrite_record small_calculate_log_length small_created.2.2.pages
            fuel2 small_thread 4 (fun i => 17 + i) 2 6 =
              some (ErrorCode.RET_OK, context2, pages2)) :=
  ⟨⟨by decide, by decide, by decide, by decide⟩,
    overwrite_record_logs small_calculate_log_length small_consts 9 7 8 5 DualPagePointer.null
      small_storage small_world 4 small_thread (fun i => 17 + i) 2 6 (by decide) (by decide)
      (by decide) (by decide) (by decide) small_storage_eq small_world_inj small_world_nonzero
      rfl (by decide) (by decide) (by decide)⟩

/-- C12: overwrite_record does not write to a page.  For every storage
object, page memory, thread and arguments, whenever overwrite_record returns
(with whatever code), the page memory afterwards is the page memory before
(record headers and payloads, ranges and child pointers alike), the read set
and the capacities of the read set, of the write set and of the log buffer
are as before: only the contents and the tail of the thread's log buffer and
the write set can differ. -/
theorem overwrite_record_frame (calculate_log_length : Nat → Nat) (self : ArrayStoragePimpl)
    (pages : Nat → ArrayPage) (fuel : Nat) (context : Thread) (offset : Nat)
    (payload : Nat → Nat) (payload_offset payload_count : Nat) (e : ErrorCode)
    (context2 : Thread) (pages2 : Nat → ArrayPage)
    (h : self.overwrite_record calculate_log_length pages fuel context offset payload
      payload_offset payload_count = some (e, context2, pages2)) :
    pages2 = pages ∧
    context2.current_xct_.read_set_ = context.current_xct_.read_set_ ∧
    context2.current_xct_.max_read_set_size_ = context.current_xct_.max_read_set_size_ ∧
    context2.current_xct_.max_write_set_size_ = context.current_xct_.max_write_set_size_ ∧
    context2.thread_log_buffer_.buffer_size_ = context.thread_log_buffer_.buffer_size_ :=
  overwrite_record_unchanged calculate_log_length self pages fuel context offset payload
    payload_offset payload_count e context2 pages2 h

/-- The overwrite of record 4 of the array of five records leaves the page
memory as create has built it. -/
theorem overwrite_record_frame_witness :
    small_created.2.1.overwrite_record small_calculate_log_length small_created.2.2.pages 3
      small_thread 4 (fun i => 17 + i) 0 8 =
        some (ErrorCode.RET_OK, small_overwritten_thread, small_created.2.2.pages) ∧
    (small_created.2.2.pages = small_created.2.2.pages ∧
      small_overwritten_thread.current_xct_.read_set_ = small_thread.current_xct_.read_set_ ∧
      small_overwritten_thread.current_xct_.max_read_set_size_ =
        small_thread.current_xct_.max_read_set_size_ ∧
      small_overwritten_thread.current_xct_.max_write_set_size_ =
        small_thread.current_xct_.max_write_set_size_ ∧
      small_overwritten_thread.thread_log_buffer_.buffer_size_ =
        small_thread.thread_log_buffer_.buffer_size_) :=
  ⟨rfl, overwrite_record_frame small_calculate_log_length small_created.2.1
    small_created.2.2.pages 3 small_thread 4 (fun i => 17 + i) 0 8 ErrorCode.RET_OK
    small_overwritten_thread small_created.2.2.pages rfl⟩

/-- C13, as the code has it: on a built array, for `offset < array_size` and
`payload_offset + payload_count ≤ payload_size`, an overwrite_record of the
bytes `b` followed by a get_record in the same transaction does not deliver
`b`.  Whenever both return `RET_OK`, the page memory that get_record reads is
the one create has built, the caller's buffer receives the `payload_count`
bytes `record.payload[payload_offset ..]` that the record held before the
overwrite (the same bytes for every `b`, and the same buffer that a
get_record without the overwrite fills), the rest of the buffer is as it was,
and `b` is held by the log entry at the address that the write set pairs
with the record.  Both calls do return `RET_OK` when the log buffer, the write
set and the read set have room. -/
theorem overwrite_then_get_record (calculate_log_length : Nat → Nat) (K : ArrayConsts)
    (fuel id payload_size array_size : Nat)
    (root_page_pointer : DualPagePointer) (st : ArrayStoragePimpl) (w0 : World) (offset : Nat)
    (context : Thread) (b buf : Nat → Nat) (payload_offset payload_count : Nat)
    (hF : 2 ≤ K.INTERIOR_FANOUT) (hF16 : K.INTERIOR_FANOUT ≤ 2 ^ 16)
    (hN : 1 ≤ array_size) (h64 : array_size < 2 ^ 64)
    (hr : 1 ≤ K.DATA_SIZE / (align8 payload_size + K.RECORD_OVERHEAD))
    (hst : ArrayStoragePimpl.construct K fuel id payload_size array_size root_page_pointer true
      = some st)
    (hinj : Function.Injective w0.supply) (hnz : ∀ n, w0.supply n ≠ 0)
    (hempty : w0.grabbed = []) (ho : offset < array_size)
    (hpayload : payload_offset + payload_count ≤ payload_size) :
    ∃ leaf,
      (∀ fuel2, st.levels_ ≤ fuel2 →
        (st.create K w0).2.1.lookup (st.create K w0).2.2.pages fuel2 offset =
          some (ErrorCode.RET_OK, some leaf)) ∧
      (∀ fuel2 fuel3 context2 pages2 context3 buf3,
        (st.create K w0).2.1.overwrite_record calculate_log_length (st.create K w0).2.2.pages
          fuel2 context offset b payload_offset payload_count =
            some (ErrorCode.RET_OK, context2, pages2) →
        (st.create K w0).2.1.get_record pages2 fuel3 context2 offset buf payload_offset
          payload_count = some (ErrorCode.RET_OK, context3, buf3) →
        pages2 = (st.create K w0).2.2.pages ∧
        (∀ i, i < payload_count →
          buf3 i = (((st.create K w0).2.2.pages leaf).leaf
            (offset - ((st.create K w0).2.2.pages leaf).array_range_.begin_)).payload_
              (payload_offset + i) ∧ payload_offset + i < payload_size) ∧
        (∀ i, payload_count ≤ i → buf3 i = buf i) ∧
        (∀ context1 buf1,
          (st.create K w0).2.1.get_record (st.create K w0).2.2.pages fuel3 context offset buf
            payload_offset payload_count = some (ErrorCode.RET_OK, context1, buf1) →
          buf1 = buf3) ∧
        context3.thread_log_buffer_.buffer_ context.thread_log_buffer_.offset_tail_ =
          some { storage_id_ := id
                 offset_ := offset
                 payload_offset_ := payload_offset
                 payload_count_ := payload_count
                 payload_ := (List.range payload_count).map b } ∧
        context3.current_xct_.write_set_ = context.current_xct_.write_set_ ++
          [{ page := leaf
             index := offset - ((st.create K w0).2.2.pages leaf).array_range_.begin_
             log_entry_ := context.thread_log_buffer_.offset_tail_ }]) ∧
      (context.thread_log_buffer_.offset_tail_ + calculate_log_length payload_count % 2 ^ 16 ≤
          context.thread_log_buffer_.buffer_size_ →
        context.current_xct_.write_set_.length < context.current_xct_.max_write_set_size_ →
        context.current_xct_.read_set_.length < context.current_xct_.max_read_set_size_ →
        ∀ fuel2, st.levels_ ≤ fuel2 → ∃ context2 context3 buf3,
          (st.create K w0).2.1.overwrite_record calculate_log_length (st.create K w0).2.2.pages
            fuel2 context offset b payload_offset payload_count =
              some (ErrorCode.RET_OK, context2, (st.create K w0).2.2.pages) ∧
          (st.create K w0).2.1.get_record (st.create K w0).2.2.pages fuel2 context2 offset buf
            payload_offset payload_count = some (ErrorCode.RET_OK, context3, buf3)) := by
  obtain ⟨leaf, hlook, huniq, _, _, hbeg, hidx, hsub, hid⟩ := created_record K fuel id
    payload_size array_size root_page_pointer st w0 offset hF hF16 hN h64 hr hst hinj hnz hempty ho
  have hfound : ∀ fuel2, (st.create K w0).2.1.lookup (st.create K w0).2.2.pages fuel2 offset ≠ none →
      (st.create K w0).2.1.lookup (st.create K w0).2.2.pages fuel2 offset =
        some (ErrorCode.RET_OK, some leaf) := by
    intro fuel2 hne
    cases hlk : (st.create K w0).2.1.lookup (st.create K w0).2.2.pages fuel2 offset with
    | none => exact absurd hlk hne
    | some r => rw [huniq fuel2 r hlk]
  refine ⟨leaf, hlook, ?_, ?_⟩
  · intro fuel2 fuel3 context2 pages2 context3 buf3 hrun hget
    have hframe := overwrite_record_unchanged calculate_log_length _ _ _ _ _ _ _ _ _ _ _ hrun
    have hl2 := hfound fuel2 (by
      intro hlk
      rw [overwrite_record_none _ _ _ _ _ _ _ _ _ hlk] at hrun
      cases hrun)
    rw [hframe.1] at hget
    have hl3 := hfound fuel3 (by
      intro hlk
      rw [get_record_none _ _ _ _ _ _ _ _ hlk] at hget
      cases hget)
    rw [overwrite_record_of_lookup _ _ _ _ _ _ _ _ _ leaf hl2, hsub, hid] at hrun
    rw [get_record_of_lookup _ _ _ _ _ _ _ _ _ hl3, hsub] at hget
    have hbuf : buf3 = memcpy_payload buf
        (((st.create K w0).2.2.pages leaf).leaf
          (offset - ((st.create K w0).2.2.pages leaf).array_range_.begin_))
        payload_offset payload_count ∧
        context3.thread_log_buffer_ = context2.thread_log_buffer_ ∧
        context3.current_xct_.write_set_ = context2.current_xct_.write_set_ := by
      split at hget
      · cases hget
      · have h3 := Prod.mk.inj (Prod.mk.inj (Option.some.inj hget)).2
        rw [← h3.1, ← h3.2]
        exact ⟨rfl, rfl, rfl⟩
    have hctx : context2.thread_log_buffer_.buffer_ context.thread_log_buffer_.offset_tail_ =
          some { storage_id_ := id
                 offset_ := offset
                 payload_offset_ := payload_offset
                 payload_count_ := payload_count
                 payload_ := (List.range payload_count).map b } ∧
        context2.current_xct_.write_set_ = context.current_xct_.write_set_ ++
          [{ page := leaf
             index := offset - ((st.create K w0).2.2.pages leaf).array_range_.begin_
             log_entry_ := context.thread_log_buffer_.offset_tail_ }] := by
      split at hrun
      · split at hrun
        · cases hrun
        · have h3 := Prod.mk.inj (Prod.mk.inj (Option.some.inj hrun)).2
          rw [← h3.1]
          refine ⟨?_, rfl⟩
          simp only [Function.update_same]
          rfl
      · cases hrun
    refine ⟨hframe.1, ?_, ?_, ?_, ?_, ?_⟩
    · intro i hi
      refine ⟨?_, by omega⟩
      rw [hbuf.1]
      unfold memcpy_payload
      rw [if_pos hi]
    · intro i hi
      rw [hbuf.1]
      unfold memcpy_payload
      rw [if_neg (by omega)]
    · intro context1 buf1 hget1
      rw [get_record_of_lookup _ _ _ _ _ _ _ _ _ hl3, hsub] at hget1
      rw [hbuf.1]
      split at hget1
      · cases hget1
      · exact (Prod.mk.inj (Prod.mk.inj (Option.some.inj hget1)).2).2.symm
    · rw [hbuf.2.1]
      exact hctx.1
    · rw [hbuf.2.2]
      exact hctx.2
  · intro hroom hset hread fuel2 hfuel
    have hex : ∃ context2,
        (st.create K w0).2.1.overwrite_record calculate_log_length (st.create K w0).2.2.pages
          fuel2 context offset b payload_offset payload_count =
            some (ErrorCode.RET_OK, context2, (st.create K w0).2.2.pages) := by
      rw [overwrite_record_of_lookup _ _ _ _ _ _ _ _ _ leaf (hlook fuel2 hfuel), if_pos hroom,
        if_neg (by omega)]
      exact ⟨_, rfl⟩
    obtain ⟨context2, hrun⟩ := hex
    have hframe := overwrite_record_unchanged calculate_log_length _ _ _ _ _ _ _ _ _ _ _ hrun
    refine ⟨context2, ?_⟩
    rw [get_record_of_lookup _ _ _ _ _ _ _ _ _ (hlook fuel2 hfuel), hframe.2.1, hframe.2.2.1,
      if_neg (by omega)]
    exact ⟨_, _, hrun, rfl⟩

/-- Overwriting the payload of record 4 of the array of five records and
reading it back in the same transaction. -/
theorem overwrite_then_get_record_witness :
    (2 ≤ small_consts.INTERIOR_FANOUT ∧ (4 : Nat) < 5 ∧ 0 + 8 ≤ 8) ∧
    ∃ leaf,
      (∀ fuel2, small_storage.levels_ ≤ fuel2 →
        small_created.2.1.lookup small_created.2.2.pages fuel2 4 =
          some (ErrorCode.RET_OK, some leaf)) ∧
      (∀ fuel2 fuel3 context2 pages2 context3 buf3,
        small_created.2.1.overwrite_record small_calculate_log_length small_created.2.2.pages
          fuel2 small_thread 4 (fun i => 17 + i) 0 8 =
            some (ErrorCode.RET_OK, context2, pages2) →
        small_created.2.1.get_record pages2 fuel3 context2 4 (fun _ => 9) 0 8 =
          some (ErrorCode.RET_OK, context3, buf3) →
        pages2 = small_created.2.2.pages ∧
        (∀ i, i < 8 →
          buf3 i = ((small_created.2.2.pages leaf).leaf
            (4 - (small_created.2.2.pages leaf).array_range_.begin_)).payload_ (0 + i) ∧
            0 + i < 8) ∧
        (∀ i, 8 ≤ i → buf3 i = 9) ∧
        (∀ context1 buf1,
          small_created.2.1.get_record small_created.2.2.pages fuel3 small_thread 4 (fun _ => 9)
            0 8 = some (ErrorCode.RET_OK, context1, buf1) →
          buf1 = buf3) ∧
        context3.thread_log_buffer_.buffer_ 0 =
          some { storage_id_ := 7
                 offset_ := 4
                 payload_offset_ := 0
                 payload_count_ := 8
                 payload_ := (List.range 8).map (fun i => 17 + i) } ∧
        context3.current_xct_.write_set_ = [] ++
          [{ page := leaf
             index := 4 - (small_created.2.2.pages leaf).array_range_.begin_
             log_entry_ := 0 }]) ∧
      (0 + small_calculate_log_length 8 % 2 ^ 16 ≤ 64 →
        (0 : Nat) < 1 →
        (0 : Nat) < 1 →
        ∀ fuel2, small_storage.levels_ ≤ fuel2 → ∃ context2 context3 buf3,
          small_created.2.1.overwrite_record small_calculate_log_length small_created.2.2.pages
            fuel2 small_thread 4 (fun i => 17 + i) 0 8 =
              some (ErrorCode.RET_OK, context2, small_created.2.2.pages) ∧
          small_created.2.1.get_record small_created.2.2.pages fuel2 context2 4 (fun _ => 9)
            0 8 = some (ErrorCode.RET_OK, context3, buf3)) :=
  ⟨⟨by decide, by decide, by decide⟩,
    overwrite_then_get_record small_calculate_log_length small_consts 9 7 8 5
      DualPagePointer.null small_storage small_world 4 small_thread (fun i => 17 + i)
      (fun _ => 9) 0 8 (by decide) (by decide) (by decide) (by decide) (by decide)
      small_storage_eq small_world_inj small_world_nonzero rfl (by decide) (by decide)⟩

/-- C13 does not hold as stated.  On the array of five records, with room in
the log buffer, the write set and the read set, overwrite_record of record 4
with the eight bytes 17 .. 24 returns `RET_OK`, and the get_record of the same
record that follows in the same transaction returns `RET_OK` and fills the
buffer with the eight bytes 0 that the record holds since create, not with
the bytes overwritten.  The same eight bytes come back after an overwrite
with the bytes 33 .. 40, so that the buffer cannot hold the bytes overwritten
in both cases, whatever the record held. -/
theorem overwrite_then_get_record_counterexample :
    small_created.2.1.overwrite_record small_calculate_log_length small_created.2.2.pages 3
      small_thread 4 (fun i => 17 + i) 0 8 =
        some (ErrorCode.RET_OK, small_overwritten_thread, small_created.2.2.pages) ∧
    (List.range 8).map (fun i => 17 + i) = [17, 18, 19, 20, 21, 22, 23, 24] ∧
    (small_created.2.1.get_record small_created.2.2.pages 3 small_overwritten_thread 4
      (fun _ => 9) 0 8).map (fun r => (r.1, (List.range 8).map r.2.2)) =
        some (ErrorCode.RET_OK, [0, 0, 0, 0, 0, 0, 0, 0]) ∧
    ((small_created.2.1.overwrite_record small_calculate_log_length small_created.2.2.pages 3
      small_thread 4 (fun i => 33 + i) 0 8).bind
        (fun r => small_created.2.1.get_record r.2.2 3 r.2.1 4 (fun _ => 9) 0 8)).map
          (fun r => (r.1, (List.range 8).map r.2.2)) =
        some (ErrorCode.RET_OK, [0, 0, 0, 0, 0, 0, 0, 0]) :=
  ⟨rfl, rfl, by decide, by decide⟩

/-- C14: get_record hands the failure of the read-set insertion, and the
failure of lookup, to its caller without writing the caller's buffer.  For
every storage object, page memory, thread and arguments: when lookup has
returned a page and `add_to_read_set` returns a code other than `RET_OK`,
get_record returns that code and the buffer is the one passed in; when the
read set is full this code is `READ_SET_OVERFLOW` and the thread context is
unchanged as well; and when lookup returns a code other than `RET_OK`,
get_record returns that code with the thread context (the read set included)
and the buffer as they were. -/
theorem get_record_read_set_overflow (self : ArrayStoragePimpl) (pages : Nat → ArrayPage)
    (fuel : Nat) (context : Thread) (offset : Nat) (payload : Nat → Nat)
    (payload_offset payload_count : Nat) :
    (∀ page e xct, self.lookup pages fuel offset = some (ErrorCode.RET_OK, some page) →
      context.current_xct_.add_to_read_set page
        (sub_u64 offset (pages page).array_range_.begin_)
        ((pages page).leaf (sub_u64 offset (pages page).array_range_.begin_)) = (e, xct) →
      e ≠ ErrorCode.RET_OK →
      self.get_record pages fuel context offset payload payload_offset payload_count =
        some (e, { context with current_xct_ := xct }, payload)) ∧
    (∀ page, self.lookup pages fuel offset = some (ErrorCode.RET_OK, some page) →
      context.current_xct_.max_read_set_size_ ≤ context.current_xct_.read_set_.length →
      self.get_record pages fuel context offset payload payload_offset payload_count =
        some (ErrorCode.READ_SET_OVERFLOW, context, payload)) ∧
    (∀ e out, self.lookup pages fuel offset = some (e, out) → e ≠ ErrorCode.RET_OK →
      self.get_record pages fuel context offset payload payload_offset payload_count =
        some (e, context, payload)) := by
  refine ⟨?_, ?_, ?_⟩
  · intro page e xct hl hadd hne
    unfold ArrayStoragePimpl.get_record
    rw [hl]
    simp only
    rw [hadd]
    cases e with
    | RET_OK => exact absurd rfl hne
    | _ => rfl
  · intro page hl hfull
    rw [get_record_of_lookup _ _ _ _ _ _ _ _ _ hl, if_pos hfull]
  · intro e out hl hne
    unfold ArrayStoragePimpl.get_record
    rw [hl]
    cases e with
    | RET_OK => exact absurd rfl hne
    | _ => rfl

/-- On the array of five records: get_record with a full read set, and
get_record on a page memory in which the root has lost the pointer to the
child that holds record 4. -/
theorem get_record_read_set_overflow_witness :
    (small_created.2.1.lookup small_created.2.2.pages 3 4 = some (ErrorCode.RET_OK, some 5) ∧
      small_created.2.1.get_record small_created.2.2.pages 3 small_full_thread 4 (fun _ => 9)
        0 8 = some (ErrorCode.READ_SET_OVERFLOW,
          { small_full_thread with current_xct_ := small_full_thread.current_xct_ },
          fun _ => 9)) ∧
    ((0 : Nat) ≤ 0 ∧
      small_created.2.1.get_record small_created.2.2.pages 3 small_full_thread 4 (fun _ => 9)
        0 8 = some (ErrorCode.READ_SET_OVERFLOW, small_full_thread, fun _ => 9)) ∧
    (small_created.2.1.lookup small_evicted_pages 3 4 =
        some (ErrorCode.ERROR_CODE_NOTIMPLEMENTED, none) ∧
      small_created.2.1.get_record small_evicted_pages 3 small_thread 4 (fun _ => 9) 0 8 =
        some (ErrorCode.ERROR_CODE_NOTIMPLEMENTED, small_thread, fun _ => 9)) :=
  ⟨⟨by decide,
      (get_record_read_set_overflow small_created.2.1 small_created.2.2.pages 3
        small_full_thread 4 (fun _ => 9) 0 8).1 5 ErrorCode.READ_SET_OVERFLOW
        small_full_thread.current_xct_ (by decide) rfl (by decide)⟩,
    ⟨by decide,
      (get_record_read_set_overflow small_created.2.1 small_created.2.2.pages 3
        small_full_thread 4 (fun _ => 9) 0 8).2.1 5 (by decide) (by decide)⟩,
    ⟨by decide,
      (get_record_read_set_overflow small_created.2.1 small_evicted_pages 3
        small_thread 4 (fun _ => 9) 0 8).2.2 ErrorCode.ERROR_CODE_NOTIMPLEMENTED none
        (by decide) (by decide)⟩⟩

/-- C15, as the code has it: overwrite_record has no `LOG_BUFFER_FULL` result.
For every storage object, page memory, thread and arguments, a run that
returns does not return `LOG_BUFFER_FULL`: the reservation in the log buffer
yields an address, not a code, and the only codes handed to the caller are
the one of lookup and the one of `add_to_write_set`.  On a built array, for
`offset < array_size`: when the log buffer has no room for
`calculate_log_length payload_count` bytes the call does not return; when it
has room the call returns, with `WRITE_SET_OVERFLOW` if the write set is
full and with `RET_OK` otherwise. -/
theorem overwrite_record_errors (calculate_log_length : Nat → Nat) (K : ArrayConsts)
    (fuel id payload_size array_size : Nat)
    (root_page_pointer : DualPagePointer) (st : ArrayStoragePimpl) (w0 : World) (offset : Nat)
    (context : Thread) (payload : Nat → Nat) (payload_offset payload_count : Nat)
    (hF : 2 ≤ K.INTERIOR_FANOUT) (hF16 : K.INTERIOR_FANOUT ≤ 2 ^ 16)
    (hN : 1 ≤ array_size) (h64 : array_size < 2 ^ 64)
    (hr : 1 ≤ K.DATA_SIZE / (align8 payload_size + K.RECORD_OVERHEAD))
    (hst : ArrayStoragePimpl.construct K fuel id payload_size array_size root_page_pointer true
      = some st)
    (hinj : Function.Injective w0.supply) (hnz : ∀ n, w0.supply n ≠ 0)
    (hempty : w0.grabbed = []) (ho : offset < array_size) :
    (∀ (self : ArrayStoragePimpl) (pages : Nat → ArrayPage) (fuel2 : Nat) (context1 : Thread)
        (offset1 : Nat) (e : ErrorCode) (context2 : Thread) (pages2 : Nat → ArrayPage),
      self.overwrite_record calculate_log_length pages fuel2 context1 offset1 payload
        payload_offset payload_count = some (e, context2, pages2) →
      e ≠ ErrorCode.LOG_BUFFER_FULL) ∧
    (context.thread_log_buffer_.buffer_size_ <
        context.thread_log_buffer_.offset_tail_ + calculate_log_length payload_count % 2 ^ 16 →
      ∀ fuel2, (st.create K w0).2.1.overwrite_record calculate_log_length
        (st.create K w0).2.2.pages fuel2 context offset payload payload_offset payload_count =
          none) ∧
    (context.thread_log_buffer_.offset_tail_ + calculate_log_length payload_count % 2 ^ 16 ≤
        context.thread_log_buffer_.buffer_size_ →
      ∀ fuel2, st.levels_ ≤ fuel2 → ∃ e context2,
        (st.create K w0).2.1.overwrite_record calculate_log_length (st.create K w0).2.2.pages
          fuel2 context offset payload payload_offset payload_count =
            some (e, context2, (st.create K w0).2.2.pages) ∧
        (context.current_xct_.max_write_set_size_ ≤ context.current_xct_.write_set_.length →
          e = ErrorCode.WRITE_SET_OVERFLOW ∧
          context2.current_xct_.write_set_ = context.current_xct_.write_set_) ∧
        (context.current_xct_.write_set_.length < context.current_xct_.max_write_set_size_ →
          e = ErrorCode.RET_OK)) := by
  obtain ⟨leaf, hlook, huniq, _, _, _, _, _, _⟩ := created_record K fuel id
    payload_size array_size root_page_pointer st w0 offset hF hF16 hN h64 hr hst hinj hnz hempty ho
  refine ⟨?_, ?_, ?_⟩
  · intro self pages fuel2 context1 offset1 e context2 pages2 hrun
    rcases lookup_cases self pages fuel2 offset1 with hl | hl | ⟨leaf1, _, hl⟩
    · rw [overwrite_record_none _ _ _ _ _ _ _ _ _ hl] at hrun
      cases hrun
    · rw [overwrite_record_notimplemented _ _ _ _ _ _ _ _ _ hl] at hrun
      rw [← (Prod.mk.inj (Option.some.inj hrun)).1]
      decide
    · rw [overwrite_record_of_lookup _ _ _ _ _ _ _ _ _ leaf1 hl] at hrun
      split at hrun
      · split at hrun
        · rw [← (Prod.mk.inj (Option.some.inj hrun)).1]
          decide
        · rw [← (Prod.mk.inj (Option.some.inj hrun)).1]
          decide
      · cases hrun
  · intro hfull fuel2
    cases hlk : (st.create K w0).2.1.lookup (st.create K w0).2.2.pages fuel2 offset with
    | none => exact overwrite_record_none _ _ _ _ _ _ _ _ _ hlk
    | some r =>
      rw [huniq fuel2 r hlk] at hlk
      rw [overwrite_record_of_lookup _ _ _ _ _ _ _ _ _ leaf hlk, if_neg (by omega)]
  · intro hroom fuel2 hfuel
    rw [overwrite_record_of_lookup _ _ _ _ _ _ _ _ _ leaf (hlook fuel2 hfuel), if_pos hroom]
    by_cases hset : context.current_xct_.max_write_set_size_ ≤
        context.current_xct_.write_set_.length
    · rw [if_pos hset]
      exact ⟨_, _, rfl, fun _ => ⟨rfl, rfl⟩, fun h => absurd hset (by omega)⟩
    · rw [if_neg hset]
      exact ⟨_, _, rfl, fun h => absurd h hset, fun _ => rfl⟩

/-- On the array of five records: an overwrite with a log buffer that has
16 bytes left for an entry of 24, and overwrites with a full and with an
empty write set. -/
theorem overwrite_record_errors_witness :
    (2 ≤ small_consts.INTERIOR_FANOUT ∧ (4 : Nat) < 5) ∧
    ((64 : Nat) < 48 + small_calculate_log_length 8 % 2 ^ 16 ∧
      ∀ fuel2, small_created.2.1.overwrite_record small_calculate_log_length
        small_created.2.2.pages fuel2 small_log_full_thread 4 (fun i => 17 + i) 0 8 = none) ∧
    (0 + small_calculate_log_length 8 % 2 ^ 16 ≤ 64 ∧
      ∀ fuel2, small_storage.levels_ ≤ fuel2 → ∃ e context2,
        small_created.2.1.overwrite_record small_calculate_log_length small_created.2.2.pages
          fuel2 small_full_thread 4 (fun i => 17 + i) 0 8 =
            some (e, context2, small_created.2.2.pages) ∧
        ((0 : Nat) ≤ 0 →
          e = ErrorCode.WRITE_SET_OVERFLOW ∧ context2.current_xct_.write_set_ = []) ∧
        ((0 : Nat) < 0 → e = ErrorCode.RET_OK)) :=
  ⟨⟨by decide, by decide⟩,
    ⟨by decide,
      (overwrite_record_errors small_calculate_log_length small_consts 9 7 8 5
        DualPagePointer.null small_storage small_world 4 small_log_full_thread
        (fun i => 17 + i) 0 8 (by decide) (by decide) (by decide) (by decide) (by decide)
        small_storage_eq small_world_inj small_world_nonzero rfl (by decide)).2.1 (by decide)⟩,
    ⟨by decide,
      (overwrite_record_errors small_calculate_log_length small_consts 9 7 8 5
        DualPagePointer.null small_storage small_world 4 small_full_thread
        (fun i => 17 + i) 0 8 (by decide) (by decide) (by decide) (by decide) (by decide)
        small_storage_eq small_world_inj small_world_nonzero rfl (by decide)).2.2 (by decide)⟩⟩

/-- C15 does not hold as stated.  On the array of five records, with a log
buffer of 64 bytes of which 48 are reserved and a log length of 24 bytes for
a payload of 8, the log buffer cannot reserve the entry, and
overwrite_record does not return `LOG_BUFFER_FULL`: it returns no code at
all. -/
theorem overwrite_record_log_buffer_full_counterexample :
    small_log_full_thread.thread_log_buffer_.buffer_size_ <
      small_log_full_thread.thread_log_buffer_.offset_tail_ + small_calculate_log_length 8 ∧
    (small_created.2.1.overwrite_record small_calculate_log_length small_created.2.2.pages 3
      small_log_full_thread 4 (fun i => 17 + i) 0 8).map (fun r => r.1) ≠
        some ErrorCode.LOG_BUFFER_FULL ∧
    (small_created.2.1.overwrite_record small_calculate_log_length small_created.2.2.pages 3
      small_log_full_thread 4 (fun i => 17 + i) 0 8).map (fun r => r.1) = none :=
  ⟨by decide, by decide, by decide⟩

/-- C16: lookup returns `ERROR_CODE_NOTIMPLEMENTED` exactly when the child
pointer selected at some interior page of its walk has the volatile offset 0.
For every storage object whose `root_page_` is not null (the source
dereferences it without a check), every page memory and every offset,
`lookup_walk` is the walk: it starts at the root, and it makes a step exactly
from an interior page, to the non-zero volatile offset of the pointer
selected there.  If a page of the walk after `n` steps is interior and its
selected pointer has offset 0, lookup returns `ERROR_CODE_NOTIMPLEMENTED` as
soon as it may make more than `n` iterations; if that page is a leaf (so that
every pointer selected before had a non-zero offset), lookup returns `RET_OK`
with that leaf.  And whenever lookup returns, the code is
`ERROR_CODE_NOTIMPLEMENTED` if and only if the walk has such an interior page,
in which case no page is written to the output, and otherwise the result is
`RET_OK` with the leaf at which the walk ends. -/
theorem lookup_notimplemented (self : ArrayStoragePimpl) (pages : Nat → ArrayPage)
    (offset root : Nat) (hroot : self.root_page_ = some root) :
    self.lookup_walk pages offset 0 = some root ∧
    (∀ fuel, self.lookup pages fuel offset = lookup_loop self pages offset fuel root) ∧
    (∀ n q, self.lookup_walk pages offset (n + 1) = some q ↔
      ∃ p, self.lookup_walk pages offset n = some p ∧ (pages p).is_leaf = false ∧
        (self.selected_pointer pages offset p).volatile_pointer_.offset = q ∧ q ≠ 0) ∧
    (∀ n p, self.lookup_walk pages offset n = some p → (pages p).is_leaf = false →
      (self.selected_pointer pages offset p).volatile_pointer_.offset = 0 →
      ∀ fuel, n < fuel →
        self.lookup pages fuel offset = some (ErrorCode.ERROR_CODE_NOTIMPLEMENTED, none)) ∧
    (∀ n p, self.lookup_walk pages offset n = some p → (pages p).is_leaf = true →
      ∀ fuel, n ≤ fuel → self.lookup pages fuel offset = some (ErrorCode.RET_OK, some p)) ∧
    (∀ fuel r, self.lookup pages fuel offset = some r →
      (r.1 = ErrorCode.ERROR_CODE_NOTIMPLEMENTED ↔
        ∃ n p, self.lookup_walk pages offset n = some p ∧ (pages p).is_leaf = false ∧
          (self.selected_pointer pages offset p).volatile_pointer_.offset = 0) ∧
      (r.1 = ErrorCode.ERROR_CODE_NOTIMPLEMENTED → r.2 = none) ∧
      (r.1 ≠ ErrorCode.ERROR_CODE_NOTIMPLEMENTED →
        ∃ n p, n ≤ fuel ∧ self.lookup_walk pages offset n = some p ∧
          (pages p).is_leaf = true ∧ r = (ErrorCode.RET_OK, some p))) := by
  refine ⟨?_, ?_, lookup_walk_succ self pages offset, lookup_walk_spec self pages offset⟩
  · unfold ArrayStoragePimpl.lookup_walk
    rw [hroot]
    rfl
  · intro fuel
    unfold ArrayStoragePimpl.lookup
    rw [hroot]
    rfl

/-- On the array of five records, whose root is the page at offset 3, for
offset 4: in the page memory in which the root has lost its second child
pointer the walk stops at the root and lookup returns
`ERROR_CODE_NOTIMPLEMENTED`; in the page memory that create has built the walk
goes from the root over the page at offset 6 to the leaf at offset 5, and
lookup returns that leaf. -/
theorem lookup_notimplemented_witness :
    small_created.2.1.root_page_ = some 3 ∧
    (small_created.2.1.lookup_walk small_evicted_pages 4 0 = some 3 ∧
      (small_evicted_pages 3).is_leaf = false ∧
      (small_created.2.1.selected_pointer small_evicted_pages 4 3).volatile_pointer_.offset = 0 ∧
      ∀ fuel, 0 < fuel → small_created.2.1.lookup small_evicted_pages fuel 4 =
        some (ErrorCode.ERROR_CODE_NOTIMPLEMENTED, none)) ∧
    (small_created.2.1.lookup_walk small_created.2.2.pages 4 1 = some 6 ∧
      small_created.2.1.lookup_walk small_created.2.2.pages 4 2 = some 5 ∧
      (small_created.2.2.pages 5).is_leaf = true ∧
      ∀ fuel, 2 ≤ fuel → small_created.2.1.lookup small_created.2.2.pages fuel 4 =
        some (ErrorCode.RET_OK, some 5)) :=
  ⟨by decide,
    ⟨(lookup_notimplemented small_created.2.1 small_evicted_pages 4 3 (by decide)).1,
      by decide, by decide,
      (lookup_notimplemented small_created.2.1 small_evicted_pages 4 3
        (by decide)).2.2.2.1 0 3 (by decide) (by decide) (by decide)⟩,
    ⟨by decide, by decide, by decide,
      (lookup_notimplemented small_created.2.1 small_created.2.2.pages 4 3
        (by decide)).2.2.2.2.1 2 5 (by decide) (by decide)⟩⟩

/-- C17: the destructor of `UninitializeGuard` follows its policy.  If the
target is not initialized any more, nothing happens: no event, and the
target is as it was.  If the target is still initialized, the destructor
aborts if and only if the policy is `kAbortIfNotExplicitlyUninitialized`, or
the policy is `kAbortIfUninitializeError` and the uninitialize of the target
returns an error; under `kAbortIfNotExplicitlyUninitialized` uninitialize is
not called and the target is as it was; under every other policy uninitialize
is called exactly once, on the target as the guard found it; and an abort,
when there is one, is the last thing that happens. -/
theorem uninitialize_guard_policy {σ : Type} (T : Initializable σ) (g : UninitializeGuard σ) :
    (T.is_initialized g.target_ = false →
      UninitializeGuard.destructor T g = ([], g.target_)) ∧
    (T.is_initialized g.target_ = true →
      (GuardEvent.abort ∈ (UninitializeGuard.destructor T g).1 ↔
        g.policy_ = Policy.kAbortIfNotExplicitlyUninitialized ∨
        (g.policy_ = Policy.kAbortIfUninitializeError ∧
          ( Initializable.uninitialize T g.target_).1.is_error = true)) ∧
      (g.policy_ = Policy.kAbortIfNotExplicitlyUninitialized →
        (UninitializeGuard.destructor T g).1.count GuardEvent.uninitialize_called = 0 ∧
        (UninitializeGuard.destructor T g).2 = g.target_) ∧
      (g.policy_ ≠ Policy.kAbortIfNotExplicitlyUninitialized →
        (UninitializeGuard.destructor T g).1.count GuardEvent.uninitialize_called = 1 ∧
        (UninitializeGuard.destructor T g).2 = ( Initializable.uninitialize T g.target_).2) ∧
      (GuardEvent.abort ∈ (UninitializeGuard.destructor T g).1 →
        (UninitializeGuard.destructor T g).1.getLast? = some GuardEvent.abort)) := by
  obtain ⟨target, policy⟩ := g
  constructor
  · intro h
    simp only [UninitializeGuard.destructor] at h ⊢
    rw [if_neg (by rw [h]; decide)]
  · intro h
    simp only at h
    cases hu : Initializable.uninitialize T target with
    | mk error target2 =>
      cases he : error.is_error <;> cases policy <;>
        simp [UninitializeGuard.destructor, h, hu, he, List.count_cons]

/-- A target that is still initialized and whose uninitialize fails with
`NO_FREE_PAGES`, under the policy `kAbortIfUninitializeError`; and a target
that is not initialized any more. -/
theorem uninitialize_guard_policy_witness :
    ((small_target ErrorCode.RET_OK).is_initialized false = false ∧
      UninitializeGuard.destructor (small_target ErrorCode.RET_OK)
        ⟨false, Policy.kAbortIfNotExplicitlyUninitialized⟩ = ([], false)) ∧
    ((small_target ErrorCode.NO_FREE_PAGES).is_initialized true = true ∧
      (GuardEvent.abort ∈ (UninitializeGuard.destructor (small_target ErrorCode.NO_FREE_PAGES)
          ⟨true, Policy.kAbortIfUninitializeError⟩).1 ↔
        Policy.kAbortIfUninitializeError = Policy.kAbortIfNotExplicitlyUninitialized ∨
        (Policy.kAbortIfUninitializeError = Policy.kAbortIfUninitializeError ∧
          ( Initializable.uninitialize (small_target ErrorCode.NO_FREE_PAGES) true).1.is_error
            = true)) ∧
      (UninitializeGuard.destructor (small_target ErrorCode.NO_FREE_PAGES)
        ⟨true, Policy.kAbortIfUninitializeError⟩).1.count GuardEvent.uninitialize_called = 1 ∧
      (UninitializeGuard.destructor (small_target ErrorCode.NO_FREE_PAGES)
        ⟨true, Policy.kAbortIfUninitializeError⟩).1.getLast? = some GuardEvent.abort) :=
  ⟨⟨rfl, (uninitialize_guard_policy (small_target ErrorCode.RET_OK)
      ⟨false, Policy.kAbortIfNotExplicitlyUninitialized⟩).1 rfl⟩,
    ⟨rfl,
      ((uninitialize_guard_policy (small_target ErrorCode.NO_FREE_PAGES)
        ⟨true, Policy.kAbortIfUninitializeError⟩).2 rfl).1,
      (((uninitialize_guard_policy (small_target ErrorCode.NO_FREE_PAGES)
        ⟨true, Policy.kAbortIfUninitializeError⟩).2 rfl).2.2.1 (by decide)).1,
      ((uninitialize_guard_policy (small_target ErrorCode.NO_FREE_PAGES)
        ⟨true, Policy.kAbortIfUninitializeError⟩).2 rfl).2.2.2 (by decide)⟩⟩

/-- C18, as the code has it: whether the error of uninitialize is reported
depends on the policy.  When the target is still initialized and the
uninitialize that the destructor calls returns an error: under
`kAbortIfUninitializeError` the error is printed to `std::cerr` and the
process aborts; under `kWarnIfUninitializeError` the error is printed to
`std::cerr` and the destructor returns; under `kSilent` the call of
uninitialize is the only thing that happens, no message is written, and the
destructor returns.  In each case the target is left in the state in which
uninitialize has put it. -/
theorem uninitialize_guard_reports_error {σ : Type} (T : Initializable σ)
    (g : UninitializeGuard σ) (hinit : T.is_initialized g.target_ = true)
    (herr : ( Initializable.uninitialize T g.target_).1.is_error = true) :
    (g.policy_ = Policy.kAbortIfUninitializeError →
      UninitializeGuard.destructor T g =
        ([GuardEvent.log_error_not_uninitialized, GuardEvent.print_backtrace,
          GuardEvent.uninitialize_called,
          GuardEvent.cerr_fatal ( Initializable.uninitialize T g.target_).1, GuardEvent.abort],
          ( Initializable.uninitialize T g.target_).2)) ∧
    (g.policy_ = Policy.kWarnIfUninitializeError →
      UninitializeGuard.destructor T g =
        ([GuardEvent.log_error_not_uninitialized, GuardEvent.print_backtrace,
          GuardEvent.uninitialize_called,
          GuardEvent.cerr_warn ( Initializable.uninitialize T g.target_).1],
          ( Initializable.uninitialize T g.target_).2)) ∧
    (g.policy_ = Policy.kSilent →
      UninitializeGuard.destructor T g =
        ([GuardEvent.uninitialize_called], ( Initializable.uninitialize T g.target_).2)) := by
  obtain ⟨target, policy⟩ := g
  simp only at hinit herr
  cases hu : Initializable.uninitialize T target with
  | mk error target2 =>
    rw [hu] at herr
    simp only at herr
    refine ⟨?_, ?_, ?_⟩ <;> intro hp <;> simp only at hp <;> subst hp <;>
      simp [UninitializeGuard.destructor, hinit, hu, herr]

/-- A target that is still initialized and whose uninitialize fails with
`NO_FREE_PAGES`, under `kWarnIfUninitializeError` and under `kSilent`. -/
theorem uninitialize_guard_reports_error_witness :
    ((small_target ErrorCode.NO_FREE_PAGES).is_initialized true = true ∧
      ( Initializable.uninitialize (small_target ErrorCode.NO_FREE_PAGES) true).1.is_error
        = true) ∧
    UninitializeGuard.destructor (small_target ErrorCode.NO_FREE_PAGES)
        ⟨true, Policy.kWarnIfUninitializeError⟩ =
      ([GuardEvent.log_error_not_uninitialized, GuardEvent.print_backtrace,
        GuardEvent.uninitialize_called,
        GuardEvent.cerr_warn
          ( Initializable.uninitialize (small_target ErrorCode.NO_FREE_PAGES) true).1],
        ( Initializable.uninitialize (small_target ErrorCode.NO_FREE_PAGES) true).2) ∧
    UninitializeGuard.destructor (small_target ErrorCode.NO_FREE_PAGES)
        ⟨true, Policy.kSilent⟩ =
      ([GuardEvent.uninitialize_called],
        ( Initializable.uninitialize (small_target ErrorCode.NO_FREE_PAGES) true).2) :=
  ⟨⟨rfl, rfl⟩,
    (uninitialize_guard_reports_error (small_target ErrorCode.NO_FREE_PAGES)
      ⟨true, Policy.kWarnIfUninitializeError⟩ rfl rfl).2.1 rfl,
    (uninitialize_guard_reports_error (small_target ErrorCode.NO_FREE_PAGES)
      ⟨true, Policy.kSilent⟩ rfl rfl).2.2 rfl⟩

/-- C18 does not hold as stated.  Under the policy `kSilent`, with a target
that is still initialized, the destructor calls the uninitialize of the
target, which returns the error `NO_FREE_PAGES`, and that call is all that
happens: no message reports the error. -/
theorem uninitialize_guard_silent_counterexample :
    (small_target ErrorCode.NO_FREE_PAGES).is_initialized true = true ∧
    ( Initializable.uninitialize (small_target ErrorCode.NO_FREE_PAGES) true).1 =
      ErrorCode.NO_FREE_PAGES ∧
    ErrorCode.NO_FREE_PAGES.is_error = true ∧
    UninitializeGuard.destructor (small_target ErrorCode.NO_FREE_PAGES) ⟨true, Policy.kSilent⟩ =
      ([GuardEvent.uninitialize_called], false) :=
  ⟨rfl, rfl, rfl, by decide⟩

/-- C19: `NumaCoreMemory::initialize_once` issues exactly one call of the page
pool, a grab of `capacity / 2` offsets into the chunk of its own core, and
keeps the pointers to its read-set, write-set and chunk pieces with the two
configured sizes.  If that grab returns an error, initialize_once returns the
same error, as it does with `NO_FREE_PAGES` when the pool is empty.  Under the
grab contract of the pool, with an empty chunk and at least `capacity / 2`
free pages in the pool, the chunk holds afterwards exactly `capacity / 2`
offsets, the first ones of the free queue in queue order, the pool has that
many free pages less, and initialize_once returns `RET_OK` unless the pool
had no free page at all.  The capacity is such that its half fits the
`uint32_t` count. -/
theorem numa_core_memory_initialize_once (self : NumaCoreMemory) (m : EngineMemory)
    (hcap : (m.page_offset_chunk_memory_pieces_ self.core_local_ordinal_).capacity / 2 < 2 ^ 32) :
    (self.initialize_once m).2.2.pool_requests_ = m.pool_requests_ ++
      [PoolRequest.grab
        ((m.page_offset_chunk_memory_pieces_ self.core_local_ordinal_).capacity / 2)
        self.core_local_ordinal_] ∧
    (self.initialize_once m).2.1.free_pool_chunk_ = some self.core_local_ordinal_ ∧
    (self.initialize_once m).2.1.read_set_memory_ =
      some (m.read_set_memory_pieces_ self.core_local_ordinal_) ∧
    (self.initialize_once m).2.1.read_set_size_ = m.max_read_set_size_ ∧
    (self.initialize_once m).2.1.write_set_memory_ =
      some (m.write_set_memory_pieces_ self.core_local_ordinal_) ∧
    (self.initialize_once m).2.1.write_set_size_ = m.max_write_set_size_ ∧
    ((m.grab ((m.page_offset_chunk_memory_pieces_ self.core_local_ordinal_).capacity / 2)
        self.core_local_ordinal_).1.is_error = true →
      (self.initialize_once m).1 =
        (m.grab ((m.page_offset_chunk_memory_pieces_ self.core_local_ordinal_).capacity / 2)
          self.core_local_ordinal_).1) ∧
    (m.page_pool_.free_pool_count_ = 0 →
      (self.initialize_once m).1 = ErrorCode.NO_FREE_PAGES) ∧
    ((m.page_offset_chunk_memory_pieces_ self.core_local_ordinal_).size = 0 →
      (m.page_offset_chunk_memory_pieces_ self.core_local_ordinal_).capacity / 2 ≤
        m.page_pool_.free_pool_count_ →
      ((self.initialize_once m).2.2.page_offset_chunk_memory_pieces_
        self.core_local_ordinal_).size =
          (m.page_offset_chunk_memory_pieces_ self.core_local_ordinal_).capacity / 2 ∧
      ((self.initialize_once m).2.2.page_offset_chunk_memory_pieces_
        self.core_local_ordinal_).capacity =
          (m.page_offset_chunk_memory_pieces_ self.core_local_ordinal_).capacity ∧
      ((self.initialize_once m).2.2.page_offset_chunk_memory_pieces_
        self.core_local_ordinal_).chunk_ =
          (List.range
            ((m.page_offset_chunk_memory_pieces_ self.core_local_ordinal_).capacity / 2)).map
            (fun i => m.page_pool_.free_pool_
              ((m.page_pool_.free_pool_head_ + i) % m.page_pool_.free_pool_capacity_)) ∧
      (self.initialize_once m).2.2.page_pool_.free_pool_count_ =
        m.page_pool_.free_pool_count_ -
          (m.page_offset_chunk_memory_pieces_ self.core_local_ordinal_).capacity / 2 ∧
      (0 < m.page_pool_.free_pool_count_ → (self.initialize_once m).1 = ErrorCode.RET_OK)) := by
  simp only [PagePoolOffsetChunk.capacity, PagePoolOffsetChunk.size] at hcap ⊢
  have hmod := Nat.mod_eq_of_lt hcap
  have he1 : ErrorCode.NO_FREE_PAGES.is_error = true := rfl
  have he2 : ErrorCode.RET_OK.is_error = false := rfl
  by_cases hzero : m.page_pool_.free_pool_count_ = 0
  · simp only [NumaCoreMemory.initialize_once, EngineMemory.grab, PagePoolPimpl.grab,
      PagePoolOffsetChunk.capacity, PagePoolOffsetChunk.size, hmod, hzero, if_true, he1,
      Function.update_same]
    refine ⟨trivial, trivial, trivial, trivial, trivial, trivial, fun _ => trivial,
      fun _ => trivial, ?_⟩
    intro hsize hfree
    have hhalf : (m.page_offset_chunk_memory_pieces_ self.core_local_ordinal_).capacity_ / 2 = 0 := by
      omega
    rw [hhalf]
    exact ⟨hsize, trivial, List.length_eq_zero.mp hsize, by omega, fun h => absurd h (by omega)⟩
  · simp only [NumaCoreMemory.initialize_once, EngineMemory.grab, PagePoolPimpl.grab,
      PagePoolOffsetChunk.capacity, PagePoolOffsetChunk.size, hmod, hzero, if_false, he2,
      Bool.false_eq_true, Function.update_same]
    refine ⟨trivial, trivial, trivial, trivial, trivial, trivial, fun h => h.elim,
      fun h => h.elim, ?_⟩
    intro hsize hfree
    have hmin : min (min (m.page_offset_chunk_memory_pieces_ self.core_local_ordinal_).capacity_
        ((m.page_offset_chunk_memory_pieces_ self.core_local_ordinal_).chunk_.length +
          (m.page_offset_chunk_memory_pieces_ self.core_local_ordinal_).capacity_ / 2) -
        (m.page_offset_chunk_memory_pieces_ self.core_local_ordinal_).chunk_.length)
        m.page_pool_.free_pool_count_ =
        (m.page_offset_chunk_memory_pieces_ self.core_local_ordinal_).capacity_ / 2 := by
      rw [hsize]
      omega
    rw [hmin, List.length_eq_zero.mp hsize]
    simp only [List.nil_append, List.length_map, List.length_range]
    exact ⟨trivial, trivial, trivial, trivial, fun _ => trivial⟩

/-- Core 0 with an empty chunk of capacity 4 and a pool of six free pages
2 .. 7: one grab of 2 offsets, after which the chunk holds the pages 2 and 3
and the pool has four free pages left. -/
theorem numa_core_memory_initialize_once_witness :
    (4 : Nat) / 2 < 2 ^ 32 ∧
    (small_core_memory.initialize_once small_engine_memory).2.2.pool_requests_ =
      [] ++ [PoolRequest.grab 2 0] ∧
    (small_core_memory.initialize_once small_engine_memory).2.1.free_pool_chunk_ = some 0 ∧
    ((0 : Nat) = 0 → 2 ≤ 6 →
      ((small_core_memory.initialize_once small_engine_memory).2.2.page_offset_chunk_memory_pieces_
        0).size = 2 ∧
      ((small_core_memory.initialize_once small_engine_memory).2.2.page_offset_chunk_memory_pieces_
        0).capacity = 4 ∧
      ((small_core_memory.initialize_once small_engine_memory).2.2.page_offset_chunk_memory_pieces_
        0).chunk_ = (List.range 2).map (fun i => (0 + i) % 6 + 2) ∧
      (small_core_memory.initialize_once small_engine_memory).2.2.page_pool_.free_pool_count_ =
        6 - 2 ∧
      (0 < 6 → (small_core_memory.initialize_once small_engine_memory).1 = ErrorCode.RET_OK)) :=
  ⟨by decide,
    (numa_core_memory_initialize_once small_core_memory small_engine_memory (by decide)).1,
    (numa_core_memory_initialize_once small_core_memory small_engine_memory (by decide)).2.1,
    (numa_core_memory_initialize_once small_core_memory small_engine_memory
      (by decide)).2.2.2.2.2.2.2.2⟩

/-- C20: `NumaCoreMemory::uninitialize_once` gives the whole chunk back to the
pool.  Every run that returns returns `RET_OK` and leaves the core without
chunk, read-set and write-set references.  If the core holds a chunk (whose
size fits the `uint32_t` count), the run issues exactly one call of the pool,
a release of `chunk.size()` offsets from that chunk, after which the chunk is
empty and the pool has that many free pages more; and the run does return
when the free queue has room for them.  If the core holds no chunk, the run
returns without any call of the pool.  A second uninitialize_once, after one
that has returned, issues no call of the pool and changes nothing. -/
theorem numa_core_memory_uninitialize_once (self : NumaCoreMemory) (m : EngineMemory) :
    (∀ r, self.uninitialize_once m = some r →
      r.1 = ErrorCode.RET_OK ∧ r.2.1.free_pool_chunk_ = none ∧
      r.2.1.read_set_memory_ = none ∧ r.2.1.write_set_memory_ = none) ∧
    (∀ chunk, self.free_pool_chunk_ = some chunk →
      (m.page_offset_chunk_memory_pieces_ chunk).size < 2 ^ 32 →
      (∀ r, self.uninitialize_once m = some r →
        r.2.2.pool_requests_ = m.pool_requests_ ++
          [PoolRequest.release (m.page_offset_chunk_memory_pieces_ chunk).size chunk] ∧
        (r.2.2.page_offset_chunk_memory_pieces_ chunk).size = 0 ∧
        r.2.2.page_pool_.free_pool_count_ =
          m.page_pool_.free_pool_count_ + (m.page_offset_chunk_memory_pieces_ chunk).size) ∧
      (m.page_pool_.free_pool_count_ + (m.page_offset_chunk_memory_pieces_ chunk).size ≤
          m.page_pool_.free_pool_capacity_ →
        ∃ r, self.uninitialize_once m = some r)) ∧
    (self.free_pool_chunk_ = none →
      ∃ core, self.uninitialize_once m = some (ErrorCode.RET_OK, core, m)) ∧
    (∀ r, self.uninitialize_once m = some r →
      r.2.1.uninitialize_once r.2.2 = some (ErrorCode.RET_OK, r.2.1, r.2.2)) := by
  have hsum : ErrorStackBatch.summarize [] = ErrorCode.RET_OK := rfl
  have hnone : ∀ (core : NumaCoreMemory) (m2 : EngineMemory), core.free_pool_chunk_ = none →
      core.read_set_memory_ = none → core.write_set_memory_ = none →
      core.uninitialize_once m2 = some (ErrorCode.RET_OK, core, m2) := by
    intro core m2 h1 h2 h3
    obtain ⟨a, b, c, d, e, f, g⟩ := core
    simp only at h1 h2 h3
    subst h1 h2 h3
    rfl
  have hfirst : ∀ r, self.uninitialize_once m = some r →
      r.1 = ErrorCode.RET_OK ∧ r.2.1.free_pool_chunk_ = none ∧
      r.2.1.read_set_memory_ = none ∧ r.2.1.write_set_memory_ = none := by
    intro r hr
    unfold NumaCoreMemory.uninitialize_once at hr
    simp only [hsum] at hr
    cases hc : self.free_pool_chunk_ with
    | none =>
      simp only [hc] at hr
      rw [← Option.some.inj hr]
      exact ⟨rfl, rfl, rfl, rfl⟩
    | some chunk =>
      simp only [hc] at hr
      cases hrel : m.release (m.page_offset_chunk_memory_pieces_ chunk).size chunk with
      | none => simp only [hrel] at hr; cases hr
      | some m2 =>
        simp only [hrel] at hr
        rw [← Option.some.inj hr]
        exact ⟨rfl, rfl, rfl, rfl⟩
  refine ⟨hfirst, ?_, ?_, ?_⟩
  · intro chunk hc hsize
    have hmod := Nat.mod_eq_of_lt hsize
    have hmin : min (m.page_offset_chunk_memory_pieces_ chunk).size
        (m.page_offset_chunk_memory_pieces_ chunk).size =
        (m.page_offset_chunk_memory_pieces_ chunk).size := Nat.min_self _
    have hrel : (m.page_pool_.free_pool_capacity_ <
          m.page_pool_.free_pool_count_ + (m.page_offset_chunk_memory_pieces_ chunk).size →
        m.release (m.page_offset_chunk_memory_pieces_ chunk).size chunk = none) ∧
        (m.page_pool_.free_pool_count_ + (m.page_offset_chunk_memory_pieces_ chunk).size ≤
          m.page_pool_.free_pool_capacity_ →
        ∃ m2, m.release (m.page_offset_chunk_memory_pieces_ chunk).size chunk = some m2 ∧
          m2.pool_requests_ = m.pool_requests_ ++
            [PoolRequest.release (m.page_offset_chunk_memory_pieces_ chunk).size chunk] ∧
          (m2.page_offset_chunk_memory_pieces_ chunk).size = 0 ∧
          m2.page_pool_.free_pool_count_ =
            m.page_pool_.free_pool_count_ + (m.page_offset_chunk_memory_pieces_ chunk).size) := by
      unfold EngineMemory.release PagePoolPimpl.release
      simp only [hmod, hmin]
      constructor
      · intro hover
        rw [if_pos hover]
      · intro hroom
        rw [if_neg (by omega)]
        refine ⟨_, rfl, rfl, ?_, rfl⟩
        simp only [Function.update_same, PagePoolOffsetChunk.size, Nat.sub_self, List.take_zero,
          List.length_nil]
    constructor
    · intro r hr
      unfold NumaCoreMemory.uninitialize_once at hr
      simp only [hsum, hc] at hr
      by_cases hover : m.page_pool_.free_pool_capacity_ <
          m.page_pool_.free_pool_count_ + (m.page_offset_chunk_memory_pieces_ chunk).size
      · rw [hrel.1 hover] at hr
        cases hr
      · obtain ⟨m2, hm2, h1, h2, h3⟩ := hrel.2 (by omega)
        rw [hm2] at hr
        rw [← Option.some.inj hr]
        exact ⟨h1, h2, h3⟩
    · intro hroom
      obtain ⟨m2, hm2, _⟩ := hrel.2 hroom
      unfold NumaCoreMemory.uninitialize_once
      simp only [hsum, hc, hm2]
      exact ⟨_, rfl⟩
  · intro hc
    unfold NumaCoreMemory.uninitialize_once
    simp only [hsum, hc]
    exact ⟨_, rfl⟩
  · intro r hr
    obtain ⟨_, h1, h2, h3⟩ := hfirst r hr
    exact hnone r.2.1 r.2.2 h1 h2 h3

/-- Core 0 after its initialize_once in the small engine (its chunk holds the
pages 2 and 3, the pool four free pages): uninitialize_once returns, after
one release of 2 offsets; and the core before its initialize_once, which
holds no chunk. -/
theorem numa_core_memory_uninitialize_once_witness :
    ((small_core_memory.initialize_once small_engine_memory).2.1.free_pool_chunk_ = some 0 ∧
      (2 : Nat) < 2 ^ 32 ∧ 4 + 2 ≤ 6 ∧ small_core_memory.free_pool_chunk_ = none) ∧
    (∃ r, (small_core_memory.initialize_once small_engine_memory).2.1.uninitialize_once
      (small_core_memory.initialize_once small_engine_memory).2.2 = some r) ∧
    (∀ r, (small_core_memory.initialize_once small_engine_memory).2.1.uninitialize_once
        (small_core_memory.initialize_once small_engine_memory).2.2 = some r →
      r.2.2.pool_requests_ = [PoolRequest.grab 2 0] ++ [PoolRequest.release 2 0] ∧
      (r.2.2.page_offset_chunk_memory_pieces_ 0).size = 0 ∧
      r.2.2.page_pool_.free_pool_count_ = 4 + 2) ∧
    (∃ core, small_core_memory.uninitialize_once small_engine_memory =
      some (ErrorCode.RET_OK, core, small_engine_memory)) :=
  ⟨⟨rfl, by decide, by decide, rfl⟩,
    ((numa_core_memory_uninitialize_once
      (small_core_memory.initialize_once small_engine_memory).2.1
      (small_core_memory.initialize_once small_engine_memory).2.2).2.1 0 rfl (by decide)).2
      (by decide),
    ((numa_core_memory_uninitialize_once
      (small_core_memory.initialize_once small_engine_memory).2.1
      (small_core_memory.initialize_once small_engine_memory).2.2).2.1 0 rfl (by decide)).1,
    (numa_core_memory_uninitialize_once small_core_memory small_engine_memory).2.2.1 rfl⟩

/-- C21: a shared rendezvous is a one-shot event.  A freshly constructed
rendezvous reports `is_signaled() = false` and `is_signaled_weak() = false`.
After `signal()` on a rendezvous in whatever state, and after any sequence of
signal, wait and query operations that follows, both queries report `true`,
no thread is blocked, and a `wait()` returns at once and leaves the state as
it is: nothing resets the rendezvous. -/
theorem rendezvous_one_shot :
    SharedRendezvous.construct.is_signaled = false ∧
    SharedRendezvous.construct.is_signaled_weak = false ∧
    ∀ (r : SharedRendezvous) (ops : List RendezvousOp),
      (r.signal.run ops).is_signaled = true ∧
      (r.signal.run ops).is_signaled_weak = true ∧
      (r.signal.run ops).blocked_ = [] ∧
      ∀ thread, (r.signal.run ops).wait thread = (true, r.signal.run ops) := by
  refine ⟨rfl, rfl, ?_⟩
  intro r ops
  have hrun : r.signal.run ops = ⟨true, []⟩ := by
    have hstep : ∀ op, SharedRendezvous.step ⟨true, []⟩ op = ⟨true, []⟩ := by
      intro op
      cases op <;> rfl
    have hfold : ∀ l : List RendezvousOp,
        List.foldl SharedRendezvous.step ⟨true, []⟩ l = ⟨true, []⟩ := by
      intro l
      induction l with
      | nil => rfl
      | cons op l ih => rw [List.foldl_cons, hstep, ih]
    exact hfold ops
  rw [hrun]
  exact ⟨rfl, rfl, rfl, fun _ => rfl⟩

/-- C22: with at least one record per page and a fanout of at least two,
`calculate_required_pages` terminates for every array of at least one record:
`array_size` iterations are enough, the result does not depend on the bound,
the page count gets strictly smaller from every level to the next, and the
last level has one page.  For `array_size = 0` the leaf page count is 0, and
the function does not terminate: whatever the bound on the iterations of
`while (pages.back() != 1)`, it is used up. -/
theorem calculate_required_pages_terminates (K : ArrayConsts) (payload : Nat)
    (hF : 2 ≤ K.INTERIOR_FANOUT) (hr : 1 ≤ K.DATA_SIZE / (payload + K.RECORD_OVERHEAD)) :
    (∀ array_size, 1 ≤ array_size → ∃ p : List Nat,
      (∀ fuel, array_size ≤ fuel →
        calculate_required_pages K fuel array_size payload = some p) ∧
      (∀ fuel q, calculate_required_pages K fuel array_size payload = some q → q = p) ∧
      (∀ i, i + 1 < p.length → p.getD (i + 1) 0 < p.getD i 0) ∧
      p.getLast? = some 1) ∧
    int_div_ceil 0 (K.DATA_SIZE / (payload + K.RECORD_OVERHEAD)) = 0 ∧
    (∀ fuel, calculate_required_pages K fuel 0 payload = none) := by
  refine ⟨?_, int_div_ceil_zero _, ?_⟩
  · intro array_size hN
    obtain ⟨p, hp, hdet, _, _, hstep, hlast, hgt⟩ :=
      calculate_required_pages_spec K array_size payload hF hN hr
    refine ⟨p, hp, hdet, ?_, hlast⟩
    intro i hi
    rw [hstep i hi]
    exact ceil_div_lt _ _ (hgt i hi) hF
  · intro fuel
    unfold calculate_required_pages
    simp only [int_div_ceil_zero]
    exact calculate_required_pages_loop_zero K fuel [0] rfl

/-- Two records per page and fanout two: five records give the plan
`[3, 2, 1]` within five iterations, and no bound is enough for an empty
array. -/
theorem calculate_required_pages_terminates_witness :
    (2 ≤ small_consts.INTERIOR_FANOUT ∧
      1 ≤ small_consts.DATA_SIZE / (8 + small_consts.RECORD_OVERHEAD)) ∧
    calculate_required_pages small_consts 5 5 8 = some [3, 2, 1] ∧
    (∃ p : List Nat,
      (∀ fuel, 5 ≤ fuel → calculate_required_pages small_consts fuel 5 8 = some p) ∧
      (∀ fuel q, calculate_required_pages small_consts fuel 5 8 = some q → q = p) ∧
      (∀ i, i + 1 < p.length → p.getD (i + 1) 0 < p.getD i 0) ∧
      p.getLast? = some 1) ∧
    (∀ fuel, calculate_required_pages small_consts fuel 0 8 = none) :=
  ⟨⟨by decide, by decide⟩, by decide,
    (calculate_required_pages_terminates small_consts 8 (by decide) (by decide)).1 5 (by decide),
    (calculate_required_pages_terminates small_consts 8 (by decide) (by decide)).2.2⟩

/-- C23: create builds exactly the tree that `calculate_required_pages` has
planned.  For an array of at least one record, starting with no page grabbed,
create calls `grab_free_page` exactly as many times as the plan has pages in
all its levels together, every time for another page; the pages it has
initialized with height `L` are exactly `pages_[L]` many for every level
`L < levels_`, and none for a height from `levels_` on; the top level has
exactly one page, the root that the storage points to afterwards; and the
level below the root, if there is one, has at most `INTERIOR_FANOUT` pages,
so that the root has a free slot for every child that arrives. -/
theorem create_builds_plan (K : ArrayConsts) (fuel id payload_size array_size : Nat)
    (root_page_pointer : DualPagePointer) (st : ArrayStoragePimpl) (w0 : World)
    (hF : 2 ≤ K.INTERIOR_FANOUT) (hN : 1 ≤ array_size)
    (hr : 1 ≤ K.DATA_SIZE / (align8 payload_size + K.RECORD_OVERHEAD))
    (hst : ArrayStoragePimpl.construct K fuel id payload_size array_size root_page_pointer true
      = some st)
    (hinj : Function.Injective w0.supply) (hnz : ∀ n, w0.supply n ≠ 0)
    (hempty : w0.grabbed = []) :
    calculate_required_pages K fuel array_size (align8 payload_size) = some st.pages_ ∧
    st.levels_ = st.pages_.length ∧
    (st.create K w0).2.2.grabbed.length = st.pages_.sum ∧
    (st.create K w0).2.2.grabbed.Nodup ∧
    (∀ L, L < st.levels_ →
      (level_pages (st.create K w0).2.2 L).length = st.pages_.getD L 0) ∧
    (∀ L, st.levels_ ≤ L → level_pages (st.create K w0).2.2 L = []) ∧
    (∃ root, level_pages (st.create K w0).2.2 (st.levels_ - 1) = [root] ∧
      (st.create K w0).2.1.root_page_ = some root ∧
      (st.create K w0).2.1.root_page_pointer_.volatile_pointer_.offset = root) ∧
    (2 ≤ st.levels_ → st.pages_.getD (st.levels_ - 2) 0 ≤ K.INTERIOR_FANOUT) := by
  obtain ⟨hlevels, _, _, _, _, hpages, _, _⟩ :=
    construct_spec K fuel id payload_size array_size root_page_pointer true st hst
  obtain ⟨c, w, st2, hcreate, hplan, _, _, hb, _, hroot, hptr, _, _⟩ := create_built K fuel id
    payload_size array_size root_page_pointer st w0 hF hN hr hst hinj hnz hempty
  rw [hcreate]
  show calculate_required_pages K fuel array_size (align8 payload_size) = some st.pages_ ∧
    st.levels_ = st.pages_.length ∧
    w.grabbed.length = st.pages_.sum ∧
    w.grabbed.Nodup ∧
    (∀ L, L < st.levels_ → (level_pages w L).length = st.pages_.getD L 0) ∧
    (∀ L, st.levels_ ≤ L → level_pages w L = []) ∧
    (∃ root, level_pages w (st.levels_ - 1) = [root] ∧
      st2.root_page_ = some root ∧
      st2.root_page_pointer_.volatile_pointer_.offset = root) ∧
    (2 ≤ st.levels_ → st.pages_.getD (st.levels_ - 2) 0 ≤ K.INTERIOR_FANOUT)
  have hlen : ∀ L, L < st.levels_ → (level_pages w L).length = st.pages_.getD L 0 := by
    intro L hL; rw [hb.len, if_pos hL]
  have htop : (level_pages w (st.levels_ - 1)).length = 1 := by
    rw [hlen _ (by have := hplan.levels_pos; omega), hplan.pages_top]
  refine ⟨hpages, hlevels, hb.grabbed_length hlevels, hb.nodup, hlen, ?_, ?_, ?_⟩
  · intro L hL
    have h0 := hb.len L
    rw [if_neg (by omega)] at h0
    exact List.length_eq_zero.1 h0
  · obtain ⟨root, hr1⟩ := List.length_eq_one.1 htop
    refine ⟨root, hr1, ?_, ?_⟩
    · rw [hroot, hr1]
      rfl
    · rw [hptr, hr1]
      rfl
  · intro h2
    have h1 := hplan.pages_succ (st.levels_ - 2) (by omega)
    rw [show st.levels_ - 2 + 1 = st.levels_ - 1 by omega, hplan.pages_top] at h1
    have h3 : (st.pages_.getD (st.levels_ - 2) 0 - 1) / K.INTERIOR_FANOUT = 0 := by omega
    have h4 := (Nat.div_eq_zero_iff (by omega : 0 < K.INTERIOR_FANOUT)).1 h3
    omega

/-- The array of five records: six pages are grabbed, three of height 0, two
of height 1 and the root, page 3, of height 2. -/
theorem create_builds_plan_witness :
    (2 ≤ small_consts.INTERIOR_FANOUT ∧ (1 : Nat) ≤ 5) ∧
    small_storage.pages_ = [3, 2, 1] ∧
    small_created.2.2.grabbed = [1, 2, 3, 4, 5, 6] ∧
    (small_storage.create small_consts small_world).2.2.grabbed.length =
      small_storage.pages_.sum ∧
    (∃ root, level_pages (small_storage.create small_consts small_world).2.2
        (small_storage.levels_ - 1) = [root] ∧
      (small_storage.create small_consts small_world).2.1.root_page_ = some root ∧
      (small_storage.create small_consts small_world).2.1.root_page_pointer_.volatile_pointer_.offset
        = root) :=
  ⟨⟨by decide, by decide⟩, rfl, by decide,
    (create_builds_plan small_consts 9 7 8 5 DualPagePointer.null small_storage small_world
      (by decide) (by decide) (by decide) small_storage_eq small_world_inj small_world_nonzero
      rfl).2.2.1,
    (create_builds_plan small_consts 9 7 8 5 DualPagePointer.null small_storage small_world
      (by decide) (by decide) (by decide) small_storage_eq small_world_inj small_world_nonzero
      rfl).2.2.2.2.2.2.1⟩

/-- C24: for an array of at least one record, with unbounded naturals,
`offset_intervals_[L] < array_size` for every level below the top one and
`offset_intervals_[levels_ - 1] ≥ array_size`.  Hence the condition
`range.end_ > array_size_` of the left-most chain of create can hold at the
top level only (the assertion `level == levels_ - 1` never fails), the
left-most page of every level below the top has the range
`[0, offset_intervals_[level])`, and the root page has exactly the range
`[0, array_size)`. -/
theorem offset_intervals_bound (K : ArrayConsts) (fuel id payload_size array_size : Nat)
    (root_page_pointer : DualPagePointer) (st : ArrayStoragePimpl) (w0 : World)
    (hF : 2 ≤ K.INTERIOR_FANOUT) (hN : 1 ≤ array_size)
    (hr : 1 ≤ K.DATA_SIZE / (align8 payload_size + K.RECORD_OVERHEAD))
    (hst : ArrayStoragePimpl.construct K fuel id payload_size array_size root_page_pointer true
      = some st)
    (hinj : Function.Injective w0.supply) (hnz : ∀ n, w0.supply n ≠ 0)
    (hempty : w0.grabbed = []) :
    st.array_size_ = array_size ∧
    (∀ L, L + 1 < st.levels_ → st.offset_intervals_.getD L 0 < array_size) ∧
    array_size ≤ st.offset_intervals_.getD (st.levels_ - 1) 0 ∧
    (∀ level, level < st.levels_ → array_size < st.offset_intervals_.getD level 0 →
      level = st.levels_ - 1) ∧
    (∀ level, level + 1 < st.levels_ →
      ((st.create K w0).2.2.pages
        ((level_pages (st.create K w0).2.2 level).getD 0 0)).array_range_ =
          ⟨0, st.offset_intervals_.getD level 0⟩) ∧
    (∃ root, (st.create K w0).2.1.root_page_ = some root ∧
      ((st.create K w0).2.2.pages root).array_range_ = ⟨0, array_size⟩ ∧
      ((st.create K w0).2.2.pages root).node_height_ = st.levels_ - 1) := by
  obtain ⟨c, w, st2, hcreate, hplan, hsize, _, hb, _, hroot, _, _, _⟩ := create_built K fuel id
    payload_size array_size root_page_pointer st w0 hF hN hr hst hinj hnz hempty
  rw [hcreate]
  show st.array_size_ = array_size ∧
    (∀ L, L + 1 < st.levels_ → st.interval L < array_size) ∧
    array_size ≤ st.interval (st.levels_ - 1) ∧
    (∀ level, level < st.levels_ → array_size < st.interval level → level = st.levels_ - 1) ∧
    (∀ level, level + 1 < st.levels_ →
      (w.pages ((level_pages w level).getD 0 0)).array_range_ = ⟨0, st.interval level⟩) ∧
    (∃ root, st2.root_page_ = some root ∧ (w.pages root).array_range_ = ⟨0, array_size⟩ ∧
      (w.pages root).node_height_ = st.levels_ - 1)
  have hpos := hplan.levels_pos
  have hlt : ∀ L, L + 1 < st.levels_ → st.interval L < array_size := by
    intro L hL
    rw [← hsize]
    exact hplan.interval_lt L hL
  have hge : array_size ≤ st.interval (st.levels_ - 1) := by
    have h1 := hplan.pages_eq (st.levels_ - 1) (by omega)
    rw [hplan.pages_top] at h1
    have h2 : (st.array_size_ - 1) / st.interval (st.levels_ - 1) = 0 := by omega
    have h3 := (Nat.div_eq_zero_iff (hplan.interval_ge (st.levels_ - 1) (by omega))).1 h2
    omega
  have hrange : ∀ level, level < st.levels_ →
      (w.pages ((level_pages w level).getD 0 0)).array_range_ =
        ⟨0, min (st.interval level) st.array_size_⟩ := by
    intro level hL
    have hk := hplan.pages_pos level hL
    have h1 := hb.begin_eq level 0 hL (by omega)
    have h2 := hb.end_eq level 0 hL (by omega)
    unfold ArrayStoragePimpl.range_end at h2
    rw [if_pos (Or.inr rfl)] at h2
    rw [Nat.zero_mul] at h1
    rw [Nat.zero_add, Nat.one_mul] at h2
    cases hp : (w.pages ((level_pages w level).getD 0 0)).array_range_ with
    | mk b e =>
      rw [hp] at h1 h2
      simp only at h1 h2
      rw [h1, h2]
  refine ⟨hsize, hlt, hge, ?_, ?_, ?_⟩
  · intro level hL hgt
    by_contra hne
    have := hlt level (by omega)
    omega
  · intro level hL
    rw [hrange level (by omega), hsize, Nat.min_eq_left (Nat.le_of_lt (hlt level hL))]
  · refine ⟨_, hroot, ?_, ?_⟩
    · rw [hrange (st.levels_ - 1) (by omega), hsize, Nat.min_eq_right hge]
    · exact level_pages_height w (st.levels_ - 1) 0
        (by rw [hb.len, if_pos (by omega)]; exact hplan.pages_pos _ (by omega))

/-- The array of five records: the intervals are 2, 4 and 8, and the root,
page 3, has the range `[0, 5)`. -/
theorem offset_intervals_bound_witness :
    (2 ≤ small_consts.INTERIOR_FANOUT ∧ (1 : Nat) ≤ 5) ∧
    small_storage.offset_intervals_ = [2, 4, 8] ∧
    (∀ L, L + 1 < small_storage.levels_ → small_storage.offset_intervals_.getD L 0 < 5) ∧
    5 ≤ small_storage.offset_intervals_.getD (small_storage.levels_ - 1) 0 ∧
    (∃ root, (small_storage.create small_consts small_world).2.1.root_page_ = some root ∧
      ((small_storage.create small_consts small_world).2.2.pages root).array_range_ = ⟨0, 5⟩ ∧
      ((small_storage.create small_consts small_world).2.2.pages root).node_height_ =
        small_storage.levels_ - 1) :=
  ⟨⟨by decide, by decide⟩, rfl,
    (offset_intervals_bound small_consts 9 7 8 5 DualPagePointer.null small_storage small_world
      (by decide) (by decide) (by decide) small_storage_eq small_world_inj small_world_nonzero
      rfl).2.1,
    (offset_intervals_bound small_consts 9 7 8 5 DualPagePointer.null small_storage small_world
      (by decide) (by decide) (by decide) small_storage_eq small_world_inj small_world_nonzero
      rfl).2.2.1,
    (offset_intervals_bound small_consts 9 7 8 5 DualPagePointer.null small_storage small_world
      (by decide) (by decide) (by decide) small_storage_eq small_world_inj small_world_nonzero
      rfl).2.2.2.2.2⟩

/-- C25: indexing in lookup, get_record and overwrite_record is in bounds on a
built array.  For every offset below `array_size`: the walk of lookup visits
exactly `levels_` pages, one of every height from the root down, and the
range of every page visited contains the offset (the assertions of lookup
hold).  At every interior page visited, the slot
`(offset - range.begin) / offset_intervals_[height - 1]` is not changed by the
conversions to `uint64_t` and `uint16_t`, is below `INTERIOR_FANOUT`, and
holds a pointer that create has set: snapshot id 0, mod count 0 and the
non-zero offset of a page that create has grabbed, which is the next page of
the walk.  The leaf that lookup returns contains the offset, and the record
index `offset - range.begin` of get_record and overwrite_record is not
changed by the subtraction in `uint64_t` and is below the records per
leaf. -/
theorem lookup_indexing_in_bounds (K : ArrayConsts) (fuel id payload_size array_size : Nat)
    (root_page_pointer : DualPagePointer) (st : ArrayStoragePimpl) (w0 : World) (offset : Nat)
    (hF : 2 ≤ K.INTERIOR_FANOUT) (hF16 : K.INTERIOR_FANOUT ≤ 2 ^ 16)
    (hN : 1 ≤ array_size) (h64 : array_size < 2 ^ 64)
    (hr : 1 ≤ K.DATA_SIZE / (align8 payload_size + K.RECORD_OVERHEAD))
    (hst : ArrayStoragePimpl.construct K fuel id payload_size array_size root_page_pointer true
      = some st)
    (hinj : Function.Injective w0.supply) (hnz : ∀ n, w0.supply n ≠ 0)
    (hempty : w0.grabbed = []) (ho : offset < array_size) :
    (∀ n, (st.create K w0).2.1.lookup_walk (st.create K w0).2.2.pages offset n ≠ none ↔
      n < st.levels_) ∧
    (∀ n p, (st.create K w0).2.1.lookup_walk (st.create K w0).2.2.pages offset n = some p →
      ((st.create K w0).2.2.pages p).array_range_.contains offset = true ∧
      ((st.create K w0).2.2.pages p).node_height_ + n + 1 = st.levels_) ∧
    (∀ n p, (st.create K w0).2.1.lookup_walk (st.create K w0).2.2.pages offset n = some p →
      ((st.create K w0).2.2.pages p).is_leaf = false →
      (sub_u64 offset ((st.create K w0).2.2.pages p).array_range_.begin_ /
          (st.create K w0).2.1.offset_intervals_.getD
            (((st.create K w0).2.2.pages p).node_height_ - 1) 0) % 2 ^ 16 =
        (offset - ((st.create K w0).2.2.pages p).array_range_.begin_) /
          (st.create K w0).2.1.offset_intervals_.getD
            (((st.create K w0).2.2.pages p).node_height_ - 1) 0 ∧
      (offset - ((st.create K w0).2.2.pages p).array_range_.begin_) /
        (st.create K w0).2.1.offset_intervals_.getD
          (((st.create K w0).2.2.pages p).node_height_ - 1) 0 < K.INTERIOR_FANOUT ∧
      ∃ child,
        (st.create K w0).2.1.selected_pointer (st.create K w0).2.2.pages offset p =
          ⟨0, ⟨0, child⟩⟩ ∧
        child ≠ 0 ∧ child ∈ (st.create K w0).2.2.grabbed ∧
        (st.create K w0).2.1.lookup_walk (st.create K w0).2.2.pages offset (n + 1) =
          some child) ∧
    (∃ leaf,
      (∀ fuel2, st.levels_ ≤ fuel2 →
        (st.create K w0).2.1.lookup (st.create K w0).2.2.pages fuel2 offset =
          some (ErrorCode.RET_OK, some leaf)) ∧
      ((st.create K w0).2.2.pages leaf).is_leaf = true ∧
      ((st.create K w0).2.2.pages leaf).array_range_.contains offset = true ∧
      sub_u64 offset ((st.create K w0).2.2.pages leaf).array_range_.begin_ =
        offset - ((st.create K w0).2.2.pages leaf).array_range_.begin_ ∧
      offset - ((st.create K w0).2.2.pages leaf).array_range_.begin_ <
        K.DATA_SIZE / (align8 payload_size + K.RECORD_OVERHEAD)) := by
  obtain ⟨leaf, hlook, _, hleaf, hcont, _, hidx, hsub, _⟩ := created_record K fuel id
    payload_size array_size root_page_pointer st w0 offset hF hF16 hN h64 hr hst hinj hnz hempty ho
  obtain ⟨c, w, st2, hcreate, hplan, hsize, _, hb, _, hroot, _, _, hiv⟩ := create_built K fuel id
    payload_size array_size root_page_pointer st w0 hF hN hr hst hinj hnz hempty
  have hwalk := hb.indexing hplan st2 hroot hiv hF16 offset (by rw [hsize]; exact ho)
    (by rw [hsize]; exact h64)
  refine ⟨?_, ?_, ?_, leaf, hlook, hleaf, hcont, hsub, hidx⟩
  · rw [hcreate]
    exact hwalk.1
  · rw [hcreate]
    exact hwalk.2.1
  · rw [hcreate]
    exact hwalk.2.2

/-- The array of five records, offset 4: lookup visits the root (page 3),
page 6 and the leaf (page 5); at the root the slot is 4 / 4 = 1, at page 6
it is 0 / 2 = 0, and the record index in the leaf is 0. -/
theorem lookup_indexing_in_bounds_witness :
    (2 ≤ small_consts.INTERIOR_FANOUT ∧ (4 : Nat) < 5) ∧
    (small_created.2.1.lookup_walk small_created.2.2.pages 4 0 = some 3 ∧
      small_created.2.1.lookup_walk small_created.2.2.pages 4 1 = some 6 ∧
      small_created.2.1.lookup_walk small_created.2.2.pages 4 2 = some 5 ∧
      (small_created.2.2.pages 6).is_leaf = false) ∧
    ((small_created.2.2.pages 6).array_range_.contains 4 = true ∧
      (small_created.2.2.pages 6).node_height_ + 1 + 1 = small_storage.levels_) ∧
    ((sub_u64 4 (small_created.2.2.pages 6).array_range_.begin_ /
          small_created.2.1.offset_intervals_.getD
            ((small_created.2.2.pages 6).node_height_ - 1) 0) % 2 ^ 16 =
        (4 - (small_created.2.2.pages 6).array_range_.begin_) /
          small_created.2.1.offset_intervals_.getD
            ((small_created.2.2.pages 6).node_height_ - 1) 0 ∧
      (4 - (small_created.2.2.pages 6).array_range_.begin_) /
        small_created.2.1.offset_intervals_.getD
          ((small_created.2.2.pages 6).node_height_ - 1) 0 < small_consts.INTERIOR_FANOUT ∧
      ∃ child,
        small_created.2.1.selected_pointer small_created.2.2.pages 4 6 = ⟨0, ⟨0, child⟩⟩ ∧
        child ≠ 0 ∧ child ∈ small_created.2.2.grabbed ∧
        small_created.2.1.lookup_walk small_created.2.2.pages 4 (1 + 1) = some child) :=
  ⟨⟨by decide, by decide⟩, ⟨by decide, by decide, by decide, by decide⟩,
    (lookup_indexing_in_bounds small_consts 9 7 8 5 DualPagePointer.null small_storage
      small_world 4 (by decide) (by decide) (by decide) (by decide) (by decide)
      small_storage_eq small_world_inj small_world_nonzero rfl (by decide)).2.1 1 6 (by decide),
    (lookup_indexing_in_bounds small_consts 9 7 8 5 DualPagePointer.null small_storage
      small_world 4 (by decide) (by decide) (by decide) (by decide) (by decide)
      small_storage_eq small_world_inj small_world_nonzero rfl (by decide)).2.2.1 1 6
      (by decide) (by decide)⟩

/-- C26: overwrite_record is not atomic when the write set fails.  For every
storage object, page memory, thread and arguments: when lookup has returned a
leaf and the log buffer has room for the entry, and `add_to_write_set` then
returns a code other than `RET_OK`, overwrite_record returns that code with
the write set as it was, while the tail of the thread's log buffer has
already moved by the log length and the reserved address holds the populated
entry; the page memory is untouched.  When lookup returns a code other than
`RET_OK`, overwrite_record returns that code and the thread context, log
buffer and write set included, is as it was. -/
theorem overwrite_record_not_atomic (calculate_log_length : Nat → Nat)
    (self : ArrayStoragePimpl) (pages : Nat → ArrayPage) (fuel : Nat) (context : Thread)
    (offset : Nat) (payload : Nat → Nat) (payload_offset payload_count : Nat) :
    (∀ leaf e xct, self.lookup pages fuel offset = some (ErrorCode.RET_OK, some leaf) →
      context.thread_log_buffer_.offset_tail_ + calculate_log_length payload_count % 2 ^ 16 ≤
        context.thread_log_buffer_.buffer_size_ →
      context.current_xct_.add_to_write_set leaf
        (sub_u64 offset (pages leaf).array_range_.begin_)
        context.thread_log_buffer_.offset_tail_ = (e, xct) →
      e ≠ ErrorCode.RET_OK →
      xct.write_set_ = context.current_xct_.write_set_ ∧
      self.overwrite_record calculate_log_length pages fuel context offset payload payload_offset
          payload_count =
        some (e,
          { current_xct_ := xct
            thread_log_buffer_ :=
              { buffer_size_ := context.thread_log_buffer_.buffer_size_
                offset_tail_ := context.thread_log_buffer_.offset_tail_ +
                  calculate_log_length payload_count % 2 ^ 16
                buffer_ := Function.update context.thread_log_buffer_.buffer_
                  context.thread_log_buffer_.offset_tail_
                  (some (OverwriteLogType.populate self.id_ offset payload payload_offset
                    payload_count)) } },
          pages)) ∧
    (∀ e out, self.lookup pages fuel offset = some (e, out) → e ≠ ErrorCode.RET_OK →
      self.overwrite_record calculate_log_length pages fuel context offset payload payload_offset
        payload_count = some (e, context, pages)) := by
  constructor
  · intro leaf e xct hl hroom hadd hne
    rw [overwrite_record_of_lookup _ _ _ _ _ _ _ _ _ leaf hl, if_pos hroom]
    unfold Xct.add_to_write_set at hadd
    by_cases hfull : context.current_xct_.max_write_set_size_ ≤
        context.current_xct_.write_set_.length
    · rw [if_pos hfull] at hadd
      have h1 := Prod.mk.inj hadd
      rw [if_pos hfull, ← h1.1, ← h1.2]
      exact ⟨rfl, rfl⟩
    · rw [if_neg hfull] at hadd
      exact absurd (Prod.mk.inj hadd).1.symm hne
  · intro e out hl hne
    unfold ArrayStoragePimpl.overwrite_record
    rw [hl]
    cases e with
    | RET_OK => exact absurd rfl hne
    | _ => rfl

/-- On the array of five records: an overwrite of record 4 with a full write
set returns `WRITE_SET_OVERFLOW` after the log entry of 24 bytes has been
reserved and populated; an overwrite on the page memory in which the root has
lost a child pointer returns `ERROR_CODE_NOTIMPLEMENTED` and leaves the thread
as it was. -/
theorem overwrite_record_not_atomic_witness :
    (small_created.2.1.lookup small_created.2.2.pages 3 4 = some (ErrorCode.RET_OK, some 5) ∧
      0 + small_calculate_log_length 8 % 2 ^ 16 ≤ 64) ∧
    (small_full_thread.current_xct_.write_set_ = [] ∧
      small_created.2.1.overwrite_record small_calculate_log_length small_created.2.2.pages 3
          small_full_thread 4 (fun i => 17 + i) 0 8 =
        some (ErrorCode.WRITE_SET_OVERFLOW,
          { current_xct_ := small_full_thread.current_xct_
            thread_log_buffer_ :=
              { buffer_size_ := 64
                offset_tail_ := 0 + small_calculate_log_length 8 % 2 ^ 16
                buffer_ := Function.update (fun _ => none) 0
                  (some (OverwriteLogType.populate small_created.2.1.id_ 4 (fun i => 17 + i)
                    0 8)) } },
          small_created.2.2.pages)) ∧
    (small_created.2.1.lookup small_evicted_pages 3 4 =
        some (ErrorCode.ERROR_CODE_NOTIMPLEMENTED, none) ∧
      small_created.2.1.overwrite_record small_calculate_log_length small_evicted_pages 3
          small_thread 4 (fun i => 17 + i) 0 8 =
        some (ErrorCode.ERROR_CODE_NOTIMPLEMENTED, small_thread, small_evicted_pages)) :=
  ⟨⟨by decide, by decide⟩,
    (overwrite_record_not_atomic small_calculate_log_length small_created.2.1
      small_created.2.2.pages 3 small_full_thread 4 (fun i => 17 + i) 0 8).1 5
      ErrorCode.WRITE_SET_OVERFLOW small_full_thread.current_xct_ (by decide) (by decide) rfl
      (by decide),
    ⟨by decide,
      (overwrite_record_not_atomic small_calculate_log_length small_created.2.1
        small_evicted_pages 3 small_thread 4 (fun i => 17 + i) 0 8).2
        ErrorCode.ERROR_CODE_NOTIMPLEMENTED none (by decide) (by decide)⟩⟩

end Foedus
